import Mathlib

/-!
# Touchscreen calibration: the affine solver, the sample reducer and the event decoder

A shallow embedding of `src/mainwindow.cpp` (class `MainWindow`):

* `invertMatrix3x3`, `calculateTransformationMatrix`: the least-squares solver;
* `calculateMeanOfPoints`: the reduction of a sample buffer to its mean;
* `readInputDevice`: the loop decoding `input_event` records.

`int` coordinates are modelled in `ℤ`; the `long long` accumulators wrap modulo `2^64`.
The solver is read twice.  `det3`, `invertMatrix3x3` and `calculateTransformationMatrix`
take `double` arithmetic exactly, in `ℚ`: they serve the statements that stipulate exact
arithmetic and those that do not depend on the parameters computed.  `det3Double`,
`invertMatrix3x3Double` and `calculateTransformationMatrixDouble` round every operation to
a binary64 number, with or without contraction to fused multiply-add: they serve the
statements about what the singularity test decides.
-/

namespace Calibration

open Finset

/-! ## Data model -/

/-- A `QPoint`: a pair of `int` coordinates. -/
structure QPoint where
  x : Int
  y : Int
deriving DecidableEq, Repr

/-- A `QPointF`: a pair of `double` coordinates, taken exactly. -/
structure QPointF where
  x : ℚ
  y : ℚ
deriving DecidableEq

/-- A `double[3][3]` array; `M i j` is `M[i][j]`. -/
abbrev Mat3 := Matrix (Fin 3) (Fin 3) ℚ

/-- Qt's `qFuzzyIsNull(double d)`, which is `qAbs(d) <= 0.000000000001`, the bound taken as
`10^-12` exactly. -/
def qFuzzyIsNull (d : ℚ) : Bool := decide (|d| ≤ 1 / 1000000000000)

/-- The local `det` of `invertMatrix3x3` (lines 240-242), arithmetic taken exactly. -/
def det3 (M_in : Mat3) : ℚ :=
  M_in 0 0 * (M_in 1 1 * M_in 2 2 - M_in 2 1 * M_in 1 2) -
  M_in 0 1 * (M_in 1 0 * M_in 2 2 - M_in 2 0 * M_in 1 2) +
  M_in 0 2 * (M_in 1 0 * M_in 2 1 - M_in 2 0 * M_in 1 1)

/-- `MainWindow::invertMatrix3x3`, arithmetic taken exactly: the returned `bool` and the
content of `M_out` after the call (`M_out` is left as it was when the function returns
`false`). -/
def invertMatrix3x3 (M_in M_out : Mat3) : Bool × Mat3 :=
  let det := det3 M_in
  if qFuzzyIsNull det then
    (false, M_out)
  else
    let invDet : ℚ := 1 / det
    (true,
     !![(M_in 1 1 * M_in 2 2 - M_in 2 1 * M_in 1 2) * invDet,
        (M_in 0 2 * M_in 2 1 - M_in 0 1 * M_in 2 2) * invDet,
        (M_in 0 1 * M_in 1 2 - M_in 0 2 * M_in 1 1) * invDet;
        (M_in 1 2 * M_in 2 0 - M_in 1 0 * M_in 2 2) * invDet,
        (M_in 0 0 * M_in 2 2 - M_in 0 2 * M_in 2 0) * invDet,
        (M_in 0 2 * M_in 1 0 - M_in 0 0 * M_in 1 2) * invDet;
        (M_in 1 0 * M_in 2 1 - M_in 2 0 * M_in 1 1) * invDet,
        (M_in 0 1 * M_in 2 0 - M_in 0 0 * M_in 2 1) * invDet,
        (M_in 0 0 * M_in 1 1 - M_in 0 1 * M_in 1 0) * invDet])

/-! ## The solver: `calculateTransformationMatrix` -/

/-- The element `v[i]` of a `QVector<QPoint>`; every read below is guarded to be in range. -/
def nth (v : List QPoint) (i : Nat) : QPoint := v.getD i ⟨0, 0⟩

/-- The loop `for (int i = 0; i < N; ++i) acc += f(i);` on an accumulator started at `0.0`. -/
def sumLoop (N : Nat) (f : Nat → ℚ) : ℚ :=
  (List.range N).foldl (fun acc i => acc + f i) 0

/-- The local `x_raw` at index `i`: `actualTouchPoints[i].x()` as a `double`. -/
def x_raw (raw : List QPoint) (i : Nat) : ℚ := ((nth raw i).x : ℚ)

/-- The local `y_raw` at index `i`: `actualTouchPoints[i].y()` as a `double`. -/
def y_raw (raw : List QPoint) (i : Nat) : ℚ := ((nth raw i).y : ℚ)

/-- The local `x_screen` at index `i`: `targetPoints[i].x()` as a `double`. -/
def x_screen (tgt : List QPoint) (i : Nat) : ℚ := ((nth tgt i).x : ℚ)

/-- The local `y_screen` at index `i`: `targetPoints[i].y()` as a `double`. -/
def y_screen (tgt : List QPoint) (i : Nat) : ℚ := ((nth tgt i).y : ℚ)

/-- The sum `S_xx` after the loop of lines 287-296. -/
def S_xx (raw : List QPoint) : ℚ := sumLoop raw.length (fun i => x_raw raw i * x_raw raw i)

/-- The sum `S_xy`. -/
def S_xy (raw : List QPoint) : ℚ := sumLoop raw.length (fun i => x_raw raw i * y_raw raw i)

/-- The sum `S_x`. -/
def S_x (raw : List QPoint) : ℚ := sumLoop raw.length (fun i => x_raw raw i)

/-- The sum `S_yy`. -/
def S_yy (raw : List QPoint) : ℚ := sumLoop raw.length (fun i => y_raw raw i * y_raw raw i)

/-- The sum `S_y`. -/
def S_y (raw : List QPoint) : ℚ := sumLoop raw.length (fun i => y_raw raw i)

/-- The value `S_1 = (double)N`. -/
def S_1 (raw : List QPoint) : ℚ := (raw.length : ℚ)

/-- The array `M_design` of lines 299-303. -/
def M_design (raw : List QPoint) : Mat3 :=
  !![S_xx raw, S_xy raw, S_x raw;
     S_xy raw, S_yy raw, S_y raw;
     S_x raw,  S_y raw,  S_1 raw]

/-- The array `R_x_vec` after the loop of lines 314-322. -/
def R_x_vec (raw tgt : List QPoint) : Fin 3 → ℚ :=
  ![sumLoop raw.length (fun i => x_raw raw i * x_screen tgt i),
    sumLoop raw.length (fun i => y_raw raw i * x_screen tgt i),
    sumLoop raw.length (fun i => x_screen tgt i)]

/-- The array `R_y_vec` after the loop of lines 332-340. -/
def R_y_vec (raw tgt : List QPoint) : Fin 3 → ℚ :=
  ![sumLoop raw.length (fun i => x_raw raw i * y_screen tgt i),
    sumLoop raw.length (fun i => y_raw raw i * y_screen tgt i),
    sumLoop raw.length (fun i => y_screen tgt i)]

/-- The fields of `MainWindow` that the calibration engine reads or writes.  `message` is the
text of `messageLabel`; `notifierEnabled` is false when `inputNotifier` is null or disabled. -/
structure MainWindow where
  targetPoints : List QPoint
  actualTouchPoints : List QPoint
  currentPointIndex : Nat
  message : String
  matrix : Fin 6 → ℚ
  notifierEnabled : Bool
  currentRawX : Int
  currentRawY : Int
  hasX : Bool
  hasY : Bool

/-- How a call of `calculateTransformationMatrix` ends.  The function is `void`; the
outcome records which `return` was taken and, on the full path, the two printed averages.
* `insufficientPoints`: the `return` of line 277, after the warning "Not enough points";
* `singularDesignMatrix`: the `return` of line 308, after "Could not invert design matrix";
* `targetOutOfRange`: a read `targetPoints[i]` past the end of the vector (an assertion
  failure of `QVector`);
* `solved eX eY`: the end of the function, with `eX = totalErrorX / N`, `eY = totalErrorY / N`. -/
inductive SolveOutcome where
  | insufficientPoints
  | singularDesignMatrix
  | targetOutOfRange
  | solved (avgErrX avgErrY : ℚ)
deriving DecidableEq

/-- The six values assigned to `matrix[0..5]` on lines 325-327 and 343-345. -/
def solveParameters (M_design_inv : Mat3) (R_x_vec R_y_vec : Fin 3 → ℚ) : Fin 6 → ℚ :=
  ![M_design_inv 0 0 * R_x_vec 0 + M_design_inv 0 1 * R_x_vec 1 + M_design_inv 0 2 * R_x_vec 2,
    M_design_inv 1 0 * R_x_vec 0 + M_design_inv 1 1 * R_x_vec 1 + M_design_inv 1 2 * R_x_vec 2,
    M_design_inv 2 0 * R_x_vec 0 + M_design_inv 2 1 * R_x_vec 1 + M_design_inv 2 2 * R_x_vec 2,
    M_design_inv 0 0 * R_y_vec 0 + M_design_inv 0 1 * R_y_vec 1 + M_design_inv 0 2 * R_y_vec 2,
    M_design_inv 1 0 * R_y_vec 0 + M_design_inv 1 1 * R_y_vec 1 + M_design_inv 1 2 * R_y_vec 2,
    M_design_inv 2 0 * R_y_vec 0 + M_design_inv 2 1 * R_y_vec 1 + M_design_inv 2 2 * R_y_vec 2]

/-- The accumulator `totalErrorX` after the loop of lines 361-374. -/
def totalErrorX (matrix : Fin 6 → ℚ) (raw tgt : List QPoint) : ℚ :=
  sumLoop raw.length (fun i =>
    |matrix 0 * x_raw raw i + matrix 1 * y_raw raw i + matrix 2 - x_screen tgt i|)

/-- The accumulator `totalErrorY` after the loop of lines 361-374. -/
def totalErrorY (matrix : Fin 6 → ℚ) (raw tgt : List QPoint) : ℚ :=
  sumLoop raw.length (fun i =>
    |matrix 3 * x_raw raw i + matrix 4 * y_raw raw i + matrix 5 - y_screen tgt i|)

/-- `MainWindow::calculateTransformationMatrix`, arithmetic taken exactly: the object after
the call and how the call ended.  `M_design_inv` is uninitialised before the inversion; it
is passed as `0`. -/
def calculateTransformationMatrix (s : MainWindow) : MainWindow × SolveOutcome :=
  if s.actualTouchPoints.length < 3 then
    (s, SolveOutcome.insufficientPoints)
  else
    let N := s.actualTouchPoints.length
    let inv := invertMatrix3x3 (M_design s.actualTouchPoints) 0
    if inv.1 = false then
      (s, SolveOutcome.singularDesignMatrix)
    else if s.targetPoints.length < N then
      (s, SolveOutcome.targetOutOfRange)
    else
      let matrix := solveParameters inv.2 (R_x_vec s.actualTouchPoints s.targetPoints)
        (R_y_vec s.actualTouchPoints s.targetPoints)
      ({ s with matrix := matrix },
       SolveOutcome.solved (totalErrorX matrix s.actualTouchPoints s.targetPoints / (N : ℚ))
         (totalErrorY matrix s.actualTouchPoints s.targetPoints / (N : ℚ)))

/-! ## The sample reducer: `calculateMeanOfPoints` -/

/-- A `long long` holds the integers of `[-2^63, 2^63)`; a sum outside wraps modulo `2^64`. -/
def wrapLongLong (z : Int) : Int := (z + 2 ^ 63) % 2 ^ 64 - 2 ^ 63

/-- `MainWindow::calculateMeanOfPoints`. -/
def calculateMeanOfPoints (points : List QPoint) : QPointF :=
  if points.isEmpty then
    ⟨0, 0⟩
  else
    let sumX : Int := points.foldl (fun acc point => wrapLongLong (acc + point.x)) 0
    let sumY : Int := points.foldl (fun acc point => wrapLongLong (acc + point.y)) 0
    let meanX : ℚ := (sumX : ℚ) / (points.length : ℚ)
    let meanY : ℚ := (sumY : ℚ) / (points.length : ℚ)
    ⟨meanX, meanY⟩

/-! ## The event decoder: `readInputDevice` -/

/-- A `struct input_event` of `linux/input.h`, without its time stamp. -/
structure input_event where
  type : Nat
  code : Nat
  value : Int
deriving DecidableEq

/-- The event type `EV_SYN` of `linux/input-event-codes.h`. -/
def EV_SYN : Nat := 0x00
/-- The event type `EV_KEY`. -/
def EV_KEY : Nat := 0x01
/-- The event type `EV_ABS`. -/
def EV_ABS : Nat := 0x03
/-- The axis code `ABS_X`. -/
def ABS_X : Nat := 0x00
/-- The axis code `ABS_Y`. -/
def ABS_Y : Nat := 0x01
/-- The key code `BTN_TOUCH`. -/
def BTN_TOUCH : Nat := 0x14a

/-- The constant `MAX_POINTS` of line 166. -/
def MAX_POINTS : Nat := 10

/-- The conversion of a `double` to `int` in `QPoint rawTouchPoint(result.x(), result.y())`:
the fractional part is discarded. -/
def toInt (d : ℚ) : Int := Int.tdiv d.num (d.den : Int)

/-- The locals `Points` and `pen_down` of `readInputDevice`. -/
structure Locals where
  Points : List QPoint
  pen_down : Bool
deriving DecidableEq

/-- The block of lines 195-211, run when a point is captured from the buffer `Points`. -/
def capturePoint (s : MainWindow) (Points : List QPoint) : MainWindow :=
  let result := calculateMeanOfPoints Points
  let rawTouchPoint : QPoint := ⟨toInt result.x, toInt result.y⟩
  let s1 := { s with actualTouchPoints := s.actualTouchPoints ++ [rawTouchPoint],
                     currentPointIndex := s.currentPointIndex + 1 }
  if s1.currentPointIndex < s1.targetPoints.length then
    { s1 with message := "Tap the next target." }
  else
    let s2 := { s1 with message := "Calculating calibration...", notifierEnabled := false }
    let s3 := (calculateTransformationMatrix s2).1
    { s3 with message := "Calibration Complete! Check console for matrix." }

/-- One iteration of the `while` loop of `readInputDevice` (lines 176-222) on the record `ev`. -/
def processRecord (st : MainWindow × Locals) (ev : input_event) : MainWindow × Locals :=
  let s := st.1
  let l := st.2
  if ev.type = EV_ABS then
    if ev.code = ABS_X then
      ({ s with currentRawX := ev.value, hasX := true }, l)
    else if ev.code = ABS_Y then
      ({ s with currentRawY := ev.value, hasY := true }, l)
    else
      (s, l)
  else if (ev.type = EV_KEY ∧ ev.code = BTN_TOUCH ∧ ev.value = 1) ∨ l.pen_down = true then
    if s.hasX = true ∧ s.hasY = true then
      let Points := l.Points ++ [(⟨s.currentRawX, s.currentRawX⟩ : QPoint)]
      if MAX_POINTS ≤ Points.length ∧ s.currentPointIndex < s.targetPoints.length then
        ({ capturePoint s Points with hasX := false, hasY := false }, ⟨[], true⟩)
      else
        ({ s with hasX := false, hasY := false }, ⟨Points, true⟩)
    else
      (s, l)
  else if ev.type = EV_KEY ∧ ev.code = BTN_TOUCH ∧ ev.value = 0 then
    ({ s with hasX := false, hasY := false }, ⟨[], false⟩)
  else
    (s, l)

/-- The `while` loop of `readInputDevice` on the records that `read` delivers to this call,
from the fresh locals `Points = {}`, `pen_down = false`. -/
def readLoop (s : MainWindow) (records : List input_event) : MainWindow × Locals :=
  records.foldl processRecord (s, ⟨[], false⟩)

/-- `MainWindow::readInputDevice`: the loop, then the error branch of lines 226-230, taken
when the last `read` returned `-1` with an `errno` other than `EAGAIN`. -/
def readInputDevice (s : MainWindow) (records : List input_event) (readError : Bool) :
    MainWindow :=
  let s1 := (readLoop s records).1
  if readError then
    { s1 with notifierEnabled := false,
              message := "Error reading input device. Check console." }
  else
    s1

/-- The record `ev` makes the loop body reach `Points.push_back` (line 192) from `st`: it is
no axis record, it is a contact-down or a contact is active, and both axis flags are set. -/
def emitsSample (st : MainWindow × Locals) (ev : input_event) : Bool :=
  decide (ev.type ≠ EV_ABS ∧
    ((ev.type = EV_KEY ∧ ev.code = BTN_TOUCH ∧ ev.value = 1) ∨ st.2.pen_down = true) ∧
    st.1.hasX = true ∧ st.1.hasY = true)

/-- The number of raw samples that the loop pushes to `Points` while it processes `records`
from the state `st`. -/
def sampleCount : MainWindow × Locals → List input_event → Nat
  | _, [] => 0
  | st, ev :: records =>
    (if emitsSample st ev then 1 else 0) + sampleCount (processRecord st ev) records

/-! ## Records and states used as examples -/

/-- The record `axis(X, v)`. -/
def axisX (v : Int) : input_event := ⟨EV_ABS, ABS_X, v⟩

/-- The record `axis(Y, v)`. -/
def axisY (v : Int) : input_event := ⟨EV_ABS, ABS_Y, v⟩

/-- The record `button(TOUCH, v)`. -/
def buttonTouch (v : Int) : input_event := ⟨EV_KEY, BTN_TOUCH, v⟩

/-- The record `EV_SYN / SYN_REPORT` that closes a packet; the decoder has no case for it. -/
def synReport : input_event := ⟨EV_SYN, 0, 0⟩

/-- The object as the constructor leaves it on an 800 x 480 screen. -/
def freshWindow : MainWindow :=
  { targetPoints := [⟨50, 50⟩, ⟨750, 50⟩, ⟨750, 430⟩, ⟨50, 430⟩, ⟨400, 240⟩]
    actualTouchPoints := []
    currentPointIndex := 0
    message := "Tap the first target."
    matrix := fun _ => 0
    notifierEnabled := true
    currentRawX := 0
    currentRawY := 0
    hasX := false
    hasY := false }

/-- The packet of one position report: both axes, then `SYN_REPORT`. -/
def positionPacket (x y : Int) : List input_event := [axisX x, axisY y, synReport]

/-- One contact-down followed by 19 position packets, the finger staying down: 20 samples. -/
def heldContact : List input_event :=
  [axisX 100, axisY 200, buttonTouch 1, synReport] ++
    (List.replicate 19 (positionPacket 100 200)).flatten

/-- Two short contacts: the first gives 9 samples and is released, the second gives 1. -/
def twoShortContacts : List input_event :=
  [axisX 100, axisY 200, buttonTouch 1, synReport] ++
    (List.replicate 8 (positionPacket 100 200)).flatten ++
    [buttonTouch 0, synReport] ++
    [axisX 100, axisY 200, buttonTouch 1, synReport] ++
    [buttonTouch 0, synReport]

/-- The five targets of `freshWindow`, each recorded 5 units up and to the left. -/
def shiftedWindow : MainWindow :=
  { freshWindow with
    actualTouchPoints := [⟨45, 45⟩, ⟨745, 45⟩, ⟨745, 425⟩, ⟨45, 425⟩, ⟨395, 235⟩]
    currentPointIndex := 5 }

/-- Three recorded raw points on the diagonal. -/
def diagonalWindow : MainWindow :=
  { freshWindow with
    actualTouchPoints := [⟨0, 0⟩, ⟨1, 1⟩, ⟨2, 2⟩]
    currentPointIndex := 3 }

/-- Two recorded raw points. -/
def twoPointWindow : MainWindow :=
  { freshWindow with
    actualTouchPoints := [⟨45, 45⟩, ⟨745, 45⟩]
    currentPointIndex := 2 }

/-- A symmetric matrix of determinant 16. -/
def exampleMatrix : Mat3 := !![4, 2, 2; 2, 3, 1; 2, 1, 3]

/-! ## Least-squares optimality, as a property of a parameter triple -/

/-- The triple `(p, q, r)` minimises the sum of the squares of `a * x_i + b * y_i + c - t_i`
over all real `(a, b, c)`, where `(x_i, y_i)` is the `i`-th raw point and `t i` the target
coordinate paired with it. -/
def minimisesSquares (raw : List QPoint) (t : Nat → Int) (p q r : ℚ) : Prop :=
  ∀ a b c : ℝ,
    ∑ i in range raw.length,
        ((p : ℝ) * ((nth raw i).x : ℝ) + (q : ℝ) * ((nth raw i).y : ℝ) + (r : ℝ) - (t i : ℝ)) ^ 2 ≤
      ∑ i in range raw.length,
        (a * ((nth raw i).x : ℝ) + b * ((nth raw i).y : ℝ) + c - (t i : ℝ)) ^ 2

/-! ## Geometry of the raw points -/

/-- Twice the signed area of the triangle `p q r`. -/
def cross (p q r : QPoint) : Int :=
  (q.x - p.x) * (r.y - p.y) - (r.x - p.x) * (q.y - p.y)

/-- The points of `v` all lie on one line: every triangle on three of them has area zero.
`collinear_iff_on_line` below shows that this is the existence of a line through them all. -/
def collinear (v : List QPoint) : Prop :=
  ∀ p ∈ v, ∀ q ∈ v, ∀ r ∈ v, cross p q r = 0

instance (v : List QPoint) : Decidable (collinear v) := by
  unfold collinear; infer_instance

/-! ## The determinant of three rows `(x, y, 1)` -/

/-- The 3x3 determinant of the rows `(x, y, 1)` of the points `p`, `q`, `r`. -/
def rowsDet (p q r : QPoint) : Int :=
  Matrix.det !![p.x, p.y, 1; q.x, q.y, 1; r.x, r.y, 1]

/-! ## What a run of the decoder loop produces -/

/-- The sample that line 192 pushes from the object `s`: `QPoint(currentRawX, currentRawX)`. -/
def currentSample (s : MainWindow) : QPoint := ⟨s.currentRawX, s.currentRawX⟩

/-- The point `rawTouchPoint` of lines 195-196, built from the buffer `Points`. -/
def recordedPoint (Points : List QPoint) : QPoint :=
  ⟨toInt (calculateMeanOfPoints Points).x, toInt (calculateMeanOfPoints Points).y⟩

/-- The record `ev` makes the loop body enter the capture block (line 194) from `st`: it
produces a sample, the buffer then holds `MAX_POINTS` samples or more, and a target is still
awaited. -/
def capturesPoint (st : MainWindow × Locals) (ev : input_event) : Bool :=
  emitsSample st ev &&
    decide (MAX_POINTS ≤ (st.2.Points ++ [currentSample st.1]).length ∧
      st.1.currentPointIndex < st.1.targetPoints.length)

/-- The record `ev` makes the loop body call `calculateTransformationMatrix` (line 208) from
`st`: it captures a point and no target is awaited after it. -/
def callsSolver (st : MainWindow × Locals) (ev : input_event) : Bool :=
  capturesPoint st ev &&
    decide (¬ (st.1.currentPointIndex + 1 < st.1.targetPoints.length))

/-- The samples that the loop pushes to `Points`, in order, while it processes `records`
from the state `st`. -/
def samplesOf : MainWindow × Locals → List input_event → List QPoint
  | _, [] => []
  | st, ev :: records =>
    (if emitsSample st ev then [currentSample st.1] else []) ++
      samplesOf (processRecord st ev) records

/-- The buffers handed to `calculateMeanOfPoints`, in order, while the loop processes
`records` from the state `st`. -/
def capturedBuffers : MainWindow × Locals → List input_event → List (List QPoint)
  | _, [] => []
  | st, ev :: records =>
    (if capturesPoint st ev then [st.2.Points ++ [currentSample st.1]] else []) ++
      capturedBuffers (processRecord st ev) records

/-- The number of calls of `calculateTransformationMatrix` that the loop makes while it
processes `records` from the state `st`. -/
def solverCalls : MainWindow × Locals → List input_event → Nat
  | _, [] => 0
  | st, ev :: records =>
    (if callsSolver st ev then 1 else 0) + solverCalls (processRecord st ev) records

/-- How the call of `calculateTransformationMatrix` on line 208 ends when the capture block
runs on the object `s` with the buffer `Points` and no target is awaited afterwards. -/
def solveAtCapture (s : MainWindow) (Points : List QPoint) : SolveOutcome :=
  (calculateTransformationMatrix
    { s with actualTouchPoints := s.actualTouchPoints ++ [recordedPoint Points],
             currentPointIndex := s.currentPointIndex + 1,
             message := "Calculating calibration...",
             notifierEnabled := false }).2

/-! ## Construction and reachable states -/

/-- `MainWindow::setupCalibrationPoints` on a window of the given `width()` and `height()`. -/
def setupCalibrationPoints (s : MainWindow) (width height : Int) : MainWindow :=
  let margin : Int := 50
  { s with
    targetPoints := s.targetPoints ++
      [⟨margin, margin⟩, ⟨width - margin, margin⟩, ⟨width - margin, height - margin⟩,
       ⟨margin, height - margin⟩, ⟨Int.tdiv width 2, Int.tdiv height 2⟩]
    matrix := fun _ => 0 }

/-- The constructor `MainWindow::MainWindow` on a screen whose available size is
`width` x `height`; `deviceOpened` tells whether `open` on the input device succeeded.  The
array `matrix`, uninitialised until `setupCalibrationPoints` runs, starts as zeros. -/
def constructMainWindow (width height : Int) (deviceOpened : Bool) : MainWindow :=
  let s0 : MainWindow :=
    { targetPoints := []
      actualTouchPoints := []
      currentPointIndex := 0
      message := "Tap the targets to calibrate the touchscreen."
      matrix := fun _ => 0
      notifierEnabled := false
      currentRawX := 0
      currentRawY := 0
      hasX := false
      hasY := false }
  let s1 := setupCalibrationPoints s0 width height
  let s2 := { s1 with message := "Tap the first target." }
  if deviceOpened then
    { s2 with notifierEnabled := true }
  else
    { s2 with message := "Error: Could not open input device. Check console." }

/-- The states of the object reachable from construction by calls of `readInputDevice`. -/
inductive Reachable : MainWindow → Prop where
  | construct (width height : Int) (deviceOpened : Bool) :
      Reachable (constructMainWindow width height deviceOpened)
  | read (s : MainWindow) (records : List input_event) (readError : Bool) :
      Reachable s → Reachable (readInputDevice s records readError)

/-! ## More examples -/

/-- Ten samples whose x sum to 1005. -/
def samplesSum1005 : List QPoint := List.replicate 9 ⟨100, 100⟩ ++ [⟨105, 105⟩]

/-- Ten samples whose x sum to -1005. -/
def samplesSumNeg1005 : List QPoint := List.replicate 9 ⟨-100, -100⟩ ++ [⟨-105, -105⟩]

/-- Ten equal samples `(395, 395)`. -/
def samplesAt395 : List QPoint := List.replicate 10 ⟨395, 395⟩

/-- Four points recorded near the four corner targets; the fifth target is awaited. -/
def fourCornersWindow : MainWindow :=
  { freshWindow with
    actualTouchPoints := [⟨45, 45⟩, ⟨745, 45⟩, ⟨745, 425⟩, ⟨45, 425⟩]
    currentPointIndex := 4 }

/-- Four points recorded on the diagonal; the fifth target is awaited. -/
def fourDiagonalWindow : MainWindow :=
  { freshWindow with
    actualTouchPoints := [⟨45, 45⟩, ⟨745, 745⟩, ⟨425, 425⟩, ⟨100, 100⟩]
    currentPointIndex := 4 }

/-- One contact-down followed by 9 position packets, the finger staying down: 10 samples. -/
def tenSampleContact : List input_event :=
  [axisX 100, axisY 200, buttonTouch 1, synReport] ++
    (List.replicate 9 (positionPacket 100 200)).flatten

/-! ## Binary64 rounding

A `double` is an IEEE 754 binary64 number: a significand of 53 bits and an exponent, the
least place being `2^-1074`.  The result of an operation is the exact result rounded to the
nearest `double`, a tie going to the even significand.  A finite `double` is modelled by the
rational it denotes; overflow to infinity (a result of magnitude `2^1024` or more) is not
modelled: the solver's values on `int` coordinates stay far below it. -/

/-- The integer nearest to `t`; a tie goes to the even neighbour. -/
def roundHalfEven (t : ℚ) : Int :=
  if t - ⌊t⌋ < 1 / 2 then ⌊t⌋
  else if 1 / 2 < t - ⌊t⌋ then ⌊t⌋ + 1
  else if ⌊t⌋ % 2 = 0 then ⌊t⌋ else ⌊t⌋ + 1

/-- The exponent `e` of the last place of a `double` near `q`: `2^(e+52) <= |q| < 2^(e+53)`
for a normal number, and `-1074` below the normal range. -/
def ulpExponent (q : ℚ) : Int := max (Int.log 2 |q| - 52) (-1074)

/-- The `double` nearest to `q`, a tie going to the even significand. -/
def roundDouble (q : ℚ) : ℚ :=
  if q = 0 then 0 else (roundHalfEven (q / 2 ^ ulpExponent q) : ℚ) * 2 ^ ulpExponent q

/-- The value of `roundDouble` at an integer, computed on integers (`roundDouble_intCast`):
an integer below `2^53` in absolute value is a `double`; a larger one is rounded at its
bit `k - 52`, where `k` is the position of its leading bit. -/
def roundInt (z : Int) : Int :=
  let k := Nat.log2 z.natAbs
  if k ≤ 52 then z
  else
    let e := k - 52
    let f := z / 2 ^ e
    let r := z % 2 ^ e
    let h : Int := 2 ^ (e - 1)
    (if r < h then f else if h < r then f + 1 else if f % 2 = 0 then f else f + 1) * 2 ^ e

/-! ## The solver in `double` arithmetic -/

/-- How the `double` expressions of the solver are evaluated.  `fl` rounds the exact result
of an operation to a `double`.  Without `fused` every operation rounds on its own.  With
`fused` a product that feeds one addition or subtraction and nothing else is contracted with
it into a fused multiply-add, which rounds once; where both operands are such products the
left one is contracted.  This is what GCC does at its default `-ffp-contract=fast` on a
target that has the instruction (aarch64, x86-64 with FMA). -/
structure Arith where
  fl : ℚ → ℚ
  fused : Bool

/-- The product `a * b`. -/
def Arith.mul (ar : Arith) (a b : ℚ) : ℚ := ar.fl (a * b)

/-- The sum `a + b`. -/
def Arith.add (ar : Arith) (a b : ℚ) : ℚ := ar.fl (a + b)

/-- The difference `a - b`. -/
def Arith.sub (ar : Arith) (a b : ℚ) : ℚ := ar.fl (a - b)

/-- The quotient `a / b`. -/
def Arith.div (ar : Arith) (a b : ℚ) : ℚ := ar.fl (a / b)

/-- The expression `a * b + c` (also `c + a * b`, and `c += a * b`), the product having no
other use. -/
def Arith.mulAdd (ar : Arith) (a b c : ℚ) : ℚ :=
  if ar.fused then ar.fl (a * b + c) else ar.fl (ar.fl (a * b) + c)

/-- The expression `a * b - c`, the product having no other use. -/
def Arith.mulSub (ar : Arith) (a b c : ℚ) : ℚ :=
  if ar.fused then ar.fl (a * b - c) else ar.fl (ar.fl (a * b) - c)

/-- IEEE 754 binary64 arithmetic, with or without contraction. -/
def binary64 (fused : Bool) : Arith := ⟨roundDouble, fused⟩

/-- Arithmetic without rounding: under it the definitions below are `det3`,
`invertMatrix3x3` and `calculateTransformationMatrix` (see
`calculateTransformationMatrixDouble_exactArith`). -/
def exactArith : Arith := ⟨fun q => q, false⟩

/-- Qt's `qFuzzyIsNull(double d)`; the literal `0.000000000001` is a `double`. -/
def qFuzzyIsNullDouble (ar : Arith) (d : ℚ) : Bool :=
  decide (|d| ≤ ar.fl (1 / 1000000000000))

/-- The local `det` of `invertMatrix3x3` (lines 240-242) as the machine computes it:
`M00 * X - M01 * Y + M02 * Z`, where `X`, `Y`, `Z` are the three differences of products in
parentheses.  Contracted, `X` is `fma(M11, M22, -(M21 * M12))`, likewise `Y` and `Z`, and the
value is `fma(M02, Z, fma(M00, X, -(M01 * Y)))`. -/
def det3Double (ar : Arith) (M_in : Mat3) : ℚ :=
  let X := ar.mulSub (M_in 1 1) (M_in 2 2) (ar.mul (M_in 2 1) (M_in 1 2))
  let Y := ar.mulSub (M_in 1 0) (M_in 2 2) (ar.mul (M_in 2 0) (M_in 1 2))
  let Z := ar.mulSub (M_in 1 0) (M_in 2 1) (ar.mul (M_in 2 0) (M_in 1 1))
  ar.mulAdd (M_in 0 2) Z (ar.mulSub (M_in 0 0) X (ar.mul (M_in 0 1) Y))

/-- `MainWindow::invertMatrix3x3` as the machine computes it: the returned `bool` and the
content of `M_out` after the call. -/
def invertMatrix3x3Double (ar : Arith) (M_in M_out : Mat3) : Bool × Mat3 :=
  let det := det3Double ar M_in
  if qFuzzyIsNullDouble ar det then
    (false, M_out)
  else
    let invDet : ℚ := ar.div 1 det
    (true,
     !![ar.mul (ar.mulSub (M_in 1 1) (M_in 2 2) (ar.mul (M_in 2 1) (M_in 1 2))) invDet,
        ar.mul (ar.mulSub (M_in 0 2) (M_in 2 1) (ar.mul (M_in 0 1) (M_in 2 2))) invDet,
        ar.mul (ar.mulSub (M_in 0 1) (M_in 1 2) (ar.mul (M_in 0 2) (M_in 1 1))) invDet;
        ar.mul (ar.mulSub (M_in 1 2) (M_in 2 0) (ar.mul (M_in 1 0) (M_in 2 2))) invDet,
        ar.mul (ar.mulSub (M_in 0 0) (M_in 2 2) (ar.mul (M_in 0 2) (M_in 2 0))) invDet,
        ar.mul (ar.mulSub (M_in 0 2) (M_in 1 0) (ar.mul (M_in 0 0) (M_in 1 2))) invDet;
        ar.mul (ar.mulSub (M_in 1 0) (M_in 2 1) (ar.mul (M_in 2 0) (M_in 1 1))) invDet,
        ar.mul (ar.mulSub (M_in 0 1) (M_in 2 0) (ar.mul (M_in 0 0) (M_in 2 1))) invDet,
        ar.mul (ar.mulSub (M_in 0 0) (M_in 1 1) (ar.mul (M_in 0 1) (M_in 1 0))) invDet])

/-- The loop `for (int i = 0; i < N; ++i) acc = step(acc, i);` on an accumulator started at
`0.0`. -/
def accumulate (N : Nat) (step : ℚ → Nat → ℚ) : ℚ :=
  (List.range N).foldl step 0

/-- The array `M_design` of lines 299-303 as the machine computes it; an `int` converts to a
`double` without rounding. -/
def M_designDouble (ar : Arith) (raw : List QPoint) : Mat3 :=
  let S_xx := accumulate raw.length (fun acc i => ar.mulAdd (x_raw raw i) (x_raw raw i) acc)
  let S_xy := accumulate raw.length (fun acc i => ar.mulAdd (x_raw raw i) (y_raw raw i) acc)
  let S_x := accumulate raw.length (fun acc i => ar.add acc (x_raw raw i))
  let S_yy := accumulate raw.length (fun acc i => ar.mulAdd (y_raw raw i) (y_raw raw i) acc)
  let S_y := accumulate raw.length (fun acc i => ar.add acc (y_raw raw i))
  let S_1 : ℚ := (raw.length : ℚ)
  !![S_xx, S_xy, S_x;
     S_xy, S_yy, S_y;
     S_x,  S_y,  S_1]

/-- The array `R_x_vec` after the loop of lines 314-322 as the machine computes it. -/
def R_x_vecDouble (ar : Arith) (raw tgt : List QPoint) : Fin 3 → ℚ :=
  ![accumulate raw.length (fun acc i => ar.mulAdd (x_raw raw i) (x_screen tgt i) acc),
    accumulate raw.length (fun acc i => ar.mulAdd (y_raw raw i) (x_screen tgt i) acc),
    accumulate raw.length (fun acc i => ar.add acc (x_screen tgt i))]

/-- The array `R_y_vec` after the loop of lines 332-340 as the machine computes it. -/
def R_y_vecDouble (ar : Arith) (raw tgt : List QPoint) : Fin 3 → ℚ :=
  ![accumulate raw.length (fun acc i => ar.mulAdd (x_raw raw i) (y_screen tgt i) acc),
    accumulate raw.length (fun acc i => ar.mulAdd (y_raw raw i) (y_screen tgt i) acc),
    accumulate raw.length (fun acc i => ar.add acc (y_screen tgt i))]

/-- The expression `I[r][0] * R[0] + I[r][1] * R[1] + I[r][2] * R[2]` of lines 325-327 and
343-345. -/
def rowTimesVector (ar : Arith) (I : Mat3) (r : Fin 3) (R : Fin 3 → ℚ) : ℚ :=
  ar.mulAdd (I r 2) (R 2) (ar.mulAdd (I r 0) (R 0) (ar.mul (I r 1) (R 1)))

/-- The six values assigned to `matrix[0..5]` as the machine computes them. -/
def solveParametersDouble (ar : Arith) (M_design_inv : Mat3) (R_x_vec R_y_vec : Fin 3 → ℚ) :
    Fin 6 → ℚ :=
  ![rowTimesVector ar M_design_inv 0 R_x_vec,
    rowTimesVector ar M_design_inv 1 R_x_vec,
    rowTimesVector ar M_design_inv 2 R_x_vec,
    rowTimesVector ar M_design_inv 0 R_y_vec,
    rowTimesVector ar M_design_inv 1 R_y_vec,
    rowTimesVector ar M_design_inv 2 R_y_vec]

/-- The accumulator `totalErrorX` after the loop of lines 361-374 as the machine computes
it. -/
def totalErrorXDouble (ar : Arith) (matrix : Fin 6 → ℚ) (raw tgt : List QPoint) : ℚ :=
  accumulate raw.length (fun acc i => ar.add acc
    |ar.sub (ar.add (ar.mulAdd (matrix 0) (x_raw raw i) (ar.mul (matrix 1) (y_raw raw i)))
      (matrix 2)) (x_screen tgt i)|)

/-- The accumulator `totalErrorY` after the loop of lines 361-374 as the machine computes
it. -/
def totalErrorYDouble (ar : Arith) (matrix : Fin 6 → ℚ) (raw tgt : List QPoint) : ℚ :=
  accumulate raw.length (fun acc i => ar.add acc
    |ar.sub (ar.add (ar.mulAdd (matrix 3) (x_raw raw i) (ar.mul (matrix 4) (y_raw raw i)))
      (matrix 5)) (y_screen tgt i)|)

/-- `MainWindow::calculateTransformationMatrix` as the machine computes it: the object after
the call and how the call ended. -/
def calculateTransformationMatrixDouble (ar : Arith) (s : MainWindow) :
    MainWindow × SolveOutcome :=
  if s.actualTouchPoints.length < 3 then
    (s, SolveOutcome.insufficientPoints)
  else
    let N := s.actualTouchPoints.length
    let inv := invertMatrix3x3Double ar (M_designDouble ar s.actualTouchPoints) 0
    if inv.1 = false then
      (s, SolveOutcome.singularDesignMatrix)
    else if s.targetPoints.length < N then
      (s, SolveOutcome.targetOutOfRange)
    else
      let matrix := solveParametersDouble ar inv.2
        (R_x_vecDouble ar s.actualTouchPoints s.targetPoints)
        (R_y_vecDouble ar s.actualTouchPoints s.targetPoints)
      ({ s with matrix := matrix },
       SolveOutcome.solved
         (ar.div (totalErrorXDouble ar matrix s.actualTouchPoints s.targetPoints) (N : ℚ))
         (ar.div (totalErrorYDouble ar matrix s.actualTouchPoints s.targetPoints) (N : ℚ)))

/-- The rational `q` is an integer of absolute value at most `b`. -/
def IsIntLe (b : Nat) (q : ℚ) : Prop := ∃ z : Int, q = (z : ℚ) ∧ z.natAbs ≤ b

/-- Five recorded raw points on the line `y = x + 1`. -/
def offsetLineWindow : MainWindow :=
  { freshWindow with
    actualTouchPoints := [⟨3000, 3001⟩, ⟨30000, 30001⟩, ⟨31000, 31001⟩, ⟨3500, 3501⟩,
      ⟨16000, 16001⟩]
    currentPointIndex := 5 }

/-- Three recorded raw points, the corners of a triangle of area 1/2 far from the origin. -/
def farTriangleWindow : MainWindow :=
  { freshWindow with
    actualTouchPoints := [⟨1000000000, 1000000000⟩, ⟨1000000001, 1000000000⟩,
      ⟨1000000000, 1000000001⟩]
    currentPointIndex := 3 }

/-! ## The event decoder over the solver in `double` arithmetic -/

/-- The block of lines 195-211, the call of line 208 computing in the arithmetic `ar`. -/
def capturePointDouble (ar : Arith) (s : MainWindow) (Points : List QPoint) : MainWindow :=
  let result := calculateMeanOfPoints Points
  let rawTouchPoint : QPoint := ⟨toInt result.x, toInt result.y⟩
  let s1 := { s with actualTouchPoints := s.actualTouchPoints ++ [rawTouchPoint],
                     currentPointIndex := s.currentPointIndex + 1 }
  if s1.currentPointIndex < s1.targetPoints.length then
    { s1 with message := "Tap the next target." }
  else
    let s2 := { s1 with message := "Calculating calibration...", notifierEnabled := false }
    let s3 := (calculateTransformationMatrixDouble ar s2).1
    { s3 with message := "Calibration Complete! Check console for matrix." }

/-- One iteration of the `while` loop of `readInputDevice` (lines 176-222) on the record
`ev`, the solver computing in the arithmetic `ar`. -/
def processRecordDouble (ar : Arith) (st : MainWindow × Locals) (ev : input_event) :
    MainWindow × Locals :=
  let s := st.1
  let l := st.2
  if ev.type = EV_ABS then
    if ev.code = ABS_X then
      ({ s with currentRawX := ev.value, hasX := true }, l)
    else if ev.code = ABS_Y then
      ({ s with currentRawY := ev.value, hasY := true }, l)
    else
      (s, l)
  else if (ev.type = EV_KEY ∧ ev.code = BTN_TOUCH ∧ ev.value = 1) ∨ l.pen_down = true then
    if s.hasX = true ∧ s.hasY = true then
      let Points := l.Points ++ [(⟨s.currentRawX, s.currentRawX⟩ : QPoint)]
      if MAX_POINTS ≤ Points.length ∧ s.currentPointIndex < s.targetPoints.length then
        ({ capturePointDouble ar s Points with hasX := false, hasY := false }, ⟨[], true⟩)
      else
        ({ s with hasX := false, hasY := false }, ⟨Points, true⟩)
    else
      (s, l)
  else if ev.type = EV_KEY ∧ ev.code = BTN_TOUCH ∧ ev.value = 0 then
    ({ s with hasX := false, hasY := false }, ⟨[], false⟩)
  else
    (s, l)

/-- The `while` loop of `readInputDevice`, the solver computing in the arithmetic `ar`. -/
def readLoopDouble (ar : Arith) (s : MainWindow) (records : List input_event) :
    MainWindow × Locals :=
  records.foldl (processRecordDouble ar) (s, ⟨[], false⟩)

/-- `MainWindow::readInputDevice`, the solver computing in the arithmetic `ar`. -/
def readInputDeviceDouble (ar : Arith) (s : MainWindow) (records : List input_event)
    (readError : Bool) : MainWindow :=
  let s1 := (readLoopDouble ar s records).1
  if readError then
    { s1 with notifierEnabled := false,
              message := "Error reading input device. Check console." }
  else
    s1

/-- The states of the object reachable from construction by calls of `readInputDevice`, the
solver computing in the arithmetic `ar`. -/
inductive ReachableDouble (ar : Arith) : MainWindow → Prop where
  | construct (width height : Int) (deviceOpened : Bool) :
      ReachableDouble ar (constructMainWindow width height deviceOpened)
  | read (s : MainWindow) (records : List input_event) (readError : Bool) :
      ReachableDouble ar s → ReachableDouble ar (readInputDeviceDouble ar s records readError)

/-- The object `s` with the array `matrix` replaced by `m`. -/
def setMatrix (s : MainWindow) (m : Fin 6 → ℚ) : MainWindow := { s with matrix := m }

/-- Five contacts held for ten samples each, at the raw positions 1000, 29500, 29500, 1000
and 15500, read in one call. -/
def fiveContacts : List input_event :=
  [axisX 1000, axisY 200, buttonTouch 1, synReport] ++
    (List.replicate 9 (positionPacket 1000 200)).flatten ++
    (List.replicate 10 (positionPacket 29500 200)).flatten ++
    (List.replicate 10 (positionPacket 29500 4000)).flatten ++
    (List.replicate 10 (positionPacket 1000 4000)).flatten ++
    (List.replicate 10 (positionPacket 15500 2000)).flatten

/-- The five points that `fiveContacts` makes the decoder record. -/
def fiveContactPoints : List QPoint :=
  [⟨1000, 1000⟩, ⟨29500, 29500⟩, ⟨29500, 29500⟩, ⟨1000, 1000⟩, ⟨15500, 15500⟩]

/-- A matrix of determinant 1: `(2^27 + 1)^2 - 2^28 * (2^26 + 1) = 1`. -/
def unitDetMatrix : Mat3 := !![134217729, 268435456, 0; 67108865, 134217729, 0; 0, 0, 1]

/-! ## Theorems -/

/-! ### Loops as sums -/

theorem sumLoop_eq_sum (N : Nat) (f : Nat → ℚ) : sumLoop N f = ∑ i in range N, f i := by
  unfold sumLoop
  induction N with
  | zero => simp
  | succ n ih => rw [List.range_succ, List.foldl_append, ih, Finset.sum_range_succ]; rfl

theorem nth_mem (v : List QPoint) (i : Nat) (h : i < v.length) : nth v i ∈ v := by
  unfold nth
  rw [List.getD_eq_getElem v _ h]
  exact List.getElem_mem h

theorem exists_nth_of_mem (v : List QPoint) (p : QPoint) (h : p ∈ v) :
    ∃ i, i < v.length ∧ nth v i = p := by
  obtain ⟨i, hi, rfl⟩ := List.getElem_of_mem h
  exact ⟨i, hi, by unfold nth; rw [List.getD_eq_getElem v _ hi]⟩

/-! ### Collinearity -/

/-- The points of `v` are `collinear` exactly when some line `a * x + b * y + c = 0` of the
plane passes through all of them. -/
theorem collinear_iff_on_line (v : List QPoint) :
    collinear v ↔
      ∃ a b c : ℝ, (a ≠ 0 ∨ b ≠ 0) ∧ ∀ p ∈ v, a * (p.x : ℝ) + b * (p.y : ℝ) + c = 0 := by
  constructor
  · intro h
    by_cases hall : ∃ p ∈ v, ∃ q ∈ v, p ≠ q
    · obtain ⟨p, hp, q, hq, hpq⟩ := hall
      refine ⟨(q.y : ℝ) - p.y, (p.x : ℝ) - q.x,
        -(((q.y : ℝ) - p.y) * p.x + ((p.x : ℝ) - q.x) * p.y), ?_, ?_⟩
      · by_contra hab
        push_neg at hab
        obtain ⟨ha, hb⟩ := hab
        apply hpq
        have hy : q.y = p.y := by
          have : (q.y : ℝ) = p.y := by linarith
          exact_mod_cast this
        have hx : p.x = q.x := by
          have : (p.x : ℝ) = q.x := by linarith
          exact_mod_cast this
        cases p
        cases q
        simp_all
      · intro r hr
        have hc : ((cross p q r : Int) : ℝ) = 0 := by exact_mod_cast h p hp q hq r hr
        simp only [cross] at hc
        push_cast at hc
        linear_combination (-1 : ℝ) * hc
    · push_neg at hall
      cases v with
      | nil => exact ⟨1, 0, 0, Or.inl one_ne_zero, fun p hp => by simp at hp⟩
      | cons p0 ps =>
        refine ⟨1, 0, -(p0.x : ℝ), Or.inl one_ne_zero, fun r hr => ?_⟩
        rw [hall r hr p0 (List.mem_cons_self p0 ps)]
        ring
  · rintro ⟨a, b, c, hab, hl⟩ p hp q hq r hr
    have ep := hl p hp
    have eq := hl q hq
    have er := hl r hr
    have ha : a * ((cross p q r : Int) : ℝ) = 0 := by
      simp only [cross]
      push_cast
      linear_combination ((r.y : ℝ) - p.y) * (eq - ep) - ((q.y : ℝ) - p.y) * (er - ep)
    have hb : b * ((cross p q r : Int) : ℝ) = 0 := by
      simp only [cross]
      push_cast
      linear_combination ((q.x : ℝ) - p.x) * (er - ep) - ((r.x : ℝ) - p.x) * (eq - ep)
    have hz : ((cross p q r : Int) : ℝ) = 0 := by
      rcases hab with h0 | h0
      · exact (mul_eq_zero.1 ha).resolve_left h0
      · exact (mul_eq_zero.1 hb).resolve_left h0
    exact_mod_cast hz

/-! ### The determinant of the design matrix as a sum of squared areas -/

theorem sum_sq_affine (u v : Nat → ℚ) (a b : ℚ) (n : Nat) :
    ∑ k in range n, (a * v k - u k * b) ^ 2 =
      a ^ 2 * (∑ k in range n, v k * v k) - 2 * a * b * (∑ k in range n, u k * v k) +
        b ^ 2 * (∑ k in range n, u k * u k) := by
  induction n with
  | zero => simp
  | succ n ih => simp only [Finset.sum_range_succ, ih]; ring

theorem sum_sum_sq_cross (u v : Nat → ℚ) (m n : Nat) :
    ∑ j in range m, ∑ k in range n, (u j * v k - u k * v j) ^ 2 =
      (∑ j in range m, u j * u j) * (∑ k in range n, v k * v k) +
      (∑ j in range m, v j * v j) * (∑ k in range n, u k * u k) -
      2 * (∑ j in range m, u j * v j) * (∑ k in range n, u k * v k) := by
  induction m with
  | zero => simp
  | succ m ih =>
    rw [Finset.sum_range_succ, ih, sum_sq_affine]
    simp only [Finset.sum_range_succ]
    ring


theorem sum_sq_shift (x : Nat → ℚ) (c : ℚ) (n : Nat) :
    ∑ k in range n, (x k - c) * (x k - c) =
      (∑ k in range n, x k * x k) - 2 * c * (∑ k in range n, x k) + n * c ^ 2 := by
  induction n with
  | zero => simp
  | succ n ih => simp only [Finset.sum_range_succ, ih]; push_cast; ring

theorem sum_mul_shift (x y : Nat → ℚ) (c d : ℚ) (n : Nat) :
    ∑ k in range n, (x k - c) * (y k - d) =
      (∑ k in range n, x k * y k) - c * (∑ k in range n, y k) - d * (∑ k in range n, x k) +
        n * c * d := by
  induction n with
  | zero => simp
  | succ n ih => simp only [Finset.sum_range_succ, ih]; push_cast; ring

/-- The sum over all index triples of the squared area form, for arbitrary coordinates. -/
theorem sum_triple_sq (x y : Nat → ℚ) (n l : Nat) :
    ∑ i in range l, ∑ j in range n, ∑ k in range n,
        ((x j - x i) * (y k - y i) - (x k - x i) * (y j - y i)) ^ 2 =
      2 * ((l : ℚ) * ((∑ k in range n, x k * x k) * (∑ k in range n, y k * y k) -
              (∑ k in range n, x k * y k) ^ 2) +
        (∑ i in range l, x i * x i) *
          (n * (∑ k in range n, y k * y k) - (∑ k in range n, y k) ^ 2) +
        (∑ i in range l, y i * y i) *
          (n * (∑ k in range n, x k * x k) - (∑ k in range n, x k) ^ 2) +
        (∑ i in range l, x i * y i) *
          (2 * (∑ k in range n, x k) * (∑ k in range n, y k) -
            2 * n * (∑ k in range n, x k * y k)) +
        (∑ i in range l, x i) *
          (2 * (∑ k in range n, x k * y k) * (∑ k in range n, y k) -
            2 * (∑ k in range n, x k) * (∑ k in range n, y k * y k)) +
        (∑ i in range l, y i) *
          (2 * (∑ k in range n, x k * y k) * (∑ k in range n, x k) -
            2 * (∑ k in range n, x k * x k) * (∑ k in range n, y k))) := by
  induction l with
  | zero => simp
  | succ l ih =>
    rw [Finset.sum_range_succ, ih]
    rw [sum_sum_sq_cross (fun j => x j - x l) (fun k => y k - y l) n n]
    simp only [Finset.sum_range_succ, sum_sq_shift, sum_mul_shift]
    push_cast
    ring

/-- Six times the determinant of the design matrix is the sum, over all index triples, of
the squared doubled area of the triangle on the three raw points. -/
theorem six_det_M_design (raw : List QPoint) :
    6 * det3 (M_design raw) =
      ∑ i in range raw.length, ∑ j in range raw.length, ∑ k in range raw.length,
        ((cross (nth raw i) (nth raw j) (nth raw k) : Int) : ℚ) ^ 2 := by
  have h := sum_triple_sq (x_raw raw) (y_raw raw) raw.length raw.length
  have hc : ∀ i j k, ((cross (nth raw i) (nth raw j) (nth raw k) : Int) : ℚ) =
      (x_raw raw j - x_raw raw i) * (y_raw raw k - y_raw raw i) -
        (x_raw raw k - x_raw raw i) * (y_raw raw j - y_raw raw i) := by
    intro i j k
    simp only [cross, x_raw, y_raw]
    push_cast
    ring
  simp only [hc]
  rw [h]
  simp only [det3, M_design, S_xx, S_xy, S_x, S_yy, S_y, S_1, sumLoop_eq_sum]
  simp
  ring

theorem det_M_design_eq_zero (raw : List QPoint) (h : collinear raw) :
    det3 (M_design raw) = 0 := by
  have h6 := six_det_M_design raw
  have hz : ∑ i in range raw.length, ∑ j in range raw.length, ∑ k in range raw.length,
      ((cross (nth raw i) (nth raw j) (nth raw k) : Int) : ℚ) ^ 2 = 0 := by
    apply Finset.sum_eq_zero; intro i hi
    apply Finset.sum_eq_zero; intro j hj
    apply Finset.sum_eq_zero; intro k hk
    rw [h _ (nth_mem raw i (mem_range.1 hi)) _ (nth_mem raw j (mem_range.1 hj)) _
      (nth_mem raw k (mem_range.1 hk))]
    simp
  rw [hz] at h6
  linarith

theorem one_le_six_det_M_design (raw : List QPoint) (h : ¬ collinear raw) :
    1 ≤ 6 * det3 (M_design raw) := by
  unfold collinear at h
  push_neg at h
  obtain ⟨p, hp, q, hq, r, hr, hne⟩ := h
  obtain ⟨i, hi, rfl⟩ := exists_nth_of_mem raw p hp
  obtain ⟨j, hj, rfl⟩ := exists_nth_of_mem raw q hq
  obtain ⟨k, hk, rfl⟩ := exists_nth_of_mem raw r hr
  rw [six_det_M_design]
  have h1 : (1 : ℚ) ≤ ((cross (nth raw i) (nth raw j) (nth raw k) : Int) : ℚ) ^ 2 := by
    have hz : (1 : Int) ≤ (cross (nth raw i) (nth raw j) (nth raw k)) ^ 2 := by
      have := Int.one_le_abs hne
      rw [← sq_abs]
      nlinarith
    exact_mod_cast hz
  have h2 : ((cross (nth raw i) (nth raw j) (nth raw k) : Int) : ℚ) ^ 2 ≤
      ∑ k' in range raw.length, ((cross (nth raw i) (nth raw j) (nth raw k') : Int) : ℚ) ^ 2 :=
    Finset.single_le_sum (f := fun k' => ((cross (nth raw i) (nth raw j) (nth raw k') : Int) : ℚ) ^ 2)
      (fun _ _ => sq_nonneg _) (mem_range.2 hk)
  have h3 : (∑ k' in range raw.length,
        ((cross (nth raw i) (nth raw j) (nth raw k') : Int) : ℚ) ^ 2) ≤
      ∑ j' in range raw.length, ∑ k' in range raw.length,
        ((cross (nth raw i) (nth raw j') (nth raw k') : Int) : ℚ) ^ 2 :=
    Finset.single_le_sum (f := fun j' => ∑ k' in range raw.length,
        ((cross (nth raw i) (nth raw j') (nth raw k') : Int) : ℚ) ^ 2)
      (fun _ _ => Finset.sum_nonneg (fun _ _ => sq_nonneg _)) (mem_range.2 hj)
  have h4 : (∑ j' in range raw.length, ∑ k' in range raw.length,
        ((cross (nth raw i) (nth raw j') (nth raw k') : Int) : ℚ) ^ 2) ≤
      ∑ i' in range raw.length, ∑ j' in range raw.length, ∑ k' in range raw.length,
        ((cross (nth raw i') (nth raw j') (nth raw k') : Int) : ℚ) ^ 2 :=
    Finset.single_le_sum (f := fun i' => ∑ j' in range raw.length, ∑ k' in range raw.length,
        ((cross (nth raw i') (nth raw j') (nth raw k') : Int) : ℚ) ^ 2)
      (fun _ _ => Finset.sum_nonneg (fun _ _ => Finset.sum_nonneg (fun _ _ => sq_nonneg _)))
      (mem_range.2 hi)
  linarith

theorem qFuzzyIsNull_zero : qFuzzyIsNull 0 = true := by
  simp [qFuzzyIsNull]

theorem qFuzzyIsNull_false_of_le (d : ℚ) (h : 1 ≤ 6 * d) : qFuzzyIsNull d = false := by
  have hd : 0 < d := by linarith
  simp only [qFuzzyIsNull, decide_eq_false_iff_not, not_le, abs_of_pos hd]
  norm_num
  linarith

theorem ne_zero_of_qFuzzyIsNull_false (d : ℚ) (h : qFuzzyIsNull d = false) : d ≠ 0 := by
  intro h0
  rw [h0, qFuzzyIsNull_zero] at h
  exact Bool.noConfusion h

/-! ### The closed-form inverse -/

theorem invertMatrix3x3_fst (M M_out : Mat3) :
    (invertMatrix3x3 M M_out).1 = !qFuzzyIsNull (det3 M) := by
  cases h : qFuzzyIsNull (det3 M) <;> simp [invertMatrix3x3, h]

theorem invertMatrix3x3_snd_of_null (M M_out : Mat3) (h : qFuzzyIsNull (det3 M) = true) :
    (invertMatrix3x3 M M_out).2 = M_out := by
  simp [invertMatrix3x3, h]

theorem det3_eq_det (M : Mat3) : det3 M = M.det := by
  rw [Matrix.det_fin_three]; unfold det3; ring

theorem invertMatrix3x3_mul_self (M M_out : Mat3) (h : qFuzzyIsNull (det3 M) = false) :
    (invertMatrix3x3 M M_out).2 * M = 1 := by
  have hdet : det3 M ≠ 0 := ne_zero_of_qFuzzyIsNull_false _ h
  simp only [invertMatrix3x3, h]
  ext i j
  fin_cases i <;> fin_cases j <;>
    simp [Matrix.mul_apply, Fin.sum_univ_three] <;>
    field_simp <;> (try unfold det3) <;> ring

theorem self_mul_invertMatrix3x3 (M M_out : Mat3) (h : qFuzzyIsNull (det3 M) = false) :
    M * (invertMatrix3x3 M M_out).2 = 1 := by
  have hdet : det3 M ≠ 0 := ne_zero_of_qFuzzyIsNull_false _ h
  simp only [invertMatrix3x3, h]
  ext i j
  fin_cases i <;> fin_cases j <;>
    simp [Matrix.mul_apply, Fin.sum_univ_three] <;>
    field_simp <;> (try unfold det3) <;> ring

/-! ### The steps of `calculateTransformationMatrix` -/

theorem calculateTransformationMatrix_of_lt (s : MainWindow)
    (h : s.actualTouchPoints.length < 3) :
    calculateTransformationMatrix s = (s, SolveOutcome.insufficientPoints) := by
  simp [calculateTransformationMatrix, h]

theorem calculateTransformationMatrix_of_null (s : MainWindow)
    (h3 : 3 ≤ s.actualTouchPoints.length)
    (h : qFuzzyIsNull (det3 (M_design s.actualTouchPoints)) = true) :
    calculateTransformationMatrix s = (s, SolveOutcome.singularDesignMatrix) := by
  have h3' : ¬ s.actualTouchPoints.length < 3 := by omega
  simp [calculateTransformationMatrix, h3', invertMatrix3x3_fst, h]

theorem calculateTransformationMatrix_of_solvable (s : MainWindow)
    (h3 : 3 ≤ s.actualTouchPoints.length)
    (h : qFuzzyIsNull (det3 (M_design s.actualTouchPoints)) = false)
    (hlen : s.actualTouchPoints.length ≤ s.targetPoints.length) :
    calculateTransformationMatrix s =
      ({ s with matrix := (solveParameters (invertMatrix3x3 (M_design s.actualTouchPoints) 0).2
            (R_x_vec s.actualTouchPoints s.targetPoints)
            (R_y_vec s.actualTouchPoints s.targetPoints)) },
       SolveOutcome.solved
        (totalErrorX (solveParameters (invertMatrix3x3 (M_design s.actualTouchPoints) 0).2
            (R_x_vec s.actualTouchPoints s.targetPoints)
            (R_y_vec s.actualTouchPoints s.targetPoints)) s.actualTouchPoints s.targetPoints /
          (s.actualTouchPoints.length : ℚ))
        (totalErrorY (solveParameters (invertMatrix3x3 (M_design s.actualTouchPoints) 0).2
            (R_x_vec s.actualTouchPoints s.targetPoints)
            (R_y_vec s.actualTouchPoints s.targetPoints)) s.actualTouchPoints s.targetPoints /
          (s.actualTouchPoints.length : ℚ))) := by
  have h3' : ¬ s.actualTouchPoints.length < 3 := by omega
  have hlen' : ¬ s.targetPoints.length < s.actualTouchPoints.length := by omega
  simp [calculateTransformationMatrix, h3', hlen', invertMatrix3x3_fst, h]

theorem collinear_of_length_lt (raw : List QPoint) (h : raw.length < 3) : collinear raw := by
  match raw, h with
  | [], _ => intro p hp; simp at hp
  | [a], _ =>
    intro p hp q hq r hr
    simp only [List.mem_singleton] at hp hq hr
    subst hp hq hr
    simp [cross]
  | [a, b], _ =>
    intro p hp q hq r hr
    simp only [List.mem_cons, List.mem_singleton, List.not_mem_nil, or_false] at hp hq hr
    rcases hp with rfl | rfl <;> rcases hq with rfl | rfl <;> rcases hr with rfl | rfl <;>
      simp [cross]

/-! ### Right-hand sides of an exact affine image -/

theorem sums_affine (x y t : Nat → ℚ) (A B C : ℚ) (n : Nat)
    (h : ∀ i < n, t i = A * x i + B * y i + C) :
    (∑ i in range n, x i * t i =
        A * (∑ i in range n, x i * x i) + B * (∑ i in range n, x i * y i) +
          C * (∑ i in range n, x i)) ∧
    (∑ i in range n, y i * t i =
        A * (∑ i in range n, x i * y i) + B * (∑ i in range n, y i * y i) +
          C * (∑ i in range n, y i)) ∧
    (∑ i in range n, t i =
        A * (∑ i in range n, x i) + B * (∑ i in range n, y i) + C * n) := by
  induction n with
  | zero => simp
  | succ n ih =>
    obtain ⟨h1, h2, h3⟩ := ih (fun i hi => h i (Nat.lt_succ_of_lt hi))
    simp only [Finset.sum_range_succ, h1, h2, h3, h n (Nat.lt_succ_self n)]
    push_cast
    refine ⟨by ring, by ring, by ring⟩

theorem R_x_vec_affine (raw tgt : List QPoint) (A B C : ℚ)
    (h : ∀ i < raw.length, x_screen tgt i = A * x_raw raw i + B * y_raw raw i + C) :
    R_x_vec raw tgt = (M_design raw).mulVec ![A, B, C] := by
  obtain ⟨h1, h2, h3⟩ := sums_affine (x_raw raw) (y_raw raw) (x_screen tgt) A B C raw.length h
  ext k
  fin_cases k <;>
    simp [R_x_vec, M_design, Matrix.mulVec, Matrix.dotProduct, Fin.sum_univ_three,
      sumLoop_eq_sum, S_xx, S_xy, S_x, S_yy, S_y, S_1, h1, h2, h3] <;> ring

theorem R_y_vec_affine (raw tgt : List QPoint) (D E F : ℚ)
    (h : ∀ i < raw.length, y_screen tgt i = D * x_raw raw i + E * y_raw raw i + F) :
    R_y_vec raw tgt = (M_design raw).mulVec ![D, E, F] := by
  obtain ⟨h1, h2, h3⟩ := sums_affine (x_raw raw) (y_raw raw) (y_screen tgt) D E F raw.length h
  ext k
  fin_cases k <;>
    simp [R_y_vec, M_design, Matrix.mulVec, Matrix.dotProduct, Fin.sum_univ_three,
      sumLoop_eq_sum, S_xx, S_xy, S_x, S_yy, S_y, S_1, h1, h2, h3] <;> ring

theorem solveParameters_mulVec (I M : Mat3) (hI : I * M = 1) (v w : Fin 3 → ℚ) :
    solveParameters I (M.mulVec v) (M.mulVec w) = ![v 0, v 1, v 2, w 0, w 1, w 2] := by
  have hv : I.mulVec (M.mulVec v) = v := by
    rw [Matrix.mulVec_mulVec, hI, Matrix.one_mulVec]
  have hw : I.mulVec (M.mulVec w) = w := by
    rw [Matrix.mulVec_mulVec, hI, Matrix.one_mulVec]
  have hv0 := congrFun hv 0
  have hv1 := congrFun hv 1
  have hv2 := congrFun hv 2
  have hw0 := congrFun hw 0
  have hw1 := congrFun hw 1
  have hw2 := congrFun hw 2
  simp only [Matrix.mulVec, Matrix.dotProduct, Fin.sum_univ_three] at hv0 hv1 hv2 hw0 hw1 hw2
  ext k
  fin_cases k <;> simp [solveParameters, Matrix.mulVec, Matrix.dotProduct, Fin.sum_univ_three]
  · exact hv0
  · exact hv1
  · exact hv2
  · exact hw0
  · exact hw1
  · exact hw2

theorem totalErrorX_affine (raw tgt : List QPoint) (m : Fin 6 → ℚ)
    (h : ∀ i < raw.length, x_screen tgt i = m 0 * x_raw raw i + m 1 * y_raw raw i + m 2) :
    totalErrorX m raw tgt = 0 := by
  rw [totalErrorX, sumLoop_eq_sum]
  apply Finset.sum_eq_zero
  intro i hi
  rw [h i (mem_range.1 hi)]
  simp

theorem totalErrorY_affine (raw tgt : List QPoint) (m : Fin 6 → ℚ)
    (h : ∀ i < raw.length, y_screen tgt i = m 3 * x_raw raw i + m 4 * y_raw raw i + m 5) :
    totalErrorY m raw tgt = 0 := by
  rw [totalErrorY, sumLoop_eq_sum]
  apply Finset.sum_eq_zero
  intro i hi
  rw [h i (mem_range.1 hi)]
  simp

/-! ### Least squares -/

theorem sum_sq_residual_split (x y t : Nat → ℝ) (p q r a b c : ℝ) (n : Nat) :
    ∑ i in range n, (a * x i + b * y i + c - t i) ^ 2 =
      ∑ i in range n, (p * x i + q * y i + r - t i) ^ 2 +
      ∑ i in range n, ((a - p) * x i + (b - q) * y i + (c - r)) ^ 2 +
      2 * ((a - p) * (p * (∑ i in range n, x i * x i) + q * (∑ i in range n, x i * y i) +
              r * (∑ i in range n, x i) - ∑ i in range n, x i * t i) +
           (b - q) * (p * (∑ i in range n, x i * y i) + q * (∑ i in range n, y i * y i) +
              r * (∑ i in range n, y i) - ∑ i in range n, y i * t i) +
           (c - r) * (p * (∑ i in range n, x i) + q * (∑ i in range n, y i) +
              r * n - ∑ i in range n, t i)) := by
  induction n with
  | zero => simp
  | succ n ih =>
    simp only [Finset.sum_range_succ, ih]
    push_cast
    ring

theorem sum_sq_residual_le (x y t : Nat → ℝ) (p q r : ℝ) (n : Nat)
    (h1 : p * (∑ i in range n, x i * x i) + q * (∑ i in range n, x i * y i) +
      r * (∑ i in range n, x i) = ∑ i in range n, x i * t i)
    (h2 : p * (∑ i in range n, x i * y i) + q * (∑ i in range n, y i * y i) +
      r * (∑ i in range n, y i) = ∑ i in range n, y i * t i)
    (h3 : p * (∑ i in range n, x i) + q * (∑ i in range n, y i) + r * n =
      ∑ i in range n, t i)
    (a b c : ℝ) :
    ∑ i in range n, (p * x i + q * y i + r - t i) ^ 2 ≤
      ∑ i in range n, (a * x i + b * y i + c - t i) ^ 2 := by
  rw [sum_sq_residual_split x y t p q r a b c n, h1, h2, h3]
  have hnn : 0 ≤ ∑ i in range n, ((a - p) * x i + (b - q) * y i + (c - r)) ^ 2 :=
    Finset.sum_nonneg (fun _ _ => sq_nonneg _)
  linarith

theorem normal_equations (I M : Mat3) (hI : M * I = 1) (R : Fin 3 → ℚ) :
    M.mulVec ![I 0 0 * R 0 + I 0 1 * R 1 + I 0 2 * R 2,
               I 1 0 * R 0 + I 1 1 * R 1 + I 1 2 * R 2,
               I 2 0 * R 0 + I 2 1 * R 1 + I 2 2 * R 2] = R := by
  have h : ![I 0 0 * R 0 + I 0 1 * R 1 + I 0 2 * R 2,
             I 1 0 * R 0 + I 1 1 * R 1 + I 1 2 * R 2,
             I 2 0 * R 0 + I 2 1 * R 1 + I 2 2 * R 2] = I.mulVec R := by
    ext k
    fin_cases k <;> simp [Matrix.mulVec, Matrix.dotProduct, Fin.sum_univ_three]
  rw [h, Matrix.mulVec_mulVec, hI, Matrix.one_mulVec]

theorem solved_imp (s : MainWindow) (eX eY : ℚ)
    (h : (calculateTransformationMatrix s).2 = SolveOutcome.solved eX eY) :
    3 ≤ s.actualTouchPoints.length ∧
    qFuzzyIsNull (det3 (M_design s.actualTouchPoints)) = false ∧
    s.actualTouchPoints.length ≤ s.targetPoints.length := by
  by_cases h3 : s.actualTouchPoints.length < 3
  · rw [calculateTransformationMatrix_of_lt s h3] at h
    cases h
  · have h3' : 3 ≤ s.actualTouchPoints.length := by omega
    cases hq : qFuzzyIsNull (det3 (M_design s.actualTouchPoints))
    · refine ⟨h3', rfl, ?_⟩
      by_contra hlen
      have hlen' : s.targetPoints.length < s.actualTouchPoints.length := by omega
      simp [calculateTransformationMatrix, h3, hlen', invertMatrix3x3_fst, hq] at h
    · rw [calculateTransformationMatrix_of_null s h3' hq] at h
      cases h

theorem calculateTransformationMatrix_affine (s : MainWindow) (A B C D E F : ℚ)
    (h3 : 3 ≤ s.actualTouchPoints.length)
    (hlen : s.actualTouchPoints.length ≤ s.targetPoints.length)
    (hnc : ¬ collinear s.actualTouchPoints)
    (hx : ∀ i < s.actualTouchPoints.length, ((nth s.targetPoints i).x : ℚ) =
      A * ((nth s.actualTouchPoints i).x : ℚ) + B * ((nth s.actualTouchPoints i).y : ℚ) + C)
    (hy : ∀ i < s.actualTouchPoints.length, ((nth s.targetPoints i).y : ℚ) =
      D * ((nth s.actualTouchPoints i).x : ℚ) + E * ((nth s.actualTouchPoints i).y : ℚ) + F) :
    calculateTransformationMatrix s =
      ({ s with matrix := ![A, B, C, D, E, F] }, SolveOutcome.solved 0 0) := by
  have hq := qFuzzyIsNull_false_of_le _ (one_le_six_det_M_design _ hnc)
  rw [calculateTransformationMatrix_of_solvable s h3 hq hlen]
  have hm : solveParameters (invertMatrix3x3 (M_design s.actualTouchPoints) 0).2
      (R_x_vec s.actualTouchPoints s.targetPoints)
      (R_y_vec s.actualTouchPoints s.targetPoints) = ![A, B, C, D, E, F] := by
    rw [R_x_vec_affine _ _ A B C hx, R_y_vec_affine _ _ D E F hy,
      solveParameters_mulVec _ _ (invertMatrix3x3_mul_self _ _ hq)]
    simp
  rw [hm, totalErrorX_affine _ _ _ (by simpa using hx), totalErrorY_affine _ _ _ (by simpa using hy)]
  simp

theorem shiftedWindow_x : ∀ i < shiftedWindow.actualTouchPoints.length,
    ((nth shiftedWindow.targetPoints i).x : ℚ) =
      1 * ((nth shiftedWindow.actualTouchPoints i).x : ℚ) +
        0 * ((nth shiftedWindow.actualTouchPoints i).y : ℚ) + 5 := by
  intro i hi
  have hi' : i < 5 := hi
  interval_cases i <;> simp [nth, shiftedWindow, freshWindow] <;> norm_num

theorem shiftedWindow_y : ∀ i < shiftedWindow.actualTouchPoints.length,
    ((nth shiftedWindow.targetPoints i).y : ℚ) =
      0 * ((nth shiftedWindow.actualTouchPoints i).x : ℚ) +
        1 * ((nth shiftedWindow.actualTouchPoints i).y : ℚ) + 5 := by
  intro i hi
  have hi' : i < 5 := hi
  interval_cases i <;> simp [nth, shiftedWindow, freshWindow] <;> norm_num

theorem shiftedWindow_solved :
    calculateTransformationMatrix shiftedWindow =
      ({ shiftedWindow with matrix := ![1, 0, 5, 0, 1, 5] }, SolveOutcome.solved 0 0) :=
  calculateTransformationMatrix_affine shiftedWindow 1 0 5 0 1 5 (by decide) (by decide)
    (by decide) shiftedWindow_x shiftedWindow_y

theorem exampleMatrix_not_null : qFuzzyIsNull (det3 exampleMatrix) = false := by
  have h : det3 exampleMatrix = 16 := by
    simp [det3, exampleMatrix, Matrix.vecHead, Matrix.vecTail]
    norm_num
  rw [h]
  simp only [qFuzzyIsNull, decide_eq_false_iff_not, not_le]
  norm_num

/-! ### The accumulators of `calculateMeanOfPoints` -/

theorem wrapLongLong_of_mem (z : Int) (h1 : -2 ^ 63 ≤ z) (h2 : z < 2 ^ 63) :
    wrapLongLong z = z := by
  unfold wrapLongLong
  omega

theorem wrapLongLong_add_wrap (a b : Int) :
    wrapLongLong (wrapLongLong a + b) = wrapLongLong (a + b) := by
  unfold wrapLongLong
  omega

theorem foldl_wrapLongLong (f : QPoint → Int) (points : List QPoint) (a : Int) :
    points.foldl (fun acc point => wrapLongLong (acc + f point)) (wrapLongLong a) =
      wrapLongLong (a + (points.map f).sum) := by
  induction points generalizing a with
  | nil => simp
  | cons p ps ih =>
    simp only [List.foldl_cons, List.map_cons, List.sum_cons]
    rw [wrapLongLong_add_wrap, ih (a + f p), add_assoc]

theorem foldl_wrapLongLong_zero (f : QPoint → Int) (points : List QPoint) :
    points.foldl (fun acc point => wrapLongLong (acc + f point)) 0 =
      wrapLongLong ((points.map f).sum) := by
  have h := foldl_wrapLongLong f points 0
  rw [wrapLongLong_of_mem 0 (by norm_num) (by norm_num), zero_add] at h
  exact h

theorem sum_map_bounds (f : QPoint → Int) (lo hi : Int) (points : List QPoint)
    (h : ∀ p ∈ points, lo ≤ f p ∧ f p ≤ hi) :
    (points.length : Int) * lo ≤ (points.map f).sum ∧
      (points.map f).sum ≤ (points.length : Int) * hi := by
  induction points with
  | nil => simp
  | cons p ps ih =>
    have hp := h p (List.mem_cons_self p ps)
    have hps := ih (fun q hq => h q (List.mem_cons_of_mem p hq))
    simp only [List.map_cons, List.sum_cons, List.length_cons]
    push_cast
    constructor <;> nlinarith [hp.1, hp.2, hps.1, hps.2]

theorem sum_map_no_wrap (f : QPoint → Int) (points : List QPoint)
    (hlen : points.length ≤ 2 ^ 32)
    (h : ∀ p ∈ points, -2 ^ 31 ≤ f p ∧ f p < 2 ^ 31) :
    wrapLongLong ((points.map f).sum) = (points.map f).sum := by
  have hb := sum_map_bounds f (-2 ^ 31) (2 ^ 31 - 1) points
    (fun p hp => ⟨(h p hp).1, by have := (h p hp).2; omega⟩)
  have hn : (points.length : Int) ≤ 2 ^ 32 := by exact_mod_cast hlen
  have hn0 : (0 : Int) ≤ points.length := Int.natCast_nonneg _
  apply wrapLongLong_of_mem
  · nlinarith [hb.1]
  · nlinarith [hb.2]

theorem calculateMeanOfPoints_of_ne_nil (points : List QPoint) (hne : points ≠ []) :
    calculateMeanOfPoints points =
      ⟨(wrapLongLong ((points.map fun p => p.x).sum) : ℚ) / (points.length : ℚ),
       (wrapLongLong ((points.map fun p => p.y).sum) : ℚ) / (points.length : ℚ)⟩ := by
  have he : points.isEmpty = false := by
    cases points with
    | nil => exact absurd rfl hne
    | cons p ps => rfl
  simp only [calculateMeanOfPoints, he, Bool.false_eq_true, if_false]
  rw [foldl_wrapLongLong_zero (fun p => p.x), foldl_wrapLongLong_zero (fun p => p.y)]

theorem sum_map_replicate (f : QPoint → Int) (n : Nat) (p : QPoint) :
    ((List.replicate n p).map f).sum = (n : Int) * f p := by
  induction n with
  | zero => simp
  | succ n ih =>
    simp only [List.replicate_succ, List.map_cons, List.sum_cons, ih]
    push_cast
    ring

theorem calculateTransformationMatrix_targetPoints (s : MainWindow) :
    (calculateTransformationMatrix s).1.targetPoints = s.targetPoints := by
  simp only [calculateTransformationMatrix]
  split_ifs <;> rfl

theorem calculateTransformationMatrix_currentPointIndex (s : MainWindow) :
    (calculateTransformationMatrix s).1.currentPointIndex = s.currentPointIndex := by
  simp only [calculateTransformationMatrix]
  split_ifs <;> rfl

theorem capturePoint_targetPoints (s : MainWindow) (Points : List QPoint) :
    (capturePoint s Points).targetPoints = s.targetPoints := by
  unfold capturePoint
  simp only []
  split_ifs
  · rfl
  · simp [calculateTransformationMatrix_targetPoints]

theorem capturePoint_currentPointIndex (s : MainWindow) (Points : List QPoint) :
    (capturePoint s Points).currentPointIndex = s.currentPointIndex + 1 := by
  unfold capturePoint
  simp only []
  split_ifs
  · rfl
  · simp [calculateTransformationMatrix_currentPointIndex]

theorem processRecord_step (st : MainWindow × Locals) (ev : input_event)
    (hinv : st.1.currentPointIndex < st.1.targetPoints.length →
      st.2.Points.length < MAX_POINTS)
    (hpen : st.2.pen_down = false → st.2.Points = []) :
    ((processRecord st ev).1.currentPointIndex < (processRecord st ev).1.targetPoints.length →
      (processRecord st ev).2.Points.length < MAX_POINTS) ∧
    ((processRecord st ev).2.pen_down = false → (processRecord st ev).2.Points = []) ∧
    MAX_POINTS * (processRecord st ev).1.currentPointIndex +
        (processRecord st ev).2.Points.length =
      MAX_POINTS * st.1.currentPointIndex + st.2.Points.length +
        (if emitsSample st ev then 1 else 0) := by
  obtain ⟨s, l⟩ := st
  simp only [MAX_POINTS] at hinv ⊢
  simp only [] at hpen
  by_cases h1 : ev.type = EV_ABS
  · simp only [processRecord, emitsSample, h1]
    split_ifs <;> simp_all
  · by_cases h2 : (ev.type = EV_KEY ∧ ev.code = BTN_TOUCH ∧ ev.value = 1) ∨ l.pen_down = true
    · by_cases h3 : s.hasX = true ∧ s.hasY = true
      · have he : emitsSample (s, l) ev = true := by
          simp only [emitsSample, decide_eq_true_eq]
          exact ⟨h1, h2, h3⟩
        by_cases h4 : MAX_POINTS ≤ (l.Points ++ [(⟨s.currentRawX, s.currentRawX⟩ : QPoint)]).length ∧
            s.currentPointIndex < s.targetPoints.length
        · have hr : processRecord (s, l) ev =
              ({ capturePoint s (l.Points ++ [(⟨s.currentRawX, s.currentRawX⟩ : QPoint)]) with
                  hasX := false, hasY := false }, ⟨[], true⟩) := by
            simp only [processRecord]
            rw [if_neg h1, if_pos h2, if_pos h3, if_pos h4]
          have hlen := hinv h4.2
          have h4' := h4.1
          simp only [MAX_POINTS, List.length_append, List.length_singleton] at h4'
          rw [hr, he]
          simp only [capturePoint_targetPoints, capturePoint_currentPointIndex, List.length_nil,
            if_true]
          refine ⟨fun _ => by norm_num, fun _ => trivial, ?_⟩
          omega
        · have hr : processRecord (s, l) ev =
              ({ s with hasX := false, hasY := false },
                ⟨l.Points ++ [(⟨s.currentRawX, s.currentRawX⟩ : QPoint)], true⟩) := by
            simp only [processRecord]
            rw [if_neg h1, if_pos h2, if_pos h3, if_neg h4]
          rw [hr, he]
          simp only [MAX_POINTS, List.length_append, List.length_singleton, not_and_or,
            not_le, not_lt] at h4
          simp only [List.length_append, List.length_singleton, if_true]
          refine ⟨fun hlt => ?_, fun hf => Bool.noConfusion hf, by omega⟩
          rcases h4 with h4 | h4
          · omega
          · omega
      · have hr : processRecord (s, l) ev = (s, l) := by
          simp only [processRecord]
          rw [if_neg h1, if_pos h2, if_neg h3]
        have he : emitsSample (s, l) ev = false := by
          simp only [emitsSample, decide_eq_false_iff_not]
          exact fun h => h3 h.2.2
        rw [hr, he]
        exact ⟨hinv, hpen, by simp⟩
    · have h2'' : l.pen_down = false := by
        cases hp : l.pen_down
        · rfl
        · exact absurd (Or.inr hp) h2
      have he : emitsSample (s, l) ev = false := by
        simp only [emitsSample, decide_eq_false_iff_not]
        exact fun h => h2 h.2.1
      have hl := hpen h2''
      rw [he]
      by_cases h5 : ev.type = EV_KEY ∧ ev.code = BTN_TOUCH ∧ ev.value = 0
      · have hr : processRecord (s, l) ev =
            ({ s with hasX := false, hasY := false }, ⟨[], false⟩) := by
          simp only [processRecord]
          rw [if_neg h1, if_neg h2, if_pos h5]
        rw [hr]
        refine ⟨fun _ => by norm_num, fun _ => rfl, ?_⟩
        simp [hl]
      · have hr : processRecord (s, l) ev = (s, l) := by
          simp only [processRecord]
          rw [if_neg h1, if_neg h2, if_neg h5]
        rw [hr]
        exact ⟨hinv, hpen, by simp⟩

theorem foldl_processRecord_count (records : List input_event) (st : MainWindow × Locals)
    (hinv : st.1.currentPointIndex < st.1.targetPoints.length →
      st.2.Points.length < MAX_POINTS)
    (hpen : st.2.pen_down = false → st.2.Points = []) :
    MAX_POINTS * (records.foldl processRecord st).1.currentPointIndex +
        (records.foldl processRecord st).2.Points.length =
      MAX_POINTS * st.1.currentPointIndex + st.2.Points.length + sampleCount st records := by
  induction records generalizing st with
  | nil => simp [sampleCount]
  | cons ev records ih =>
    obtain ⟨h1, h2, h3⟩ := processRecord_step st ev hinv hpen
    simp only [List.foldl_cons, sampleCount]
    rw [ih (processRecord st ev) h1 h2, h3]
    omega

theorem processRecord_index_mono (st : MainWindow × Locals) (ev : input_event) :
    st.1.currentPointIndex ≤ (processRecord st ev).1.currentPointIndex := by
  obtain ⟨s, l⟩ := st
  simp only [processRecord]
  split_ifs <;> simp [capturePoint_currentPointIndex]

theorem foldl_processRecord_index_mono (records : List input_event)
    (st : MainWindow × Locals) :
    st.1.currentPointIndex ≤ (records.foldl processRecord st).1.currentPointIndex := by
  induction records generalizing st with
  | nil => exact Nat.le_refl _
  | cons ev records ih =>
    exact Nat.le_trans (processRecord_index_mono st ev) (ih (processRecord st ev))

theorem processRecord_capture (st : MainWindow × Locals) (ev : input_event)
    (h : (processRecord st ev).1.currentPointIndex ≠ st.1.currentPointIndex) :
    (processRecord st ev).2 = ⟨[], true⟩ := by
  obtain ⟨s, l⟩ := st
  revert h
  simp only [processRecord]
  split_ifs <;> simp

theorem readInputDevice_currentPointIndex (s : MainWindow) (records : List input_event)
    (readError : Bool) :
    (readInputDevice s records readError).currentPointIndex =
      (readLoop s records).1.currentPointIndex := by
  unfold readInputDevice
  cases readError <;> rfl

/-! ### The determinant of the design matrix over the index triples `i < j < k` -/

theorem rowsDet_eq_cross (p q r : QPoint) : rowsDet p q r = cross p q r := by
  unfold rowsDet cross
  rw [Matrix.det_fin_three]
  simp [Matrix.vecHead, Matrix.vecTail]
  ring

theorem sum_sq_linear (x y : Nat → ℚ) (a b c : ℚ) (m : Nat) :
    ∑ i in range m, (a * x i + b * y i + c) ^ 2 =
      a ^ 2 * (∑ i in range m, x i * x i) + 2 * a * b * (∑ i in range m, x i * y i) +
      b ^ 2 * (∑ i in range m, y i * y i) + 2 * a * c * (∑ i in range m, x i) +
      2 * b * c * (∑ i in range m, y i) + c ^ 2 * m := by
  induction m with
  | zero => simp
  | succ m ih => simp only [Finset.sum_range_succ, ih]; push_cast; ring

theorem sum_pairs_sq (x y : Nat → ℚ) (px py : ℚ) (m : Nat) :
    ∑ j in range m, ∑ i in range j,
        ((x j - x i) * (py - y i) - (px - x i) * (y j - y i)) ^ 2 =
      ((∑ i in range m, x i * x i) - 2 * px * (∑ i in range m, x i) + m * px ^ 2) *
        ((∑ i in range m, y i * y i) - 2 * py * (∑ i in range m, y i) + m * py ^ 2) -
      ((∑ i in range m, x i * y i) - px * (∑ i in range m, y i) -
        py * (∑ i in range m, x i) + m * px * py) ^ 2 := by
  induction m with
  | zero => simp
  | succ m ih =>
    rw [Finset.sum_range_succ, ih]
    have h : ∀ i, (x m - x i) * (py - y i) - (px - x i) * (y m - y i) =
        (y m - py) * x i + (px - x m) * y i + (x m * py - px * y m) := fun i => by ring
    simp only [h, sum_sq_linear, Finset.sum_range_succ]
    push_cast
    ring

theorem sum_ordered_triples_sq (x y : Nat → ℚ) (n : Nat) :
    ∑ k in range n, ∑ j in range k, ∑ i in range j,
        ((x j - x i) * (y k - y i) - (x k - x i) * (y j - y i)) ^ 2 =
      (∑ i in range n, x i * x i) *
          ((∑ i in range n, y i * y i) * n - (∑ i in range n, y i) * (∑ i in range n, y i)) -
        (∑ i in range n, x i * y i) *
          ((∑ i in range n, x i * y i) * n - (∑ i in range n, x i) * (∑ i in range n, y i)) +
        (∑ i in range n, x i) *
          ((∑ i in range n, x i * y i) * (∑ i in range n, y i) -
            (∑ i in range n, x i) * (∑ i in range n, y i * y i)) := by
  induction n with
  | zero => simp
  | succ n ih =>
    rw [Finset.sum_range_succ, ih, sum_pairs_sq x y (x n) (y n) n]
    simp only [Finset.sum_range_succ]
    push_cast
    ring

/-- The determinant of the design matrix is the sum, over the index triples `i < j < k`, of
the squared determinant of the rows `(x, y, 1)` of the three raw points. -/
theorem det_M_design_eq_sum (raw : List QPoint) :
    det3 (M_design raw) =
      ∑ k in range raw.length, ∑ j in range k, ∑ i in range j,
        ((rowsDet (nth raw i) (nth raw j) (nth raw k) : Int) : ℚ) ^ 2 := by
  have h := sum_ordered_triples_sq (x_raw raw) (y_raw raw) raw.length
  have hc : ∀ i j k, ((rowsDet (nth raw i) (nth raw j) (nth raw k) : Int) : ℚ) =
      (x_raw raw j - x_raw raw i) * (y_raw raw k - y_raw raw i) -
        (x_raw raw k - x_raw raw i) * (y_raw raw j - y_raw raw i) := by
    intro i j k
    rw [rowsDet_eq_cross]
    simp only [cross, x_raw, y_raw]
    push_cast
    ring
  simp only [hc]
  rw [h]
  simp only [det3, M_design, S_xx, S_xy, S_x, S_yy, S_y, S_1, sumLoop_eq_sum]
  simp

theorem det_M_design_eq_zero_iff (raw : List QPoint) :
    det3 (M_design raw) = 0 ↔ collinear raw := by
  constructor
  · intro h
    by_contra hc
    have := one_le_six_det_M_design raw hc
    rw [h] at this
    norm_num at this
  · exact det_M_design_eq_zero raw

theorem one_le_det_M_design (raw : List QPoint) (h : ¬ collinear raw) :
    1 ≤ det3 (M_design raw) := by
  have h6 := one_le_six_det_M_design raw h
  have hz : det3 (M_design raw) =
      ((∑ k in range raw.length, ∑ j in range k, ∑ i in range j,
        (rowsDet (nth raw i) (nth raw j) (nth raw k)) ^ 2 : Int) : ℚ) := by
    rw [det_M_design_eq_sum]
    push_cast
    rfl
  rw [hz] at h6 ⊢
  have hpos : (0 : Int) < ∑ k in range raw.length, ∑ j in range k, ∑ i in range j,
        (rowsDet (nth raw i) (nth raw j) (nth raw k)) ^ 2 := by
    have : (0 : ℚ) < ((∑ k in range raw.length, ∑ j in range k, ∑ i in range j,
        (rowsDet (nth raw i) (nth raw j) (nth raw k)) ^ 2 : Int) : ℚ) := by linarith
    exact_mod_cast this
  exact_mod_cast hpos

/-! ### The six ways through the loop body -/

theorem processRecord_cases (s : MainWindow) (l : Locals) (ev : input_event) :
    (ev.type = EV_ABS ∧ ev.code = ABS_X ∧ emitsSample (s, l) ev = false ∧
      processRecord (s, l) ev = ({ s with currentRawX := ev.value, hasX := true }, l)) ∨
    (ev.type = EV_ABS ∧ ev.code = ABS_Y ∧ emitsSample (s, l) ev = false ∧
      processRecord (s, l) ev = ({ s with currentRawY := ev.value, hasY := true }, l)) ∨
    (emitsSample (s, l) ev = false ∧ processRecord (s, l) ev = (s, l)) ∨
    (emitsSample (s, l) ev = true ∧ capturesPoint (s, l) ev = true ∧
      processRecord (s, l) ev =
        ({ capturePoint s (l.Points ++ [currentSample s]) with hasX := false, hasY := false },
          ⟨[], true⟩)) ∨
    (emitsSample (s, l) ev = true ∧ capturesPoint (s, l) ev = false ∧
      processRecord (s, l) ev =
        ({ s with hasX := false, hasY := false }, ⟨l.Points ++ [currentSample s], true⟩)) ∨
    (emitsSample (s, l) ev = false ∧ l.pen_down = false ∧
      processRecord (s, l) ev = ({ s with hasX := false, hasY := false }, ⟨[], false⟩)) := by
  by_cases h1 : ev.type = EV_ABS
  · have he : emitsSample (s, l) ev = false := by
      simp only [emitsSample, decide_eq_false_iff_not]
      exact fun h => h.1 h1
    by_cases hx : ev.code = ABS_X
    · refine Or.inl ⟨h1, hx, he, ?_⟩
      simp only [processRecord]
      rw [if_pos h1, if_pos hx]
    · by_cases hy : ev.code = ABS_Y
      · refine Or.inr (Or.inl ⟨h1, hy, he, ?_⟩)
        simp only [processRecord]
        rw [if_pos h1, if_neg hx, if_pos hy]
      · refine Or.inr (Or.inr (Or.inl ⟨he, ?_⟩))
        simp only [processRecord]
        rw [if_pos h1, if_neg hx, if_neg hy]
  · by_cases h2 : (ev.type = EV_KEY ∧ ev.code = BTN_TOUCH ∧ ev.value = 1) ∨ l.pen_down = true
    · by_cases h3 : s.hasX = true ∧ s.hasY = true
      · have he : emitsSample (s, l) ev = true := by
          simp only [emitsSample, decide_eq_true_eq]
          exact ⟨h1, h2, h3⟩
        by_cases h4 : MAX_POINTS ≤ (l.Points ++ [(⟨s.currentRawX, s.currentRawX⟩ : QPoint)]).length ∧
            s.currentPointIndex < s.targetPoints.length
        · refine Or.inr (Or.inr (Or.inr (Or.inl ⟨he, ?_, ?_⟩)))
          · simp only [capturesPoint, he, Bool.true_and, decide_eq_true_eq]
            exact h4
          · simp only [processRecord]
            rw [if_neg h1, if_pos h2, if_pos h3, if_pos h4]
            rfl
        · refine Or.inr (Or.inr (Or.inr (Or.inr (Or.inl ⟨he, ?_, ?_⟩))))
          · simp only [capturesPoint, he, Bool.true_and, decide_eq_false_iff_not]
            exact h4
          · simp only [processRecord]
            rw [if_neg h1, if_pos h2, if_pos h3, if_neg h4]
            rfl
      · have he : emitsSample (s, l) ev = false := by
          simp only [emitsSample, decide_eq_false_iff_not]
          exact fun h => h3 h.2.2
        refine Or.inr (Or.inr (Or.inl ⟨he, ?_⟩))
        simp only [processRecord]
        rw [if_neg h1, if_pos h2, if_neg h3]
    · have he : emitsSample (s, l) ev = false := by
        simp only [emitsSample, decide_eq_false_iff_not]
        exact fun h => h2 h.2.1
      have hp : l.pen_down = false := by
        cases hp : l.pen_down
        · rfl
        · exact absurd (Or.inr hp) h2
      by_cases h5 : ev.type = EV_KEY ∧ ev.code = BTN_TOUCH ∧ ev.value = 0
      · refine Or.inr (Or.inr (Or.inr (Or.inr (Or.inr ⟨he, hp, ?_⟩))))
        simp only [processRecord]
        rw [if_neg h1, if_neg h2, if_pos h5]
      · refine Or.inr (Or.inr (Or.inl ⟨he, ?_⟩))
        simp only [processRecord]
        rw [if_neg h1, if_neg h2, if_neg h5]

/-! ### Invariants of the loop -/

theorem foldl_processRecord_induction (P : MainWindow × Locals → Prop)
    (hstep : ∀ st ev, P st → P (processRecord st ev))
    (records : List input_event) (st : MainWindow × Locals) (h0 : P st) :
    P (records.foldl processRecord st) := by
  induction records generalizing st with
  | nil => exact h0
  | cons ev records ih => exact ih (processRecord st ev) (hstep st ev h0)

theorem processRecord_flags_of_sample (st : MainWindow × Locals) (ev : input_event)
    (h : emitsSample st ev = true) :
    (processRecord st ev).1.hasX = false ∧ (processRecord st ev).1.hasY = false := by
  obtain ⟨s, l⟩ := st
  rcases processRecord_cases s l ev with ⟨_, _, he, _⟩ | ⟨_, _, he, _⟩ | ⟨he, _⟩ |
    ⟨_, _, hr⟩ | ⟨_, _, hr⟩ | ⟨he, _⟩
  · rw [he] at h; cases h
  · rw [he] at h; cases h
  · rw [he] at h; cases h
  · rw [hr]; exact ⟨rfl, rfl⟩
  · rw [hr]; exact ⟨rfl, rfl⟩
  · rw [he] at h; cases h

theorem emitsSample_of_hasX_false (st : MainWindow × Locals) (ev : input_event)
    (h : st.1.hasX = false) : emitsSample st ev = false := by
  simp only [emitsSample, decide_eq_false_iff_not]
  intro hc
  rw [h] at hc
  exact Bool.noConfusion hc.2.2.1

theorem emitsSample_of_hasY_false (st : MainWindow × Locals) (ev : input_event)
    (h : st.1.hasY = false) : emitsSample st ev = false := by
  simp only [emitsSample, decide_eq_false_iff_not]
  intro hc
  rw [h] at hc
  exact Bool.noConfusion hc.2.2.2

theorem processRecord_hasX_false (st : MainWindow × Locals) (ev : input_event)
    (h : st.1.hasX = false) (hev : ¬ (ev.type = EV_ABS ∧ ev.code = ABS_X)) :
    (processRecord st ev).1.hasX = false := by
  obtain ⟨s, l⟩ := st
  have hs := emitsSample_of_hasX_false (s, l) ev h
  rcases processRecord_cases s l ev with ⟨h1, h2, _, _⟩ | ⟨_, _, _, hr⟩ | ⟨_, hr⟩ |
    ⟨he, _, _⟩ | ⟨he, _, _⟩ | ⟨_, _, hr⟩
  · exact absurd ⟨h1, h2⟩ hev
  · rw [hr]; exact h
  · rw [hr]; exact h
  · rw [hs] at he; cases he
  · rw [hs] at he; cases he
  · rw [hr]

theorem processRecord_hasY_false (st : MainWindow × Locals) (ev : input_event)
    (h : st.1.hasY = false) (hev : ¬ (ev.type = EV_ABS ∧ ev.code = ABS_Y)) :
    (processRecord st ev).1.hasY = false := by
  obtain ⟨s, l⟩ := st
  have hs := emitsSample_of_hasY_false (s, l) ev h
  rcases processRecord_cases s l ev with ⟨_, _, _, hr⟩ | ⟨h1, h2, _, _⟩ | ⟨_, hr⟩ |
    ⟨he, _, _⟩ | ⟨he, _, _⟩ | ⟨_, _, hr⟩
  · rw [hr]; exact h
  · exact absurd ⟨h1, h2⟩ hev
  · rw [hr]; exact h
  · rw [hs] at he; cases he
  · rw [hs] at he; cases he
  · rw [hr]

theorem no_sample_without_axisX (records : List input_event) (st : MainWindow × Locals)
    (h : st.1.hasX = false)
    (hno : ∀ r ∈ records, ¬ (r.type = EV_ABS ∧ r.code = ABS_X)) :
    sampleCount st records = 0 ∧ samplesOf st records = [] := by
  induction records generalizing st with
  | nil => exact ⟨rfl, rfl⟩
  | cons ev records ih =>
    have hs := emitsSample_of_hasX_false st ev h
    have hx := processRecord_hasX_false st ev h (hno ev (List.mem_cons_self ev records))
    obtain ⟨h1, h2⟩ := ih (processRecord st ev) hx
      (fun r hr => hno r (List.mem_cons_of_mem ev hr))
    simp [sampleCount, samplesOf, hs, h1, h2]

theorem no_sample_without_axisY (records : List input_event) (st : MainWindow × Locals)
    (h : st.1.hasY = false)
    (hno : ∀ r ∈ records, ¬ (r.type = EV_ABS ∧ r.code = ABS_Y)) :
    sampleCount st records = 0 ∧ samplesOf st records = [] := by
  induction records generalizing st with
  | nil => exact ⟨rfl, rfl⟩
  | cons ev records ih =>
    have hs := emitsSample_of_hasY_false st ev h
    have hy := processRecord_hasY_false st ev h (hno ev (List.mem_cons_self ev records))
    obtain ⟨h1, h2⟩ := ih (processRecord st ev) hy
      (fun r hr => hno r (List.mem_cons_of_mem ev hr))
    simp [sampleCount, samplesOf, hs, h1, h2]

theorem processRecord_terminal (st : MainWindow × Locals) (ev : input_event)
    (h : st.1.targetPoints.length ≤ st.1.currentPointIndex) :
    capturesPoint st ev = false ∧
    (processRecord st ev).1.targetPoints = st.1.targetPoints ∧
    (processRecord st ev).1.currentPointIndex = st.1.currentPointIndex ∧
    (processRecord st ev).1.actualTouchPoints = st.1.actualTouchPoints ∧
    (processRecord st ev).1.matrix = st.1.matrix := by
  obtain ⟨s, l⟩ := st
  have hc : capturesPoint (s, l) ev = false := by
    simp only [capturesPoint, Bool.and_eq_false_imp, decide_eq_false_iff_not]
    intro _ hcap
    exact absurd hcap.2 (Nat.not_lt.2 h)
  refine ⟨hc, ?_⟩
  rcases processRecord_cases s l ev with ⟨_, _, _, hr⟩ | ⟨_, _, _, hr⟩ | ⟨_, hr⟩ |
    ⟨_, hcap, _⟩ | ⟨_, _, hr⟩ | ⟨_, _, hr⟩
  · rw [hr]; exact ⟨rfl, rfl, rfl, rfl⟩
  · rw [hr]; exact ⟨rfl, rfl, rfl, rfl⟩
  · rw [hr]; exact ⟨rfl, rfl, rfl, rfl⟩
  · rw [hc] at hcap; cases hcap
  · rw [hr]; exact ⟨rfl, rfl, rfl, rfl⟩
  · rw [hr]; exact ⟨rfl, rfl, rfl, rfl⟩

theorem foldl_processRecord_terminal (records : List input_event) (st : MainWindow × Locals)
    (h : st.1.targetPoints.length ≤ st.1.currentPointIndex) :
    solverCalls st records = 0 ∧ capturedBuffers st records = [] ∧
    (records.foldl processRecord st).1.targetPoints = st.1.targetPoints ∧
    (records.foldl processRecord st).1.currentPointIndex = st.1.currentPointIndex ∧
    (records.foldl processRecord st).1.actualTouchPoints = st.1.actualTouchPoints ∧
    (records.foldl processRecord st).1.matrix = st.1.matrix := by
  induction records generalizing st with
  | nil => exact ⟨rfl, rfl, rfl, rfl, rfl, rfl⟩
  | cons ev records ih =>
    obtain ⟨hc, ht, hi, ha, hm⟩ := processRecord_terminal st ev h
    have h' : (processRecord st ev).1.targetPoints.length ≤
        (processRecord st ev).1.currentPointIndex := by rw [ht, hi]; exact h
    obtain ⟨i1, i2, i3, i4, i5, i6⟩ := ih (processRecord st ev) h'
    simp only [solverCalls, capturedBuffers, callsSolver, hc, List.foldl_cons, i1, i2, i3, i4,
      i5, i6, ht, hi, ha, hm]
    simp

theorem readInputDevice_fields (s : MainWindow) (records : List input_event)
    (readError : Bool) :
    (readInputDevice s records readError).targetPoints = (readLoop s records).1.targetPoints ∧
    (readInputDevice s records readError).actualTouchPoints =
      (readLoop s records).1.actualTouchPoints ∧
    (readInputDevice s records readError).matrix = (readLoop s records).1.matrix := by
  unfold readInputDevice
  cases readError <;> exact ⟨rfl, rfl, rfl⟩

theorem processRecord_other_idle (st : MainWindow × Locals) (ev : input_event)
    (hax : ¬ (ev.type = EV_ABS ∧ (ev.code = ABS_X ∨ ev.code = ABS_Y)))
    (hbt : ¬ (ev.type = EV_KEY ∧ ev.code = BTN_TOUCH))
    (hidle : ev.type = EV_ABS ∨ st.2.pen_down = false ∨ ¬ (st.1.hasX = true ∧ st.1.hasY = true)) :
    processRecord st ev = st := by
  obtain ⟨s, l⟩ := st
  simp only [] at hidle
  by_cases h1 : ev.type = EV_ABS
  · have hx : ¬ ev.code = ABS_X := fun h => hax ⟨h1, Or.inl h⟩
    have hy : ¬ ev.code = ABS_Y := fun h => hax ⟨h1, Or.inr h⟩
    simp only [processRecord]
    rw [if_pos h1, if_neg hx, if_neg hy]
  · have h5 : ¬ (ev.type = EV_KEY ∧ ev.code = BTN_TOUCH ∧ ev.value = 0) :=
      fun h => hbt ⟨h.1, h.2.1⟩
    by_cases h2 : (ev.type = EV_KEY ∧ ev.code = BTN_TOUCH ∧ ev.value = 1) ∨ l.pen_down = true
    · have h3 : ¬ (s.hasX = true ∧ s.hasY = true) := by
        intro h3
        rcases hidle with hi | hi | hi
        · exact h1 hi
        · rcases h2 with h2 | h2
          · exact hbt ⟨h2.1, h2.2.1⟩
          · rw [hi] at h2
            exact Bool.noConfusion h2
        · exact hi h3
      simp only [processRecord]
      rw [if_neg h1, if_pos h2, if_neg h3]
    · simp only [processRecord]
      rw [if_neg h1, if_neg h2, if_neg h5]

theorem emitsSample_of_active (st : MainWindow × Locals) (ev : input_event)
    (h1 : ev.type ≠ EV_ABS) (hp : st.2.pen_down = true)
    (hf : st.1.hasX = true ∧ st.1.hasY = true) : emitsSample st ev = true := by
  simp only [emitsSample, decide_eq_true_eq]
  exact ⟨h1, Or.inr hp, hf⟩

/-! ### The session: targets, recorded points and their count -/

theorem constructMainWindow_eq_freshWindow : constructMainWindow 800 480 true = freshWindow := by
  rfl

theorem calculateTransformationMatrix_actualTouchPoints (s : MainWindow) :
    (calculateTransformationMatrix s).1.actualTouchPoints = s.actualTouchPoints := by
  simp only [calculateTransformationMatrix]
  split_ifs <;> rfl

theorem capturePoint_actualTouchPoints (s : MainWindow) (Points : List QPoint) :
    (capturePoint s Points).actualTouchPoints =
      s.actualTouchPoints ++ [recordedPoint Points] := by
  unfold capturePoint
  simp only []
  split_ifs
  · rfl
  · simp [calculateTransformationMatrix_actualTouchPoints, recordedPoint]

theorem capturesPoint_of_not_emits (st : MainWindow × Locals) (ev : input_event)
    (h : emitsSample st ev = false) : capturesPoint st ev = false := by
  simp [capturesPoint, h]

theorem processRecord_session (st : MainWindow × Locals) (ev : input_event) :
    (processRecord st ev).1.targetPoints = st.1.targetPoints ∧
    ((capturesPoint st ev = false ∧
        (processRecord st ev).1.actualTouchPoints = st.1.actualTouchPoints ∧
        (processRecord st ev).1.currentPointIndex = st.1.currentPointIndex) ∨
     (capturesPoint st ev = true ∧
        st.1.currentPointIndex < st.1.targetPoints.length ∧
        (processRecord st ev).1.actualTouchPoints =
          st.1.actualTouchPoints ++ [recordedPoint (st.2.Points ++ [currentSample st.1])] ∧
        (processRecord st ev).1.currentPointIndex = st.1.currentPointIndex + 1)) := by
  obtain ⟨s, l⟩ := st
  rcases processRecord_cases s l ev with ⟨_, _, he, hr⟩ | ⟨_, _, he, hr⟩ | ⟨he, hr⟩ |
    ⟨_, hc, hr⟩ | ⟨_, hc, hr⟩ | ⟨he, _, hr⟩
  · rw [hr]; exact ⟨rfl, Or.inl ⟨capturesPoint_of_not_emits _ _ he, rfl, rfl⟩⟩
  · rw [hr]; exact ⟨rfl, Or.inl ⟨capturesPoint_of_not_emits _ _ he, rfl, rfl⟩⟩
  · rw [hr]; exact ⟨rfl, Or.inl ⟨capturesPoint_of_not_emits _ _ he, rfl, rfl⟩⟩
  · rw [hr]
    have hlt : s.currentPointIndex < s.targetPoints.length := by
      simp only [capturesPoint, Bool.and_eq_true, decide_eq_true_eq] at hc
      exact hc.2.2
    exact ⟨capturePoint_targetPoints _ _,
      Or.inr ⟨hc, hlt, capturePoint_actualTouchPoints _ _, capturePoint_currentPointIndex _ _⟩⟩
  · rw [hr]; exact ⟨rfl, Or.inl ⟨hc, rfl, rfl⟩⟩
  · rw [hr]; exact ⟨rfl, Or.inl ⟨capturesPoint_of_not_emits _ _ he, rfl, rfl⟩⟩

theorem foldl_processRecord_trace (records : List input_event) (st : MainWindow × Locals) :
    (records.foldl processRecord st).1.targetPoints = st.1.targetPoints ∧
    (records.foldl processRecord st).1.actualTouchPoints =
      st.1.actualTouchPoints ++ (capturedBuffers st records).map recordedPoint ∧
    (records.foldl processRecord st).1.currentPointIndex =
      st.1.currentPointIndex + (capturedBuffers st records).length := by
  induction records generalizing st with
  | nil => simp [capturedBuffers]
  | cons ev records ih =>
    obtain ⟨i1, i2, i3⟩ := ih (processRecord st ev)
    obtain ⟨ht, hcase⟩ := processRecord_session st ev
    simp only [List.foldl_cons, capturedBuffers]
    rw [i1, i2, i3, ht]
    rcases hcase with ⟨hc, ha, hi⟩ | ⟨hc, _, ha, hi⟩
    · rw [hc, ha, hi]; simp
    · rw [hc, ha, hi]; simp; omega

theorem foldl_processRecord_le (records : List input_event) (st : MainWindow × Locals)
    (hle : st.1.currentPointIndex ≤ st.1.targetPoints.length) :
    (records.foldl processRecord st).1.currentPointIndex ≤ st.1.targetPoints.length := by
  have h := foldl_processRecord_induction
    (fun t => t.1.targetPoints = st.1.targetPoints ∧
      t.1.currentPointIndex ≤ st.1.targetPoints.length)
    (fun t ev ht => by
      obtain ⟨h1, hcase⟩ := processRecord_session t ev
      refine ⟨h1.trans ht.1, ?_⟩
      rcases hcase with ⟨_, _, hi⟩ | ⟨_, hlt, _, hi⟩
      · rw [hi]; exact ht.2
      · rw [hi, ← ht.1]; exact hlt)
    records st ⟨rfl, hle⟩
  exact h.2

theorem foldl_processRecord_buffers (records : List input_event) (st : MainWindow × Locals)
    (hinv : st.1.currentPointIndex < st.1.targetPoints.length →
      st.2.Points.length < MAX_POINTS)
    (hpen : st.2.pen_down = false → st.2.Points = []) :
    (∀ b ∈ capturedBuffers st records, b.length = MAX_POINTS) ∧
    st.2.Points ++ samplesOf st records =
      (capturedBuffers st records).flatten ++ (records.foldl processRecord st).2.Points ∧
    ((records.foldl processRecord st).1.currentPointIndex <
        (records.foldl processRecord st).1.targetPoints.length →
      (records.foldl processRecord st).2.Points.length < MAX_POINTS) := by
  induction records generalizing st with
  | nil => simp [capturedBuffers, samplesOf]; exact hinv
  | cons ev records ih =>
    obtain ⟨h1, h2, _⟩ := processRecord_step st ev hinv hpen
    obtain ⟨i1, i2, i3⟩ := ih (processRecord st ev) h1 h2
    simp only [List.foldl_cons, capturedBuffers, samplesOf]
    refine ⟨?_, ?_, i3⟩
    · intro b hb
      rw [List.mem_append] at hb
      rcases hb with hb | hb
      · by_cases hc : capturesPoint st ev = true
        · rw [if_pos hc, List.mem_singleton] at hb
          have hc' := hc
          simp only [capturesPoint, Bool.and_eq_true, decide_eq_true_eq] at hc'
          have hlt := hinv hc'.2.2
          have hge := hc'.2.1
          rw [hb]
          simp only [MAX_POINTS, List.length_append, List.length_singleton] at hlt hge ⊢
          omega
        · rw [if_neg hc] at hb
          simp at hb
      · exact i1 b hb
    · obtain ⟨s, l⟩ := st
      rcases processRecord_cases s l ev with ⟨_, _, he, hr⟩ | ⟨_, _, he, hr⟩ | ⟨he, hr⟩ |
        ⟨he, hc, hr⟩ | ⟨he, hc, hr⟩ | ⟨he, hp, hr⟩
      · rw [hr] at i2
        simp [he, capturesPoint_of_not_emits _ _ he, hr, i2]
      · rw [hr] at i2
        simp [he, capturesPoint_of_not_emits _ _ he, hr, i2]
      · rw [hr] at i2
        simp [he, capturesPoint_of_not_emits _ _ he, hr, i2]
      · rw [hr] at i2
        simp only [List.nil_append] at i2
        simp [he, hc, hr, i2]
      · rw [hr] at i2
        simp only [] at i2
        simp [he, hc, hr, ← i2]
      · rw [hr] at i2
        simp only [List.nil_append] at i2
        have hl : l.Points = [] := hpen hp
        simp [he, capturesPoint_of_not_emits _ _ he, hr, i2, hl]

/-! ### Recorded points lie on the diagonal -/

theorem collinear_of_diagonal (v : List QPoint) (h : ∀ p ∈ v, p.x = p.y) : collinear v := by
  intro p hp q hq r hr
  simp only [cross, ← h p hp, ← h q hq, ← h r hr]
  ring

theorem calculateTransformationMatrix_of_collinear (s : MainWindow)
    (h : collinear s.actualTouchPoints) :
    (calculateTransformationMatrix s).1 = s ∧
    ∀ eX eY, (calculateTransformationMatrix s).2 ≠ SolveOutcome.solved eX eY := by
  by_cases h3 : s.actualTouchPoints.length < 3
  · rw [calculateTransformationMatrix_of_lt s h3]
    exact ⟨rfl, fun _ _ hc => by cases hc⟩
  · have hq : qFuzzyIsNull (det3 (M_design s.actualTouchPoints)) = true := by
      rw [det_M_design_eq_zero _ h]; exact qFuzzyIsNull_zero
    rw [calculateTransformationMatrix_of_null s (by omega) hq]
    exact ⟨rfl, fun _ _ hc => by cases hc⟩

theorem calculateMeanOfPoints_diagonal (Points : List QPoint)
    (h : ∀ p ∈ Points, p.x = p.y) :
    (calculateMeanOfPoints Points).x = (calculateMeanOfPoints Points).y := by
  have hm : (Points.map fun p => p.x) = (Points.map fun p => p.y) :=
    List.map_congr_left h
  cases Points with
  | nil => rfl
  | cons p ps =>
    rw [calculateMeanOfPoints_of_ne_nil _ (List.cons_ne_nil p ps), hm]

theorem recordedPoint_diagonal (Points : List QPoint) (h : ∀ p ∈ Points, p.x = p.y) :
    (recordedPoint Points).x = (recordedPoint Points).y := by
  simp only [recordedPoint, calculateMeanOfPoints_diagonal Points h]

theorem capturePoint_matrix_of_diagonal (s : MainWindow) (Points : List QPoint)
    (ha : ∀ p ∈ s.actualTouchPoints, p.x = p.y) (hP : ∀ p ∈ Points, p.x = p.y) :
    (capturePoint s Points).matrix = s.matrix := by
  have hd : ∀ p ∈ s.actualTouchPoints ++ [recordedPoint Points], p.x = p.y := by
    intro p hp
    rw [List.mem_append, List.mem_singleton] at hp
    rcases hp with hp | hp
    · exact ha p hp
    · rw [hp]; exact recordedPoint_diagonal Points hP
  unfold capturePoint
  simp only []
  split_ifs
  · rfl
  · have := (calculateTransformationMatrix_of_collinear
      { s with actualTouchPoints := s.actualTouchPoints ++ [recordedPoint Points],
               currentPointIndex := s.currentPointIndex + 1,
               message := "Calculating calibration...",
               notifierEnabled := false } (collinear_of_diagonal _ hd)).1
    simp only [recordedPoint] at this
    simp only [this]

theorem processRecord_diagonal (st : MainWindow × Locals) (ev : input_event)
    (ha : ∀ p ∈ st.1.actualTouchPoints, p.x = p.y) (hP : ∀ p ∈ st.2.Points, p.x = p.y) :
    (∀ p ∈ (processRecord st ev).1.actualTouchPoints, p.x = p.y) ∧
    (∀ p ∈ (processRecord st ev).2.Points, p.x = p.y) ∧
    (processRecord st ev).1.matrix = st.1.matrix := by
  obtain ⟨s, l⟩ := st
  have hP' : ∀ p ∈ l.Points ++ [currentSample s], p.x = p.y := by
    intro p hp
    rw [List.mem_append, List.mem_singleton] at hp
    rcases hp with hp | hp
    · exact hP p hp
    · rw [hp]; rfl
  rcases processRecord_cases s l ev with ⟨_, _, _, hr⟩ | ⟨_, _, _, hr⟩ | ⟨_, hr⟩ |
    ⟨_, _, hr⟩ | ⟨_, _, hr⟩ | ⟨_, _, hr⟩
  · rw [hr]; exact ⟨ha, hP, rfl⟩
  · rw [hr]; exact ⟨ha, hP, rfl⟩
  · rw [hr]; exact ⟨ha, hP, rfl⟩
  · rw [hr]
    refine ⟨?_, fun p hp => by simp at hp, capturePoint_matrix_of_diagonal s _ ha hP'⟩
    intro p hp
    have hp' : p ∈ (capturePoint s (l.Points ++ [currentSample s])).actualTouchPoints := hp
    rw [capturePoint_actualTouchPoints, List.mem_append, List.mem_singleton] at hp'
    rcases hp' with hp' | hp'
    · exact ha p hp'
    · rw [hp']; exact recordedPoint_diagonal _ hP'
  · rw [hr]; exact ⟨ha, hP', rfl⟩
  · rw [hr]; exact ⟨ha, fun p hp => by simp at hp, rfl⟩

theorem readLoop_diagonal (s : MainWindow) (records : List input_event)
    (ha : ∀ p ∈ s.actualTouchPoints, p.x = p.y) :
    (∀ p ∈ (readLoop s records).1.actualTouchPoints, p.x = p.y) ∧
    (readLoop s records).1.matrix = s.matrix := by
  have h := foldl_processRecord_induction
    (fun t => (∀ p ∈ t.1.actualTouchPoints, p.x = p.y) ∧ (∀ p ∈ t.2.Points, p.x = p.y) ∧
      t.1.matrix = s.matrix)
    (fun t ev ht => by
      obtain ⟨h1, h2, h3⟩ := processRecord_diagonal t ev ht.1 ht.2.1
      exact ⟨h1, h2, h3.trans ht.2.2⟩)
    records (s, ⟨[], false⟩) ⟨ha, fun p hp => by simp at hp, rfl⟩
  exact ⟨h.1, h.2.2⟩

theorem calculateTransformationMatrix_ne_outOfRange (s : MainWindow)
    (h : s.actualTouchPoints.length ≤ s.targetPoints.length) :
    (calculateTransformationMatrix s).2 ≠ SolveOutcome.targetOutOfRange := by
  have hn : ¬ s.targetPoints.length < s.actualTouchPoints.length := by omega
  simp only [calculateTransformationMatrix]
  split_ifs <;> simp

theorem reachable_invariants (s : MainWindow) (h : Reachable s) :
    s.actualTouchPoints.length = s.currentPointIndex ∧
    s.currentPointIndex ≤ s.targetPoints.length ∧
    s.targetPoints.length = 5 ∧
    (∀ p ∈ s.actualTouchPoints, p.x = p.y) ∧
    s.matrix = fun _ => 0 := by
  induction h with
  | construct width height deviceOpened =>
    cases deviceOpened <;>
      exact ⟨rfl, Nat.zero_le _, rfl, fun p hp => absurd hp (List.not_mem_nil p), rfl⟩
  | read s records readError _ ih =>
    obtain ⟨h1, h2, h3, h4, h5⟩ := ih
    obtain ⟨f1, f2, f3⟩ := readInputDevice_fields s records readError
    obtain ⟨t1, t2, t3⟩ := foldl_processRecord_trace records (s, ⟨[], false⟩)
    have hle := foldl_processRecord_le records (s, ⟨[], false⟩) h2
    obtain ⟨d1, d2⟩ := readLoop_diagonal s records h4
    have t1' : (readLoop s records).1.targetPoints = s.targetPoints := t1
    have t2' : (readLoop s records).1.actualTouchPoints =
      s.actualTouchPoints ++ (capturedBuffers (s, ⟨[], false⟩) records).map recordedPoint := t2
    have t3' : (readLoop s records).1.currentPointIndex =
      s.currentPointIndex + (capturedBuffers (s, ⟨[], false⟩) records).length := t3
    have hle' : (readLoop s records).1.currentPointIndex ≤ s.targetPoints.length := hle
    rw [readInputDevice_currentPointIndex, f1, f2, f3, t1']
    refine ⟨?_, hle', h3, d1, d2.trans h5⟩
    rw [t2', t3', List.length_append, List.length_map, h1]

/-! ### The conversion of the mean to `int` -/

theorem tdiv_eq_tdiv_of_nonneg (a d z n : Int) (hd : 0 < d) (hn : 0 < n) (hz : 0 ≤ z)
    (h : a * n = z * d) : a.tdiv d = z.tdiv n := by
  have ha : 0 ≤ a := by
    by_contra hneg
    have : a * n < 0 := mul_neg_of_neg_of_pos (not_le.1 hneg) hn
    have : 0 ≤ z * d := mul_nonneg hz hd.le
    omega
  rw [Int.tdiv_eq_ediv ha hd.le, Int.tdiv_eq_ediv hz hn.le]
  calc a / d = a * n / (d * n) := (Int.mul_ediv_mul_of_pos_left a d hn).symm
    _ = z * d / (n * d) := by rw [h, mul_comm d n]
    _ = z / n := Int.mul_ediv_mul_of_pos_left z n hd

theorem tdiv_eq_tdiv_of_mul_eq (a d z n : Int) (hd : 0 < d) (hn : 0 < n)
    (h : a * n = z * d) : a.tdiv d = z.tdiv n := by
  by_cases hz : 0 ≤ z
  · exact tdiv_eq_tdiv_of_nonneg a d z n hd hn hz h
  · have h' : (-a) * n = (-z) * d := by rw [neg_mul, neg_mul, h]
    have := tdiv_eq_tdiv_of_nonneg (-a) d (-z) n hd hn (by omega) h'
    rw [Int.neg_tdiv, Int.neg_tdiv] at this
    exact neg_injective this

theorem toInt_intCast_div (z : Int) (n : Nat) (hn : 0 < n) :
    toInt ((z : ℚ) / (n : ℚ)) = z.tdiv n := by
  unfold toInt
  have hn' : (n : ℚ) ≠ 0 := by exact_mod_cast hn.ne'
  have hq : ((((z : ℚ) / (n : ℚ)).num * (n : Int) : Int) : ℚ) =
      ((z * ((((z : ℚ) / (n : ℚ)).den : Nat) : Int) : Int) : ℚ) := by
    have h1 := Rat.mul_den_eq_num ((z : ℚ) / (n : ℚ))
    push_cast
    rw [← h1]
    field_simp
  have hq' : ((z : ℚ) / (n : ℚ)).num * (n : Int) =
      z * ((((z : ℚ) / (n : ℚ)).den : Nat) : Int) := by exact_mod_cast hq
  exact tdiv_eq_tdiv_of_mul_eq _ _ z n (by exact_mod_cast Rat.den_pos _)
    (by exact_mod_cast hn) hq'

theorem recordedPoint_eq_tdiv (Points : List QPoint) (hlen : Points.length = MAX_POINTS)
    (hx : ∀ p ∈ Points, -2 ^ 31 ≤ p.x ∧ p.x < 2 ^ 31)
    (hy : ∀ p ∈ Points, -2 ^ 31 ≤ p.y ∧ p.y < 2 ^ 31) :
    recordedPoint Points =
      ⟨Int.tdiv (Points.map fun p => p.x).sum 10, Int.tdiv (Points.map fun p => p.y).sum 10⟩ := by
  have hne : Points ≠ [] := by
    intro h
    rw [h] at hlen
    cases hlen
  have hl : Points.length ≤ 2 ^ 32 := by
    rw [hlen]; simp [MAX_POINTS]
  unfold recordedPoint
  rw [calculateMeanOfPoints_of_ne_nil _ hne, sum_map_no_wrap (fun p => p.x) Points hl hx,
    sum_map_no_wrap (fun p => p.y) Points hl hy, hlen]
  simp only [MAX_POINTS]
  rw [toInt_intCast_div _ 10 (by norm_num), toInt_intCast_div _ 10 (by norm_num)]
  rfl

/-! ### The end of the capture block -/

theorem calculateTransformationMatrix_message (s : MainWindow) :
    (calculateTransformationMatrix s).1.message = s.message ∧
    (calculateTransformationMatrix s).1.notifierEnabled = s.notifierEnabled := by
  simp only [calculateTransformationMatrix]
  split_ifs <;> exact ⟨rfl, rfl⟩

theorem calculateTransformationMatrix_of_failed (s : MainWindow)
    (h : (calculateTransformationMatrix s).2 = SolveOutcome.insufficientPoints ∨
      (calculateTransformationMatrix s).2 = SolveOutcome.singularDesignMatrix) :
    (calculateTransformationMatrix s).1 = s := by
  revert h
  simp only [calculateTransformationMatrix]
  split_ifs <;> simp

theorem capturePoint_last (s : MainWindow) (Points : List QPoint)
    (h : ¬ (s.currentPointIndex + 1 < s.targetPoints.length)) :
    (capturePoint s Points).message = "Calibration Complete! Check console for matrix." ∧
    (capturePoint s Points).notifierEnabled = false ∧
    ((solveAtCapture s Points = SolveOutcome.insufficientPoints ∨
        solveAtCapture s Points = SolveOutcome.singularDesignMatrix) →
      (capturePoint s Points).matrix = s.matrix) := by
  unfold capturePoint solveAtCapture recordedPoint
  simp only []
  rw [if_neg h]
  refine ⟨rfl, ?_, ?_⟩
  · simp only [(calculateTransformationMatrix_message _).2]
  · intro hf
    simp only [calculateTransformationMatrix_of_failed _ hf]

theorem recordedPoint_samplesAt395 : recordedPoint samplesAt395 = ⟨395, 395⟩ := by
  rw [recordedPoint_eq_tdiv samplesAt395 (by decide) (by decide) (by decide)]
  decide

theorem calculateTransformationMatrix_solved_of_not_collinear (s : MainWindow)
    (hnc : ¬ collinear s.actualTouchPoints)
    (hlen : s.actualTouchPoints.length ≤ s.targetPoints.length) :
    ∃ eX eY, (calculateTransformationMatrix s).2 = SolveOutcome.solved eX eY := by
  have h3 : 3 ≤ s.actualTouchPoints.length := by
    by_contra hlt
    exact hnc (collinear_of_length_lt _ (by omega))
  rw [calculateTransformationMatrix_of_solvable s h3
    (qFuzzyIsNull_false_of_le _ (one_le_six_det_M_design _ hnc)) hlen]
  exact ⟨_, _, rfl⟩

theorem calculateTransformationMatrix_singular_of_collinear (s : MainWindow)
    (h3 : 3 ≤ s.actualTouchPoints.length) (hc : collinear s.actualTouchPoints) :
    (calculateTransformationMatrix s).2 = SolveOutcome.singularDesignMatrix := by
  have hq : qFuzzyIsNull (det3 (M_design s.actualTouchPoints)) = true := by
    rw [det_M_design_eq_zero _ hc]; exact qFuzzyIsNull_zero
  rw [calculateTransformationMatrix_of_null s h3 hq]

theorem solveAtCapture_fourCorners :
    ∃ eX eY, solveAtCapture fourCornersWindow samplesAt395 = SolveOutcome.solved eX eY := by
  unfold solveAtCapture
  rw [recordedPoint_samplesAt395]
  exact calculateTransformationMatrix_solved_of_not_collinear _ (by decide) (by decide)

theorem solveAtCapture_fourDiagonal :
    solveAtCapture fourDiagonalWindow samplesAt395 = SolveOutcome.singularDesignMatrix := by
  unfold solveAtCapture
  rw [recordedPoint_samplesAt395]
  exact calculateTransformationMatrix_singular_of_collinear _ (by decide) (by decide)

theorem reachable_heldContact :
    Reachable (readInputDevice (constructMainWindow 800 480 true) heldContact false) :=
  Reachable.read _ _ _ (Reachable.construct 800 480 true)

/-! ### Samples of one call -/

theorem processRecord_pen_down_of_no_sample (st : MainWindow × Locals) (ev : input_event)
    (hp : st.2.pen_down = false) (he : emitsSample st ev = false) :
    (processRecord st ev).2.pen_down = false := by
  obtain ⟨s, l⟩ := st
  rcases processRecord_cases s l ev with ⟨_, _, _, hr⟩ | ⟨_, _, _, hr⟩ | ⟨_, hr⟩ |
    ⟨he', _, _⟩ | ⟨he', _, _⟩ | ⟨_, _, hr⟩
  · rw [hr]; exact hp
  · rw [hr]; exact hp
  · rw [hr]; exact hp
  · rw [he] at he'; cases he'
  · rw [he] at he'; cases he'
  · rw [hr]

theorem contact_down_of_first_sample (st : MainWindow × Locals) (ev : input_event)
    (hp : st.2.pen_down = false) (he : emitsSample st ev = true) :
    ev = buttonTouch 1 := by
  simp only [emitsSample, decide_eq_true_eq] at he
  rcases he.2.1 with h | h
  · obtain ⟨t, c, v⟩ := ev
    simp only [] at h
    obtain ⟨h1, h2, h3⟩ := h
    subst h1 h2 h3
    rfl
  · rw [hp] at h
    exact Bool.noConfusion h

theorem first_sample_split (records : List input_event) (st : MainWindow × Locals)
    (hp : st.2.pen_down = false) (hpos : 0 < sampleCount st records) :
    ∃ pre ev post, records = pre ++ ev :: post ∧ ev = buttonTouch 1 ∧
      sampleCount st pre = 0 ∧ emitsSample (pre.foldl processRecord st) ev = true ∧
      sampleCount (pre.foldl processRecord st) (ev :: post) = sampleCount st records := by
  induction records generalizing st with
  | nil => simp [sampleCount] at hpos
  | cons ev records ih =>
    cases he : emitsSample st ev
    · have hp' := processRecord_pen_down_of_no_sample st ev hp he
      have hpos' : 0 < sampleCount (processRecord st ev) records := by
        simpa [sampleCount, he] using hpos
      obtain ⟨pre, ev', post, h1, h2, h3, h4, h5⟩ := ih (processRecord st ev) hp' hpos'
      refine ⟨ev :: pre, ev', post, by rw [h1]; rfl, h2, ?_, h4, ?_⟩
      · simp [sampleCount, he, h3]
      · simp only [List.foldl_cons]
        rw [h5]
        simp [sampleCount, he]
    · exact ⟨[], ev, records, rfl, contact_down_of_first_sample st ev hp he, rfl, he, rfl⟩

theorem readLoop_append (s : MainWindow) (r1 r2 : List input_event) :
    readLoop s (r1 ++ r2) = r2.foldl processRecord (readLoop s r1) := by
  simp [readLoop, List.foldl_append]

theorem contact_down_of_recorded_point (s : MainWindow) (records : List input_event)
    (h : s.currentPointIndex < (readLoop s records).1.currentPointIndex) :
    ∃ pre ev post, records = pre ++ ev :: post ∧ ev = buttonTouch 1 ∧
      sampleCount (s, ⟨[], false⟩) pre = 0 ∧ emitsSample (readLoop s pre) ev = true ∧
      MAX_POINTS ≤ sampleCount (readLoop s pre) (ev :: post) := by
  have hc := foldl_processRecord_count records (s, ⟨[], false⟩)
    (fun _ => by simp [MAX_POINTS]) (fun _ => rfl)
  have hc' : MAX_POINTS * (readLoop s records).1.currentPointIndex +
      (readLoop s records).2.Points.length =
      MAX_POINTS * s.currentPointIndex + 0 + sampleCount (s, ⟨[], false⟩) records := hc
  have hge : MAX_POINTS ≤ sampleCount (s, ⟨[], false⟩) records := by
    simp only [MAX_POINTS] at hc' ⊢
    omega
  obtain ⟨pre, ev, post, h1, h2, h3, h4, h5⟩ := first_sample_split records (s, ⟨[], false⟩) rfl
    (by simp only [MAX_POINTS] at hge; omega)
  exact ⟨pre, ev, post, h1, h2, h3, h4, by rw [show readLoop s pre =
    pre.foldl processRecord (s, ⟨[], false⟩) from rfl, h5]; exact hge⟩

/-! ### Binary64 rounding of integers -/

theorem roundHalfEven_intCast (z : Int) : roundHalfEven (z : ℚ) = z := by
  simp [roundHalfEven]

theorem roundHalfEven_div (z : Int) (e : Nat) (he : 0 < e) :
    roundHalfEven ((z : ℚ) / 2 ^ e) =
      if z % 2 ^ e < 2 ^ (e - 1) then z / 2 ^ e
      else if 2 ^ (e - 1) < z % 2 ^ e then z / 2 ^ e + 1
      else if (z / 2 ^ e) % 2 = 0 then z / 2 ^ e else z / 2 ^ e + 1 := by
  have hfl : ⌊(z : ℚ) / 2 ^ e⌋ = z / 2 ^ e := by
    have := Rat.floor_intCast_div_natCast z (2 ^ e)
    simpa using this
  have hpos : (0 : ℚ) < 2 ^ e := by positivity
  have hsplit : (2 : Int) ^ e = 2 * 2 ^ (e - 1) := by
    rw [← pow_succ']
    congr 1
    omega
  have hfrac : (z : ℚ) / 2 ^ e - ((z / 2 ^ e : Int) : ℚ) = ((z % 2 ^ e : Int) : ℚ) / 2 ^ e := by
    have h := Int.emod_add_ediv z (2 ^ e)
    have h' : (z : ℚ) = ((z % 2 ^ e : Int) : ℚ) + (2 : ℚ) ^ e * ((z / 2 ^ e : Int) : ℚ) := by
      exact_mod_cast h.symm
    field_simp
    linarith
  have hlt : ((z % 2 ^ e : Int) : ℚ) / 2 ^ e < 1 / 2 ↔ z % 2 ^ e < 2 ^ (e - 1) := by
    rw [div_lt_div_iff₀ hpos (by norm_num : (0 : ℚ) < 2)]
    have h2 : ((2 : ℚ) ^ e) = (((2 : Int) ^ e : Int) : ℚ) := by push_cast; rfl
    rw [h2, hsplit]
    constructor
    · intro h
      have : ((z % (2 * 2 ^ (e - 1)) * 2 : Int) : ℚ) < ((1 * (2 * 2 ^ (e - 1)) : Int) : ℚ) := by
        push_cast; push_cast at h; exact h
      have := Int.cast_lt.1 this
      omega
    · intro h
      have : ((z % (2 * 2 ^ (e - 1)) * 2 : Int) : ℚ) < ((1 * (2 * 2 ^ (e - 1)) : Int) : ℚ) := by
        apply Int.cast_lt.2
        omega
      push_cast at this; push_cast; exact this
  have hgt : 1 / 2 < ((z % 2 ^ e : Int) : ℚ) / 2 ^ e ↔ 2 ^ (e - 1) < z % 2 ^ e := by
    rw [div_lt_div_iff₀ (by norm_num : (0 : ℚ) < 2) hpos]
    have h2 : ((2 : ℚ) ^ e) = (((2 : Int) ^ e : Int) : ℚ) := by push_cast; rfl
    rw [h2, hsplit]
    constructor
    · intro h
      have : ((1 * (2 * 2 ^ (e - 1)) : Int) : ℚ) < ((z % (2 * 2 ^ (e - 1)) * 2 : Int) : ℚ) := by
        push_cast; push_cast at h; exact h
      have := Int.cast_lt.1 this
      omega
    · intro h
      have : ((1 * (2 * 2 ^ (e - 1)) : Int) : ℚ) < ((z % (2 * 2 ^ (e - 1)) * 2 : Int) : ℚ) := by
        apply Int.cast_lt.2
        omega
      push_cast at this; push_cast; exact this
  unfold roundHalfEven
  rw [hfl, hfrac]
  simp only [hlt, hgt]

theorem ulpExponent_intCast (z : Int) :
    ulpExponent (z : ℚ) = (Nat.log2 z.natAbs : Int) - 52 := by
  have habs : |(z : ℚ)| = ((z.natAbs : Nat) : ℚ) := by
    rw [← Int.cast_abs, Int.abs_eq_natAbs, Int.cast_natCast]
  unfold ulpExponent
  rw [habs, Int.log_natCast, Nat.log2_eq_log_two]
  omega

theorem roundDouble_intCast (z : Int) : roundDouble (z : ℚ) = ((roundInt z : Int) : ℚ) := by
  by_cases hz : z = 0
  · subst hz
    simp [roundDouble, roundInt]
  · have hq : (z : ℚ) ≠ 0 := by exact_mod_cast hz
    unfold roundDouble
    rw [if_neg hq, ulpExponent_intCast]
    unfold roundInt
    simp only []
    by_cases hk : Nat.log2 z.natAbs ≤ 52
    · rw [if_pos hk]
      obtain ⟨d, hd⟩ : ∃ d : Nat, Nat.log2 z.natAbs + d = 52 := ⟨52 - Nat.log2 z.natAbs, by omega⟩
      have he : (Nat.log2 z.natAbs : Int) - 52 = -(d : Int) := by omega
      rw [he, zpow_neg, zpow_natCast, div_inv_eq_mul]
      have : (z : ℚ) * 2 ^ d = ((z * 2 ^ d : Int) : ℚ) := by push_cast; rfl
      rw [this, roundHalfEven_intCast]
      push_cast
      field_simp
    · rw [if_neg hk]
      obtain ⟨e, he⟩ : ∃ e : Nat, Nat.log2 z.natAbs = 52 + e := ⟨Nat.log2 z.natAbs - 52, by omega⟩
      have he0 : 0 < e := by omega
      have he' : (Nat.log2 z.natAbs : Int) - 52 = (e : Int) := by omega
      have hsub : Nat.log2 z.natAbs - 52 = e := by omega
      rw [he', hsub, zpow_natCast, roundHalfEven_div z e he0]
      push_cast
      rfl

theorem roundInt_of_lt (z : Int) (h : z.natAbs < 2 ^ 53) : roundInt z = z := by
  have hk : Nat.log2 z.natAbs ≤ 52 := by
    by_cases h0 : z.natAbs = 0
    · rw [h0]; simp [Nat.log2]
    · have := (Nat.log2_lt h0).2 h
      omega
  unfold roundInt
  simp only []
  rw [if_pos hk]

theorem roundDouble_zero : roundDouble 0 = 0 := by
  simp [roundDouble]

/-! ### Operations on integers that fit a `double` -/

theorem isIntLe_intCast (z : Int) (b : Nat) (h : z.natAbs ≤ b) : IsIntLe b (z : ℚ) :=
  ⟨z, rfl, h⟩

theorem isIntLe_natCast (n : Nat) : IsIntLe n (n : ℚ) :=
  ⟨(n : Int), by simp, by simp⟩

theorem isIntLe_zero (b : Nat) : IsIntLe b 0 :=
  ⟨0, by simp, by simp⟩

theorem isIntLe_mono (a b : Nat) (q : ℚ) (h : IsIntLe a q) (hab : a ≤ b) : IsIntLe b q := by
  obtain ⟨z, hz, hb⟩ := h
  exact ⟨z, hz, hb.trans hab⟩

theorem isIntLe_mul (a b : Nat) (p q : ℚ) (hp : IsIntLe a p) (hq : IsIntLe b q) :
    IsIntLe (a * b) (p * q) := by
  obtain ⟨x, hx, hxa⟩ := hp
  obtain ⟨y, hy, hyb⟩ := hq
  refine ⟨x * y, by rw [hx, hy]; push_cast; rfl, ?_⟩
  rw [Int.natAbs_mul]
  exact Nat.mul_le_mul hxa hyb

theorem isIntLe_add (a b : Nat) (p q : ℚ) (hp : IsIntLe a p) (hq : IsIntLe b q) :
    IsIntLe (a + b) (p + q) := by
  obtain ⟨x, hx, hxa⟩ := hp
  obtain ⟨y, hy, hyb⟩ := hq
  refine ⟨x + y, by rw [hx, hy]; push_cast; rfl, ?_⟩
  have := Int.natAbs_add_le x y
  omega

theorem isIntLe_sub (a b : Nat) (p q : ℚ) (hp : IsIntLe a p) (hq : IsIntLe b q) :
    IsIntLe (a + b) (p - q) := by
  obtain ⟨x, hx, hxa⟩ := hp
  obtain ⟨y, hy, hyb⟩ := hq
  refine ⟨x - y, by rw [hx, hy]; push_cast; rfl, ?_⟩
  have := Int.natAbs_sub_le x y
  omega

theorem roundDouble_of_isIntLe (b : Nat) (q : ℚ) (h : IsIntLe b q) (hb : b < 2 ^ 53) :
    roundDouble q = q := by
  obtain ⟨z, hz, hzb⟩ := h
  rw [hz, roundDouble_intCast, roundInt_of_lt z (by omega)]

theorem binary64_mul_exact (fused : Bool) (a b : Nat) (p q : ℚ)
    (hp : IsIntLe a p) (hq : IsIntLe b q) (hb : a * b < 2 ^ 53) :
    (binary64 fused).mul p q = p * q :=
  roundDouble_of_isIntLe _ _ (isIntLe_mul a b p q hp hq) hb

theorem binary64_add_exact (fused : Bool) (a b : Nat) (p q : ℚ)
    (hp : IsIntLe a p) (hq : IsIntLe b q) (hb : a + b < 2 ^ 53) :
    (binary64 fused).add p q = p + q :=
  roundDouble_of_isIntLe _ _ (isIntLe_add a b p q hp hq) hb

theorem binary64_mulSub_exact (fused : Bool) (a b c : Nat) (p q r : ℚ)
    (hp : IsIntLe a p) (hq : IsIntLe b q) (hr : IsIntLe c r) (hb : a * b + c < 2 ^ 53) :
    (binary64 fused).mulSub p q r = p * q - r := by
  have hpq := isIntLe_mul a b p q hp hq
  have h1 : roundDouble (p * q) = p * q := roundDouble_of_isIntLe _ _ hpq (by omega)
  have h2 : roundDouble (p * q - r) = p * q - r :=
    roundDouble_of_isIntLe _ _ (isIntLe_sub _ _ _ _ hpq hr) hb
  cases fused
  · simp only [binary64, Arith.mulSub, Bool.false_eq_true, if_false, h1, h2]
  · simp only [binary64, Arith.mulSub, if_true, h2]

theorem binary64_mulAdd_exact (fused : Bool) (a b c : Nat) (p q r : ℚ)
    (hp : IsIntLe a p) (hq : IsIntLe b q) (hr : IsIntLe c r) (hb : a * b + c < 2 ^ 53) :
    (binary64 fused).mulAdd p q r = p * q + r := by
  have hpq := isIntLe_mul a b p q hp hq
  have h1 : roundDouble (p * q) = p * q := roundDouble_of_isIntLe _ _ hpq (by omega)
  have h2 : roundDouble (p * q + r) = p * q + r :=
    roundDouble_of_isIntLe _ _ (isIntLe_add _ _ _ _ hpq hr) hb
  cases fused
  · simp only [binary64, Arith.mulAdd, Bool.false_eq_true, if_false, h1, h2]
  · simp only [binary64, Arith.mulAdd, if_true, h2]

theorem accumulate_succ (n : Nat) (step : ℚ → Nat → ℚ) :
    accumulate (n + 1) step = step (accumulate n step) n := by
  simp [accumulate, List.range_succ, List.foldl_append]

theorem accumulate_exact (N C : Nat) (step : ℚ → Nat → ℚ) (g : Nat → ℚ)
    (hg : ∀ i < N, IsIntLe C (g i))
    (hstep : ∀ i < N, ∀ acc, IsIntLe (i * C) acc → step acc i = acc + g i) :
    accumulate N step = ∑ i in range N, g i ∧ IsIntLe (N * C) (accumulate N step) := by
  induction N with
  | zero => exact ⟨by simp [accumulate], by simpa [accumulate] using isIntLe_zero 0⟩
  | succ n ih =>
    obtain ⟨h1, h2⟩ := ih (fun i hi => hg i (by omega)) (fun i hi => hstep i (by omega))
    have hs := hstep n (by omega) _ h2
    rw [accumulate_succ, hs]
    refine ⟨by rw [Finset.sum_range_succ, h1], ?_⟩
    have := isIntLe_add _ _ _ _ h2 (hg n (by omega))
    rw [Nat.succ_mul]
    exact this

/-! ### The design matrix and its determinant when no operation rounds -/

theorem x_raw_isIntLe (raw : List QPoint) (B : Nat)
    (hB : ∀ p ∈ raw, p.x.natAbs ≤ B ∧ p.y.natAbs ≤ B) (i : Nat) :
    IsIntLe B (x_raw raw i) := by
  refine ⟨(nth raw i).x, rfl, ?_⟩
  by_cases hi : i < raw.length
  · exact (hB _ (nth_mem raw i hi)).1
  · simp [nth, List.getD, List.getElem?_eq_none (not_lt.1 hi)]

theorem y_raw_isIntLe (raw : List QPoint) (B : Nat)
    (hB : ∀ p ∈ raw, p.x.natAbs ≤ B ∧ p.y.natAbs ≤ B) (i : Nat) :
    IsIntLe B (y_raw raw i) := by
  refine ⟨(nth raw i).y, rfl, ?_⟩
  by_cases hi : i < raw.length
  · exact (hB _ (nth_mem raw i hi)).2
  · simp [nth, List.getD, List.getElem?_eq_none (not_lt.1 hi)]

theorem accumulate_mulAdd_exact (fused : Bool) (N B : Nat) (u v : Nat → ℚ)
    (hu : ∀ i, IsIntLe B (u i)) (hv : ∀ i, IsIntLe B (v i)) (h : N * (B * B) < 2 ^ 53) :
    accumulate N (fun acc i => (binary64 fused).mulAdd (u i) (v i) acc) =
      sumLoop N (fun i => u i * v i) ∧
    IsIntLe (N * (B * B)) (sumLoop N (fun i => u i * v i)) := by
  have key := accumulate_exact N (B * B)
    (fun acc i => (binary64 fused).mulAdd (u i) (v i) acc) (fun i => u i * v i)
    (fun i _ => isIntLe_mul _ _ _ _ (hu i) (hv i))
    (fun i hi acc hacc => by
      have hlt : B * B + i * (B * B) < 2 ^ 53 := by
        have : (i + 1) * (B * B) ≤ N * (B * B) := Nat.mul_le_mul_right _ hi
        rw [Nat.succ_mul] at this
        omega
      show (binary64 fused).mulAdd (u i) (v i) acc = acc + u i * v i
      rw [binary64_mulAdd_exact fused B B (i * (B * B)) _ _ _ (hu i) (hv i) hacc hlt]
      ring)
  rw [sumLoop_eq_sum]
  exact ⟨key.1, key.1 ▸ key.2⟩

theorem accumulate_add_exact (fused : Bool) (N B : Nat) (u : Nat → ℚ)
    (hu : ∀ i, IsIntLe B (u i)) (h : N * B < 2 ^ 53) :
    accumulate N (fun acc i => (binary64 fused).add acc (u i)) = sumLoop N u ∧
    IsIntLe (N * B) (sumLoop N u) := by
  have key := accumulate_exact N B
    (fun acc i => (binary64 fused).add acc (u i)) u
    (fun i _ => hu i)
    (fun i hi acc hacc => by
      have hlt : i * B + B < 2 ^ 53 := by
        have : (i + 1) * B ≤ N * B := Nat.mul_le_mul_right _ hi
        rw [Nat.succ_mul] at this
        omega
      show (binary64 fused).add acc (u i) = acc + u i
      exact binary64_add_exact fused (i * B) B _ _ hacc (hu i) hlt)
  rw [sumLoop_eq_sum]
  exact ⟨key.1, key.1 ▸ key.2⟩

theorem M_designDouble_exact (fused : Bool) (raw : List QPoint) (B : Nat)
    (hB : ∀ p ∈ raw, p.x.natAbs ≤ B ∧ p.y.natAbs ≤ B) (h : raw.length * (B * B) < 2 ^ 53) :
    M_designDouble (binary64 fused) raw = M_design raw := by
  have hx := x_raw_isIntLe raw B hB
  have hy := y_raw_isIntLe raw B hB
  have h1 : raw.length * B < 2 ^ 53 := by
    rcases Nat.eq_zero_or_pos B with h0 | h0
    · subst h0; simp
    · exact lt_of_le_of_lt (Nat.mul_le_mul_left _ (Nat.le_mul_of_pos_left B h0)) h
  unfold M_designDouble M_design S_xx S_xy S_x S_yy S_y S_1
  simp only []
  rw [(accumulate_mulAdd_exact fused _ B _ _ hx hx h).1,
    (accumulate_mulAdd_exact fused _ B _ _ hx hy h).1,
    (accumulate_mulAdd_exact fused _ B _ _ hy hy h).1,
    (accumulate_add_exact fused _ B _ hx h1).1,
    (accumulate_add_exact fused _ B _ hy h1).1]

theorem M_design_isIntLe (raw : List QPoint) (B : Nat)
    (hB : ∀ p ∈ raw, p.x.natAbs ≤ B ∧ p.y.natAbs ≤ B) :
    IsIntLe (raw.length * (B * B)) (M_design raw 0 0) ∧
    IsIntLe (raw.length * (B * B)) (M_design raw 0 1) ∧
    IsIntLe (raw.length * B) (M_design raw 0 2) ∧
    IsIntLe (raw.length * (B * B)) (M_design raw 1 0) ∧
    IsIntLe (raw.length * (B * B)) (M_design raw 1 1) ∧
    IsIntLe (raw.length * B) (M_design raw 1 2) ∧
    IsIntLe (raw.length * B) (M_design raw 2 0) ∧
    IsIntLe (raw.length * B) (M_design raw 2 1) ∧
    IsIntLe raw.length (M_design raw 2 2) := by
  have hx := x_raw_isIntLe raw B hB
  have hy := y_raw_isIntLe raw B hB
  have hsum : ∀ (C : Nat) (g : Nat → ℚ), (∀ i, IsIntLe C (g i)) →
      IsIntLe (raw.length * C) (sumLoop raw.length g) := by
    intro C g hg
    have key := accumulate_exact raw.length C (fun acc i => acc + g i) g (fun i _ => hg i)
      (fun _ _ _ _ => rfl)
    exact key.2
  have hxx := hsum (B * B) (fun i => x_raw raw i * x_raw raw i)
    (fun i => isIntLe_mul _ _ _ _ (hx i) (hx i))
  have hxy := hsum (B * B) (fun i => x_raw raw i * y_raw raw i)
    (fun i => isIntLe_mul _ _ _ _ (hx i) (hy i))
  have hyy := hsum (B * B) (fun i => y_raw raw i * y_raw raw i)
    (fun i => isIntLe_mul _ _ _ _ (hy i) (hy i))
  have hsx := hsum B (fun i => x_raw raw i) hx
  have hsy := hsum B (fun i => y_raw raw i) hy
  refine ⟨hxx, hxy, hsx, hxy, hyy, hsy, hsx, hsy, ?_⟩
  exact isIntLe_natCast raw.length

theorem det3Double_exact (fused : Bool) (M : Mat3) (P Q R : Nat)
    (h00 : IsIntLe P (M 0 0)) (h01 : IsIntLe P (M 0 1)) (h02 : IsIntLe Q (M 0 2))
    (h10 : IsIntLe P (M 1 0)) (h11 : IsIntLe P (M 1 1)) (h12 : IsIntLe Q (M 1 2))
    (h20 : IsIntLe Q (M 2 0)) (h21 : IsIntLe Q (M 2 1)) (h22 : IsIntLe R (M 2 2))
    (h1 : P * R + Q * Q < 2 ^ 53) (h2 : P * Q + Q * P < 2 ^ 53)
    (h3 : Q * (P * Q + Q * P) + (P * (P * R + Q * Q) + P * (P * R + Q * Q)) < 2 ^ 53) :
    det3Double (binary64 fused) M = det3 M ∧
    IsIntLe (Q * (P * Q + Q * P) + (P * (P * R + Q * Q) + P * (P * R + Q * Q))) (det3 M) := by
  have e1 : (binary64 fused).mul (M 2 1) (M 1 2) = M 2 1 * M 1 2 :=
    binary64_mul_exact fused Q Q _ _ h21 h12 (by omega)
  have b1 := isIntLe_mul _ _ _ _ h21 h12
  have eX := binary64_mulSub_exact fused P R (Q * Q) _ _ _ h11 h22 b1 h1
  have bX := isIntLe_sub _ _ _ _ (isIntLe_mul _ _ _ _ h11 h22) b1
  have e2 : (binary64 fused).mul (M 2 0) (M 1 2) = M 2 0 * M 1 2 :=
    binary64_mul_exact fused Q Q _ _ h20 h12 (by omega)
  have b2 := isIntLe_mul _ _ _ _ h20 h12
  have eY := binary64_mulSub_exact fused P R (Q * Q) _ _ _ h10 h22 b2 h1
  have bY := isIntLe_sub _ _ _ _ (isIntLe_mul _ _ _ _ h10 h22) b2
  have e3 : (binary64 fused).mul (M 2 0) (M 1 1) = M 2 0 * M 1 1 :=
    binary64_mul_exact fused Q P _ _ h20 h11 (by omega)
  have b3 := isIntLe_mul _ _ _ _ h20 h11
  have eZ := binary64_mulSub_exact fused P Q (Q * P) _ _ _ h10 h21 b3 h2
  have bZ := isIntLe_sub _ _ _ _ (isIntLe_mul _ _ _ _ h10 h21) b3
  have hPX : P * (P * R + Q * Q) < 2 ^ 53 := by omega
  have e4 := binary64_mul_exact fused P (P * R + Q * Q) _ _ h01 bY hPX
  have b4 := isIntLe_mul _ _ _ _ h01 bY
  have eS := binary64_mulSub_exact fused P (P * R + Q * Q) (P * (P * R + Q * Q)) _ _ _
    h00 bX b4 (by omega)
  have bS := isIntLe_sub _ _ _ _ (isIntLe_mul _ _ _ _ h00 bX) b4
  have eD := binary64_mulAdd_exact fused Q (P * Q + Q * P)
    (P * (P * R + Q * Q) + P * (P * R + Q * Q)) _ _ _ h02 bZ bS h3
  have bD := isIntLe_add _ _ _ _ (isIntLe_mul _ _ _ _ h02 bZ) bS
  have hring : M 0 2 * (M 1 0 * M 2 1 - M 2 0 * M 1 1) +
      (M 0 0 * (M 1 1 * M 2 2 - M 2 1 * M 1 2) -
        M 0 1 * (M 1 0 * M 2 2 - M 2 0 * M 1 2)) = det3 M := by
    unfold det3
    ring
  rw [hring] at bD
  refine ⟨?_, bD⟩
  simp only [det3Double]
  rw [e1, eX, e2, eY, e3, eZ, e4, eS, eD]
  exact hring

theorem roundDouble_epsilon :
    roundDouble (1 / 1000000000000) = 4951760157141521 / 2 ^ 92 := by
  have hlog : Int.log 2 |(1 / 1000000000000 : ℚ)| = -40 := by
    have hpos : (0 : ℚ) < |(1 / 1000000000000 : ℚ)| := by norm_num
    have h1 : (-40 : Int) ≤ Int.log 2 |(1 / 1000000000000 : ℚ)| := by
      rw [← Int.zpow_le_iff_le_log (by norm_num) hpos]
      rw [abs_of_pos (by norm_num)]
      norm_num
    have h2 : Int.log 2 |(1 / 1000000000000 : ℚ)| < -39 := by
      rw [← Int.lt_zpow_iff_log_lt (by norm_num) hpos]
      rw [abs_of_pos (by norm_num)]
      norm_num
    omega
  have hulp : ulpExponent (1 / 1000000000000) = -92 := by
    unfold ulpExponent
    rw [hlog]
    norm_num
  have hfloor : ⌊(1 / 1000000000000 : ℚ) / 2 ^ (-92 : Int)⌋ = 4951760157141521 := by
    rw [Int.floor_eq_iff]
    constructor <;> norm_num
  unfold roundDouble
  rw [if_neg (by norm_num), hulp]
  unfold roundHalfEven
  rw [hfloor]
  norm_num

theorem qFuzzyIsNullDouble_zero (fused : Bool) :
    qFuzzyIsNullDouble (binary64 fused) 0 = true := by
  simp only [qFuzzyIsNullDouble, binary64, roundDouble_epsilon]
  norm_num

theorem qFuzzyIsNullDouble_of_one_le (fused : Bool) (d : ℚ) (h : 1 ≤ |d|) :
    qFuzzyIsNullDouble (binary64 fused) d = false := by
  simp only [qFuzzyIsNullDouble, binary64, roundDouble_epsilon, decide_eq_false_iff_not, not_le]
  refine lt_of_lt_of_le ?_ h
  norm_num

theorem invertMatrix3x3Double_fst (ar : Arith) (M M_out : Mat3) :
    (invertMatrix3x3Double ar M M_out).1 = !qFuzzyIsNullDouble ar (det3Double ar M) := by
  unfold invertMatrix3x3Double
  simp only []
  split_ifs with h <;> simp [h]

theorem invertMatrix3x3Double_of_null (ar : Arith) (M M_out : Mat3)
    (h : qFuzzyIsNullDouble ar (det3Double ar M) = true) :
    invertMatrix3x3Double ar M M_out = (false, M_out) := by
  unfold invertMatrix3x3Double
  simp only [h, if_true]

theorem calculateTransformationMatrixDouble_of_lt (ar : Arith) (s : MainWindow)
    (h : s.actualTouchPoints.length < 3) :
    calculateTransformationMatrixDouble ar s = (s, SolveOutcome.insufficientPoints) := by
  simp [calculateTransformationMatrixDouble, h]

theorem calculateTransformationMatrixDouble_of_null (ar : Arith) (s : MainWindow)
    (h3 : 3 ≤ s.actualTouchPoints.length)
    (h : qFuzzyIsNullDouble ar
      (det3Double ar (M_designDouble ar s.actualTouchPoints)) = true) :
    calculateTransformationMatrixDouble ar s = (s, SolveOutcome.singularDesignMatrix) := by
  have hn : ¬ s.actualTouchPoints.length < 3 := by omega
  simp [calculateTransformationMatrixDouble, hn, invertMatrix3x3Double_fst, h]

theorem calculateTransformationMatrixDouble_of_solvable (ar : Arith) (s : MainWindow)
    (h3 : 3 ≤ s.actualTouchPoints.length)
    (h : qFuzzyIsNullDouble ar
      (det3Double ar (M_designDouble ar s.actualTouchPoints)) = false)
    (ht : s.actualTouchPoints.length ≤ s.targetPoints.length) :
    calculateTransformationMatrixDouble ar s =
      ({ s with matrix := (solveParametersDouble ar
          (invertMatrix3x3Double ar (M_designDouble ar s.actualTouchPoints) 0).2
          (R_x_vecDouble ar s.actualTouchPoints s.targetPoints)
          (R_y_vecDouble ar s.actualTouchPoints s.targetPoints)) },
       SolveOutcome.solved
        (ar.div (totalErrorXDouble ar (solveParametersDouble ar
          (invertMatrix3x3Double ar (M_designDouble ar s.actualTouchPoints) 0).2
          (R_x_vecDouble ar s.actualTouchPoints s.targetPoints)
          (R_y_vecDouble ar s.actualTouchPoints s.targetPoints))
          s.actualTouchPoints s.targetPoints) (s.actualTouchPoints.length : ℚ))
        (ar.div (totalErrorYDouble ar (solveParametersDouble ar
          (invertMatrix3x3Double ar (M_designDouble ar s.actualTouchPoints) 0).2
          (R_x_vecDouble ar s.actualTouchPoints s.targetPoints)
          (R_y_vecDouble ar s.actualTouchPoints s.targetPoints))
          s.actualTouchPoints s.targetPoints) (s.actualTouchPoints.length : ℚ))) := by
  have hn : ¬ s.actualTouchPoints.length < 3 := by omega
  have hn' : ¬ s.targetPoints.length < s.actualTouchPoints.length := by omega
  simp [calculateTransformationMatrixDouble, hn, hn', invertMatrix3x3Double_fst, h]

theorem design_bounds (N B : Nat) (h : 6 * N ^ 3 * B ^ 4 < 2 ^ 53) :
    N * (B * B) < 2 ^ 53 ∧
    N * (B * B) * N + N * B * (N * B) < 2 ^ 53 ∧
    N * (B * B) * (N * B) + N * B * (N * (B * B)) < 2 ^ 53 ∧
    N * B * (N * (B * B) * (N * B) + N * B * (N * (B * B))) +
      (N * (B * B) * (N * (B * B) * N + N * B * (N * B)) +
       N * (B * B) * (N * (B * B) * N + N * B * (N * B))) < 2 ^ 53 := by
  rcases Nat.eq_zero_or_pos N with hN | hN
  · subst hN; simp
  rcases Nat.eq_zero_or_pos B with hB | hB
  · subst hB; simp
  have p1 : N ^ 1 * B ^ 2 ≤ N ^ 3 * B ^ 4 :=
    Nat.mul_le_mul (Nat.pow_le_pow_right hN (by norm_num)) (Nat.pow_le_pow_right hB (by norm_num))
  have p2 : N ^ 2 * B ^ 2 ≤ N ^ 3 * B ^ 4 :=
    Nat.mul_le_mul (Nat.pow_le_pow_right hN (by norm_num)) (Nat.pow_le_pow_right hB (by norm_num))
  have p3 : N ^ 2 * B ^ 3 ≤ N ^ 3 * B ^ 4 :=
    Nat.mul_le_mul (Nat.pow_le_pow_right hN (by norm_num)) (Nat.pow_le_pow_right hB (by norm_num))
  have q1 : N * (B * B) = N ^ 1 * B ^ 2 := by ring
  have q2 : N * (B * B) * N + N * B * (N * B) = 2 * (N ^ 2 * B ^ 2) := by ring
  have q3 : N * (B * B) * (N * B) + N * B * (N * (B * B)) = 2 * (N ^ 2 * B ^ 3) := by ring
  have q4 : N * B * (N * (B * B) * (N * B) + N * B * (N * (B * B))) +
      (N * (B * B) * (N * (B * B) * N + N * B * (N * B)) +
       N * (B * B) * (N * (B * B) * N + N * B * (N * B))) = 6 * N ^ 3 * B ^ 4 := by ring
  rw [q4, q3, q2, q1]
  have h' : 6 * (N ^ 3 * B ^ 4) < 2 ^ 53 := by rw [← Nat.mul_assoc]; exact h
  refine ⟨by omega, by omega, by omega, h⟩

theorem det3Double_M_design_exact (fused : Bool) (raw : List QPoint) (B : Nat)
    (hB : ∀ p ∈ raw, p.x.natAbs ≤ B ∧ p.y.natAbs ≤ B)
    (h : 6 * raw.length ^ 3 * B ^ 4 < 2 ^ 53) :
    M_designDouble (binary64 fused) raw = M_design raw ∧
    det3Double (binary64 fused) (M_designDouble (binary64 fused) raw) = det3 (M_design raw) := by
  obtain ⟨b1, b2, b3, b4⟩ := design_bounds raw.length B h
  have hM := M_designDouble_exact fused raw B hB b1
  obtain ⟨h00, h01, h02, h10, h11, h12, h20, h21, h22⟩ := M_design_isIntLe raw B hB
  refine ⟨hM, ?_⟩
  rw [hM]
  exact (det3Double_exact fused _ _ _ _ h00 h01 h02 h10 h11 h12 h20 h21 h22 b2 b3 b4).1

/-! ### Rounding and scaling by a power of two -/

theorem int_log_eq (r : ℚ) (hr : 0 < r) (k : Int) (h1 : (2 : ℚ) ^ k ≤ r)
    (h2 : r < (2 : ℚ) ^ (k + 1)) : Int.log 2 r = k := by
  have a := (Int.zpow_le_iff_le_log (by norm_num : 1 < 2) hr).1 h1
  have b := (Int.lt_zpow_iff_log_lt (by norm_num : 1 < 2) hr).1 h2
  omega

theorem ulpExponent_div_pow (z : Int) (hz : z ≠ 0) (k : Nat) (hk : k ≤ 1022) :
    ulpExponent ((z : ℚ) / 2 ^ k) = ulpExponent (z : ℚ) - k := by
  have hq : (z : ℚ) ≠ 0 := by exact_mod_cast hz
  have hpos : (0 : ℚ) < |(z : ℚ)| := abs_pos.2 hq
  have h2k : (0 : ℚ) < 2 ^ k := by positivity
  have hL1 := Int.zpow_log_le_self (b := 2) (by norm_num : 1 < 2) hpos
  have hL2 := Int.lt_zpow_succ_log_self (b := 2) (by norm_num : 1 < 2) |(z : ℚ)|
  have hL0 : 0 ≤ Int.log 2 |(z : ℚ)| := by
    rw [← Int.zpow_le_iff_le_log (by norm_num : 1 < 2) hpos]
    have : (1 : Int) ≤ |z| := Int.one_le_abs hz
    have h1 : (1 : ℚ) ≤ |(z : ℚ)| := by rw [← Int.cast_abs]; exact_mod_cast this
    simpa using h1
  have habs : |(z : ℚ) / 2 ^ k| = |(z : ℚ)| / 2 ^ k := by
    rw [abs_div, abs_of_pos h2k]
  have hlog : Int.log 2 |(z : ℚ) / 2 ^ k| = Int.log 2 |(z : ℚ)| - k := by
    rw [habs]
    apply int_log_eq _ (div_pos hpos h2k)
    · rw [zpow_sub₀ (by norm_num : (2 : ℚ) ≠ 0), zpow_natCast]
      exact div_le_div_of_nonneg_right (by exact_mod_cast hL1) h2k.le
    · have : Int.log 2 |(z : ℚ)| - k + 1 = Int.log 2 |(z : ℚ)| + 1 - k := by ring
      rw [this, zpow_sub₀ (by norm_num : (2 : ℚ) ≠ 0), zpow_natCast]
      exact div_lt_div_of_pos_right (by exact_mod_cast hL2) h2k
  unfold ulpExponent
  rw [hlog]
  omega

theorem roundDouble_div_pow (z : Int) (k : Nat) (hk : k ≤ 1022) :
    roundDouble ((z : ℚ) / 2 ^ k) = ((roundInt z : Int) : ℚ) / 2 ^ k := by
  by_cases hz : z = 0
  · subst hz
    simp [roundDouble, roundInt]
  · have hq : (z : ℚ) ≠ 0 := by exact_mod_cast hz
    have h2k : (2 : ℚ) ^ k ≠ 0 := by positivity
    have hq2 : (z : ℚ) / 2 ^ k ≠ 0 := div_ne_zero hq h2k
    rw [← roundDouble_intCast]
    unfold roundDouble
    rw [if_neg hq, if_neg hq2, ulpExponent_div_pow z hz k hk]
    have harg : (z : ℚ) / 2 ^ k / 2 ^ (ulpExponent (z : ℚ) - (k : Int)) =
        (z : ℚ) / 2 ^ ulpExponent (z : ℚ) := by
      rw [zpow_sub₀ (by norm_num : (2 : ℚ) ≠ 0), zpow_natCast]
      field_simp
    rw [harg, zpow_sub₀ (by norm_num : (2 : ℚ) ≠ 0), zpow_natCast]
    field_simp
theorem calculateTransformationMatrixDouble_fst (ar : Arith) (s : MainWindow) :
    (calculateTransformationMatrixDouble ar s).1 =
      setMatrix s (calculateTransformationMatrixDouble ar s).1.matrix := by
  simp only [calculateTransformationMatrixDouble, setMatrix]
  split_ifs <;> rfl

theorem calculateTransformationMatrix_fst (s : MainWindow) :
    (calculateTransformationMatrix s).1 =
      setMatrix s (calculateTransformationMatrix s).1.matrix := by
  simp only [calculateTransformationMatrix, setMatrix]
  split_ifs <;> rfl

theorem capturePointDouble_sim (ar : Arith) (s : MainWindow) (m : Fin 6 → ℚ)
    (Points : List QPoint) :
    capturePointDouble ar (setMatrix s m) Points =
      setMatrix (capturePoint s Points) (capturePointDouble ar (setMatrix s m) Points).matrix := by
  unfold capturePointDouble capturePoint
  simp only [setMatrix]
  split_ifs
  · rfl
  · rw [calculateTransformationMatrixDouble_fst, calculateTransformationMatrix_fst]
    rfl

theorem setMatrix_fields (s : MainWindow) (m : Fin 6 → ℚ) :
    (setMatrix s m).targetPoints = s.targetPoints ∧
    (setMatrix s m).actualTouchPoints = s.actualTouchPoints ∧
    (setMatrix s m).currentPointIndex = s.currentPointIndex ∧
    (setMatrix s m).hasX = s.hasX ∧ (setMatrix s m).hasY = s.hasY ∧
    (setMatrix s m).currentRawX = s.currentRawX ∧
    (setMatrix s m).currentRawY = s.currentRawY ∧
    (setMatrix s m).matrix = m :=
  ⟨rfl, rfl, rfl, rfl, rfl, rfl, rfl, rfl⟩

theorem processRecordDouble_sim (ar : Arith) (s : MainWindow) (m : Fin 6 → ℚ) (l : Locals)
    (ev : input_event) :
    processRecordDouble ar (setMatrix s m, l) ev =
      (setMatrix (processRecord (s, l) ev).1
        (processRecordDouble ar (setMatrix s m, l) ev).1.matrix,
       (processRecord (s, l) ev).2) := by
  obtain ⟨f1, f2, f3, f4, f5, f6, f7, f8⟩ := setMatrix_fields s m
  obtain ⟨M, hM⟩ : ∃ M, capturePointDouble ar (setMatrix s m)
      (l.Points ++ [(⟨s.currentRawX, s.currentRawX⟩ : QPoint)]) =
      setMatrix (capturePoint s (l.Points ++ [(⟨s.currentRawX, s.currentRawX⟩ : QPoint)])) M :=
    ⟨_, capturePointDouble_sim ar s m _⟩
  simp only [processRecordDouble, processRecord, f1, f3, f4, f5, f6]
  split_ifs
  all_goals first
    | rfl
    | (rw [hM]; rfl)

theorem foldl_processRecordDouble_sim (ar : Arith) (records : List input_event)
    (s : MainWindow) (m : Fin 6 → ℚ) (l : Locals) :
    ∃ m', records.foldl (processRecordDouble ar) (setMatrix s m, l) =
      (setMatrix (records.foldl processRecord (s, l)).1 m',
       (records.foldl processRecord (s, l)).2) := by
  induction records generalizing s m l with
  | nil => exact ⟨m, rfl⟩
  | cons ev records ih =>
    simp only [List.foldl_cons]
    rw [processRecordDouble_sim]
    exact ih _ _ _

theorem readInputDeviceDouble_sim (ar : Arith) (s : MainWindow) (m : Fin 6 → ℚ)
    (records : List input_event) (readError : Bool) :
    ∃ m', readInputDeviceDouble ar (setMatrix s m) records readError =
      setMatrix (readInputDevice s records readError) m' := by
  obtain ⟨m', hm⟩ := foldl_processRecordDouble_sim ar records s m ⟨[], false⟩
  refine ⟨m', ?_⟩
  unfold readInputDeviceDouble readInputDevice readLoopDouble readLoop
  simp only []
  rw [hm]
  cases readError <;> rfl

theorem reachableDouble_sim (ar : Arith) (t : MainWindow) (h : ReachableDouble ar t) :
    ∃ s, Reachable s ∧ t = setMatrix s t.matrix := by
  induction h with
  | construct width height deviceOpened =>
    exact ⟨_, Reachable.construct width height deviceOpened, rfl⟩
  | read t records readError _ ih =>
    obtain ⟨s, hs, ht⟩ := ih
    obtain ⟨m', hm⟩ := readInputDeviceDouble_sim ar s t.matrix records readError
    rw [← ht] at hm
    refine ⟨_, Reachable.read s records readError hs, ?_⟩
    rw [hm]
    rfl

theorem reachableDouble_session (ar : Arith) (t : MainWindow) (h : ReachableDouble ar t) :
    t.actualTouchPoints.length = t.currentPointIndex ∧
    t.currentPointIndex ≤ t.targetPoints.length ∧
    t.targetPoints.length = 5 ∧
    (∀ p ∈ t.actualTouchPoints, p.x = p.y) := by
  obtain ⟨s, hs, ht⟩ := reachableDouble_sim ar t h
  obtain ⟨h1, h2, h3, h4, _⟩ := reachable_invariants s hs
  rw [ht]
  exact ⟨h1, h2, h3, h4⟩

/-! ### Points on the diagonal, every operation rounding on its own -/

theorem det3Double_of_diagonal (fl : ℚ → ℚ) (h0 : fl 0 = 0) (M : Mat3)
    (h01 : M 0 1 = M 0 0) (h10 : M 1 0 = M 0 0) (h11 : M 1 1 = M 0 0)
    (h12 : M 1 2 = M 0 2) (h20 : M 2 0 = M 0 2) (h21 : M 2 1 = M 0 2) :
    det3Double ⟨fl, false⟩ M = 0 := by
  simp only [det3Double, Arith.mulAdd, Arith.mulSub, Arith.mul, Bool.false_eq_true, if_false,
    h01, h10, h11, h12, h20, h21]
  rw [mul_comm (M 0 2) (M 0 0)]
  simp [h0]

theorem x_raw_eq_y_raw (raw : List QPoint) (h : ∀ p ∈ raw, p.x = p.y) :
    x_raw raw = y_raw raw := by
  funext i
  by_cases hi : i < raw.length
  · simp only [x_raw, y_raw, h _ (nth_mem raw i hi)]
  · simp [x_raw, y_raw, nth, List.getD, List.getElem?_eq_none (not_lt.1 hi)]

theorem det3Double_M_design_of_diagonal (raw : List QPoint) (h : ∀ p ∈ raw, p.x = p.y) :
    det3Double (binary64 false) (M_designDouble (binary64 false) raw) = 0 := by
  apply det3Double_of_diagonal roundDouble roundDouble_zero <;>
    simp [M_designDouble, x_raw_eq_y_raw raw h]

theorem calculateTransformationMatrixDouble_of_diagonal (s : MainWindow)
    (h : ∀ p ∈ s.actualTouchPoints, p.x = p.y) :
    calculateTransformationMatrixDouble (binary64 false) s = calculateTransformationMatrix s := by
  by_cases h3 : s.actualTouchPoints.length < 3
  · rw [calculateTransformationMatrixDouble_of_lt _ s h3, calculateTransformationMatrix_of_lt s h3]
  · have hq : qFuzzyIsNullDouble (binary64 false)
        (det3Double (binary64 false) (M_designDouble (binary64 false) s.actualTouchPoints)) =
        true := by
      rw [det3Double_M_design_of_diagonal _ h]; exact qFuzzyIsNullDouble_zero false
    have hq' : qFuzzyIsNull (det3 (M_design s.actualTouchPoints)) = true := by
      rw [det_M_design_eq_zero _ (collinear_of_diagonal _ h)]; exact qFuzzyIsNull_zero
    rw [calculateTransformationMatrixDouble_of_null _ s (by omega) hq,
      calculateTransformationMatrix_of_null s (by omega) hq']

theorem capturePointDouble_of_diagonal (s : MainWindow) (Points : List QPoint)
    (ha : ∀ p ∈ s.actualTouchPoints, p.x = p.y) (hP : ∀ p ∈ Points, p.x = p.y) :
    capturePointDouble (binary64 false) s Points = capturePoint s Points := by
  have hd : ∀ p ∈ s.actualTouchPoints ++ [recordedPoint Points], p.x = p.y := by
    intro p hp
    rw [List.mem_append, List.mem_singleton] at hp
    rcases hp with hp | hp
    · exact ha p hp
    · rw [hp]; exact recordedPoint_diagonal Points hP
  have key := calculateTransformationMatrixDouble_of_diagonal
    { s with actualTouchPoints := s.actualTouchPoints ++ [recordedPoint Points],
             currentPointIndex := s.currentPointIndex + 1,
             message := "Calculating calibration...",
             notifierEnabled := false } hd
  simp only [recordedPoint] at key
  unfold capturePointDouble capturePoint
  simp only []
  rw [key]

theorem processRecordDouble_of_diagonal (st : MainWindow × Locals) (ev : input_event)
    (ha : ∀ p ∈ st.1.actualTouchPoints, p.x = p.y) (hP : ∀ p ∈ st.2.Points, p.x = p.y) :
    processRecordDouble (binary64 false) st ev = processRecord st ev := by
  obtain ⟨s, l⟩ := st
  have hP' : ∀ p ∈ l.Points ++ [(⟨s.currentRawX, s.currentRawX⟩ : QPoint)], p.x = p.y := by
    intro p hp
    rw [List.mem_append, List.mem_singleton] at hp
    rcases hp with hp | hp
    · exact hP p hp
    · rw [hp]
  simp only [processRecordDouble, processRecord]
  rw [capturePointDouble_of_diagonal s _ ha hP']

theorem foldl_processRecordDouble_of_diagonal (records : List input_event)
    (st : MainWindow × Locals)
    (ha : ∀ p ∈ st.1.actualTouchPoints, p.x = p.y) (hP : ∀ p ∈ st.2.Points, p.x = p.y) :
    records.foldl (processRecordDouble (binary64 false)) st = records.foldl processRecord st := by
  induction records generalizing st with
  | nil => simp only [List.foldl_nil]
  | cons ev records ih =>
    simp only [List.foldl_cons]
    rw [processRecordDouble_of_diagonal st ev ha hP]
    obtain ⟨h1, h2, _⟩ := processRecord_diagonal st ev ha hP
    exact ih _ h1 h2

theorem readInputDeviceDouble_of_diagonal (s : MainWindow) (records : List input_event)
    (readError : Bool) (ha : ∀ p ∈ s.actualTouchPoints, p.x = p.y) :
    readInputDeviceDouble (binary64 false) s records readError =
      readInputDevice s records readError := by
  unfold readInputDeviceDouble readInputDevice readLoopDouble readLoop
  rw [foldl_processRecordDouble_of_diagonal records _ ha (fun p hp => by simp at hp)]

theorem reachable_of_reachableDouble (s : MainWindow)
    (h : ReachableDouble (binary64 false) s) : Reachable s := by
  induction h with
  | construct width height deviceOpened => exact Reachable.construct width height deviceOpened
  | read s records readError _ ih =>
    rw [readInputDeviceDouble_of_diagonal s records readError (reachable_invariants s ih).2.2.2.1]
    exact Reachable.read s records readError ih

/-! ### Evaluating the rounded operations -/

theorem roundDouble_eq (z w : Int) (h : roundInt z = w) : roundDouble (z : ℚ) = (w : ℚ) := by
  rw [roundDouble_intCast, h]

theorem accumulate_zero (step : ℚ → Nat → ℚ) : accumulate 0 step = 0 := rfl

theorem accumulate_three (step : ℚ → Nat → ℚ) :
    accumulate 3 step = step (step (step 0 0) 1) 2 := by
  rw [accumulate_succ, accumulate_succ, accumulate_succ, accumulate_zero]

/-! ### The solver on the points of `offsetLineWindow` -/

theorem M_design_offsetLine :
    M_design offsetLineWindow.actualTouchPoints =
      !![2138250000, 2138333500, 83500;
         2138333500, 2138417005, 83505;
         83500, 83505, 5] := by
  simp [M_design, S_xx, S_xy, S_x, S_yy, S_y, S_1, sumLoop, x_raw, y_raw, nth,
    offsetLineWindow, freshWindow, List.range_succ]
  norm_num

theorem det3Double_offsetLine_matrix :
    det3Double (binary64 false)
      !![2138250000, 2138333500, 83500;
         2138333500, 2138417005, 83505;
         83500, 83505, 5] = 256 := by
  simp only [det3Double, binary64, Arith.div, Arith.mulAdd, Arith.mulSub, Arith.mul, Bool.false_eq_true,
    if_false, if_true, Matrix.of_apply, Matrix.cons_val_zero, Matrix.cons_val_one,
    Matrix.head_cons, Matrix.cons_val_two, Matrix.tail_cons, Matrix.cons_val',
    Matrix.empty_val', Matrix.cons_val_fin_one]
  have r0 : roundDouble 10692085025 = 10692085025 := by
    exact_mod_cast roundDouble_eq 10692085025 10692085025
      (by norm_num [roundInt, Nat.log2])
  have r1 : roundDouble 6973085025 = 6973085025 := by
    exact_mod_cast roundDouble_eq 6973085025 6973085025
      (by norm_num [roundInt, Nat.log2])
  have r2 : roundDouble 3719000000 = 3719000000 := by
    exact_mod_cast roundDouble_eq 3719000000 3719000000
      (by norm_num [roundInt, Nat.log2])
  have r3 : roundDouble 10691667500 = 10691667500 := by
    exact_mod_cast roundDouble_eq 10691667500 10691667500
      (by norm_num [roundInt, Nat.log2])
  have r4 : roundDouble 6972667500 = 6972667500 := by
    exact_mod_cast roundDouble_eq 6972667500 6972667500
      (by norm_num [roundInt, Nat.log2])
  have r5 : roundDouble 178561538917500 = 178561538917500 := by
    exact_mod_cast roundDouble_eq 178561538917500 178561538917500
      (by norm_num [roundInt, Nat.log2])
  have r6 : roundDouble 178557819917500 = 178557819917500 := by
    exact_mod_cast roundDouble_eq 178557819917500 178557819917500
      (by norm_num [roundInt, Nat.log2])
  have r7 : roundDouble 7952151750000000000 = 7952151750000000000 := by
    exact_mod_cast roundDouble_eq 7952151750000000000 7952151750000000000
      (by norm_num [roundInt, Nat.log2])
  have r8 : roundDouble 7952462286500000000 = 7952462286499999744 := by
    exact_mod_cast roundDouble_eq 7952462286500000000 7952462286499999744
      (by norm_num [roundInt, Nat.log2])
  have r9 : roundDouble (-310536499999744) = (-310536499999744) := by
    exact_mod_cast roundDouble_eq (-310536499999744) (-310536499999744)
      (by norm_num [roundInt, Nat.log2])
  have r10 : roundDouble 310536500000000 = 310536500000000 := by
    exact_mod_cast roundDouble_eq 310536500000000 310536500000000
      (by norm_num [roundInt, Nat.log2])
  have r11 : roundDouble 256 = 256 := by
    exact_mod_cast roundDouble_eq 256 256
      (by norm_num [roundInt, Nat.log2])
  norm_num [r0, r1, r2, r3, r4, r5, r6, r7, r8, r9, r10, r11]

theorem invertMatrix3x3Double_offsetLine :
    invertMatrix3x3Double (binary64 false)
      !![2138250000, 2138333500, 83500;
         2138333500, 2138417005, 83505;
         83500, 83505, 5] 0 =
      (true,
       !![58109375 / 4, -(58109375 / 4), 58109375 / 4;
          -(58109375 / 4), 58109375 / 4, -(58109375 / 4);
          58109375 / 4, -(58109375 / 4), 14527344]) := by
  unfold invertMatrix3x3Double
  simp only []
  rw [det3Double_offsetLine_matrix, qFuzzyIsNullDouble_of_one_le false 256 (by norm_num)]
  simp only [binary64, Arith.div, Arith.mulAdd, Arith.mulSub, Arith.mul, Bool.false_eq_true,
    if_false, if_true, Matrix.of_apply, Matrix.cons_val_zero, Matrix.cons_val_one,
    Matrix.head_cons, Matrix.cons_val_two, Matrix.tail_cons, Matrix.cons_val',
    Matrix.empty_val', Matrix.cons_val_fin_one]
  have r0 : roundDouble 10692085025 = 10692085025 := by
    exact_mod_cast roundDouble_eq 10692085025 10692085025
      (by norm_num [roundInt, Nat.log2])
  have r1 : roundDouble 6973085025 = 6973085025 := by
    exact_mod_cast roundDouble_eq 6973085025 6973085025
      (by norm_num [roundInt, Nat.log2])
  have r2 : roundDouble 3719000000 = 3719000000 := by
    exact_mod_cast roundDouble_eq 3719000000 3719000000
      (by norm_num [roundInt, Nat.log2])
  have r3 : roundDouble 10691667500 = 10691667500 := by
    exact_mod_cast roundDouble_eq 10691667500 10691667500
      (by norm_num [roundInt, Nat.log2])
  have r4 : roundDouble 6972667500 = 6972667500 := by
    exact_mod_cast roundDouble_eq 6972667500 6972667500
      (by norm_num [roundInt, Nat.log2])
  have r5 : roundDouble 178561538917500 = 178561538917500 := by
    exact_mod_cast roundDouble_eq 178561538917500 178561538917500
      (by norm_num [roundInt, Nat.log2])
  have r6 : roundDouble 178557819917500 = 178557819917500 := by
    exact_mod_cast roundDouble_eq 178557819917500 178557819917500
      (by norm_num [roundInt, Nat.log2])
  have r7 : roundDouble 7952151750000000000 = 7952151750000000000 := by
    exact_mod_cast roundDouble_eq 7952151750000000000 7952151750000000000
      (by norm_num [roundInt, Nat.log2])
  have r8 : roundDouble 7952462286500000000 = 7952462286499999744 := by
    exact_mod_cast roundDouble_eq 7952462286500000000 7952462286499999744
      (by norm_num [roundInt, Nat.log2])
  have r9 : roundDouble (-310536499999744) = (-310536499999744) := by
    exact_mod_cast roundDouble_eq (-310536499999744) (-310536499999744)
      (by norm_num [roundInt, Nat.log2])
  have r10 : roundDouble 310536500000000 = 310536500000000 := by
    exact_mod_cast roundDouble_eq 310536500000000 310536500000000
      (by norm_num [roundInt, Nat.log2])
  have r11 : roundDouble 256 = 256 := by
    exact_mod_cast roundDouble_eq 256 256
      (by norm_num [roundInt, Nat.log2])
  have r12 : roundDouble (1 / 256) = (1 / 256) := by
    have h := roundDouble_div_pow 1 8 (by norm_num)
    norm_num [roundInt, Nat.log2] at h
    exact h
  have r13 : roundDouble (58109375 / 4) = (58109375 / 4) := by
    have h := roundDouble_div_pow 58109375 2 (by norm_num)
    norm_num [roundInt, Nat.log2] at h
    exact h
  have r14 : roundDouble (-3719000000) = (-3719000000) := by
    exact_mod_cast roundDouble_eq (-3719000000) (-3719000000)
      (by norm_num [roundInt, Nat.log2])
  have r15 : roundDouble (-(58109375 / 4)) = (-(58109375 / 4)) := by
    have h := roundDouble_div_pow (-58109375) 2 (by norm_num)
    norm_num [roundInt, Nat.log2] at h
    exact h
  have r16 : roundDouble 10691250000 = 10691250000 := by
    exact_mod_cast roundDouble_eq 10691250000 10691250000
      (by norm_num [roundInt, Nat.log2])
  have r17 : roundDouble 6972250000 = 6972250000 := by
    exact_mod_cast roundDouble_eq 6972250000 6972250000
      (by norm_num [roundInt, Nat.log2])
  have r18 : roundDouble 178550847250000 = 178550847250000 := by
    exact_mod_cast roundDouble_eq 178550847250000 178550847250000
      (by norm_num [roundInt, Nat.log2])
  have r19 : roundDouble 178554566250000 = 178554566250000 := by
    exact_mod_cast roundDouble_eq 178554566250000 178554566250000
      (by norm_num [roundInt, Nat.log2])
  have r20 : roundDouble 4572470160941250000 = 4572470160941250048 := by
    exact_mod_cast roundDouble_eq 4572470160941250000 4572470160941250048
      (by norm_num [roundInt, Nat.log2])
  have r21 : roundDouble 4572470157222250000 = 4572470157222249984 := by
    exact_mod_cast roundDouble_eq 4572470157222250000 4572470157222249984
      (by norm_num [roundInt, Nat.log2])
  have r22 : roundDouble 3719000064 = 3719000064 := by
    exact_mod_cast roundDouble_eq 3719000064 3719000064
      (by norm_num [roundInt, Nat.log2])
  have r23 : roundDouble 14527344 = 14527344 := by
    exact_mod_cast roundDouble_eq 14527344 14527344
      (by norm_num [roundInt, Nat.log2])
  norm_num [r0, r1, r2, r3, r4, r5, r6, r7, r8, r9, r10, r11, r12, r13, r14, r15, r16, r17, r18,
    r19, r20, r21, r22, r23]

theorem R_vecDouble_offsetLine :
    R_x_vecDouble (binary64 false) offsetLineWindow.actualTouchPoints
      offsetLineWindow.targetPoints = ![52475000, 52477000, 2000] ∧
    R_y_vecDouble (binary64 false) offsetLineWindow.actualTouchPoints
      offsetLineWindow.targetPoints = ![20325000, 20326200, 1200] := by
  have hx := x_raw_isIntLe offsetLineWindow.actualTouchPoints 31001 (by decide)
  have hy := y_raw_isIntLe offsetLineWindow.actualTouchPoints 31001 (by decide)
  have htx : ∀ i, IsIntLe 31001 (x_screen offsetLineWindow.targetPoints i) :=
    x_raw_isIntLe offsetLineWindow.targetPoints 31001 (by decide)
  have hty : ∀ i, IsIntLe 31001 (y_screen offsetLineWindow.targetPoints i) :=
    y_raw_isIntLe offsetLineWindow.targetPoints 31001 (by decide)
  have hl : (offsetLineWindow.actualTouchPoints).length = 5 := rfl
  simp only [R_x_vecDouble, R_y_vecDouble, hl]
  rw [(accumulate_mulAdd_exact false 5 31001 _ _ hx htx (by norm_num)).1,
    (accumulate_mulAdd_exact false 5 31001 _ _ hy htx (by norm_num)).1,
    (accumulate_add_exact false 5 31001 _ htx (by norm_num)).1,
    (accumulate_mulAdd_exact false 5 31001 _ _ hx hty (by norm_num)).1,
    (accumulate_mulAdd_exact false 5 31001 _ _ hy hty (by norm_num)).1,
    (accumulate_add_exact false 5 31001 _ hty (by norm_num)).1]
  simp [sumLoop, x_raw, y_raw, x_screen, y_screen, nth, offsetLineWindow, freshWindow, 
    List.range_succ]
  norm_num

theorem solveParametersDouble_offsetLine :
    solveParametersDouble (binary64 false)
      !![58109375 / 4, -(58109375 / 4), 58109375 / 4;
         -(58109375 / 4), 58109375 / 4, -(58109375 / 4);
         58109375 / 4, -(58109375 / 4), 14527344]
      ![52475000, 52477000, 2000] ![20325000, 20326200, 1200] = ![0, 0, 500, 0, 0, 300] := by
  simp only [solveParametersDouble, rowTimesVector, binary64, Arith.div, Arith.mulAdd, Arith.mulSub, Arith.mul, Bool.false_eq_true,
    if_false, if_true, Matrix.of_apply, Matrix.cons_val_zero, Matrix.cons_val_one,
    Matrix.head_cons, Matrix.cons_val_two, Matrix.tail_cons, Matrix.cons_val',
    Matrix.empty_val', Matrix.cons_val_fin_one]
  have r0 : roundDouble (-762351417968750) = (-762351417968750) := by
    exact_mod_cast roundDouble_eq (-762351417968750) (-762351417968750)
      (by norm_num [roundInt, Nat.log2])
  have r1 : roundDouble 762322363281250 = 762322363281250 := by
    exact_mod_cast roundDouble_eq 762322363281250 762322363281250
      (by norm_num [roundInt, Nat.log2])
  have r2 : roundDouble (-29054687500) = (-29054687500) := by
    exact_mod_cast roundDouble_eq (-29054687500) (-29054687500)
      (by norm_num [roundInt, Nat.log2])
  have r3 : roundDouble 29054687500 = 29054687500 := by
    exact_mod_cast roundDouble_eq 29054687500 29054687500
      (by norm_num [roundInt, Nat.log2])
  have r4 : roundDouble 0 = 0 := by
    exact_mod_cast roundDouble_eq 0 0
      (by norm_num [roundInt, Nat.log2])
  have r5 : roundDouble 762351417968750 = 762351417968750 := by
    exact_mod_cast roundDouble_eq 762351417968750 762351417968750
      (by norm_num [roundInt, Nat.log2])
  have r6 : roundDouble (-762322363281250) = (-762322363281250) := by
    exact_mod_cast roundDouble_eq (-762322363281250) (-762322363281250)
      (by norm_num [roundInt, Nat.log2])
  have r7 : roundDouble 29054688000 = 29054688000 := by
    exact_mod_cast roundDouble_eq 29054688000 29054688000
      (by norm_num [roundInt, Nat.log2])
  have r8 : roundDouble 500 = 500 := by
    exact_mod_cast roundDouble_eq 500 500
      (by norm_num [roundInt, Nat.log2])
  have r9 : roundDouble (-295285694531250) = (-295285694531250) := by
    exact_mod_cast roundDouble_eq (-295285694531250) (-295285694531250)
      (by norm_num [roundInt, Nat.log2])
  have r10 : roundDouble 295268261718750 = 295268261718750 := by
    exact_mod_cast roundDouble_eq 295268261718750 295268261718750
      (by norm_num [roundInt, Nat.log2])
  have r11 : roundDouble (-17432812500) = (-17432812500) := by
    exact_mod_cast roundDouble_eq (-17432812500) (-17432812500)
      (by norm_num [roundInt, Nat.log2])
  have r12 : roundDouble 17432812500 = 17432812500 := by
    exact_mod_cast roundDouble_eq 17432812500 17432812500
      (by norm_num [roundInt, Nat.log2])
  have r13 : roundDouble 295285694531250 = 295285694531250 := by
    exact_mod_cast roundDouble_eq 295285694531250 295285694531250
      (by norm_num [roundInt, Nat.log2])
  have r14 : roundDouble (-295268261718750) = (-295268261718750) := by
    exact_mod_cast roundDouble_eq (-295268261718750) (-295268261718750)
      (by norm_num [roundInt, Nat.log2])
  have r15 : roundDouble 17432812800 = 17432812800 := by
    exact_mod_cast roundDouble_eq 17432812800 17432812800
      (by norm_num [roundInt, Nat.log2])
  have r16 : roundDouble 300 = 300 := by
    exact_mod_cast roundDouble_eq 300 300
      (by norm_num [roundInt, Nat.log2])
  norm_num [r0, r1, r2, r3, r4, r5, r6, r7, r8, r9, r10, r11, r12, r13, r14, r15, r16]

theorem det3Double_offsetLine_fused :
    det3Double (binary64 true)
      !![2138250000, 2138333500, 83500;
         2138333500, 2138417005, 83505;
         83500, 83505, 5] = 256 := by
  simp only [det3Double, binary64, Arith.mulAdd, Arith.mulSub, Arith.mul, if_true,
    Matrix.of_apply, Matrix.cons_val_zero, Matrix.cons_val_one, Matrix.head_cons,
    Matrix.cons_val_two, Matrix.tail_cons, Matrix.cons_val', Matrix.empty_val',
    Matrix.cons_val_fin_one]
  have r0 : roundDouble 6973085025 = 6973085025 := by
    exact_mod_cast roundDouble_eq 6973085025 6973085025
      (by norm_num [roundInt, Nat.log2])
  have r1 : roundDouble 3719000000 = 3719000000 := by
    exact_mod_cast roundDouble_eq 3719000000 3719000000
      (by norm_num [roundInt, Nat.log2])
  have r2 : roundDouble 6972667500 = 6972667500 := by
    exact_mod_cast roundDouble_eq 6972667500 6972667500
      (by norm_num [roundInt, Nat.log2])
  have r3 : roundDouble 178557819917500 = 178557819917500 := by
    exact_mod_cast roundDouble_eq 178557819917500 178557819917500
      (by norm_num [roundInt, Nat.log2])
  have r4 : roundDouble 7952462286500000000 = 7952462286499999744 := by
    exact_mod_cast roundDouble_eq 7952462286500000000 7952462286499999744
      (by norm_num [roundInt, Nat.log2])
  have r5 : roundDouble (-310536499999744) = (-310536499999744) := by
    exact_mod_cast roundDouble_eq (-310536499999744) (-310536499999744)
      (by norm_num [roundInt, Nat.log2])
  have r6 : roundDouble 256 = 256 := by
    exact_mod_cast roundDouble_eq 256 256
      (by norm_num [roundInt, Nat.log2])
  norm_num [r0, r1, r2, r3, r4, r5, r6]

theorem det3Double_offsetLine (fused : Bool) :
    det3Double (binary64 fused) (M_designDouble (binary64 fused)
      offsetLineWindow.actualTouchPoints) = 256 := by
  rw [M_designDouble_exact fused _ 31001 (by decide) (by decide), M_design_offsetLine]
  cases fused
  · exact det3Double_offsetLine_matrix
  · exact det3Double_offsetLine_fused

theorem calculateTransformationMatrixDouble_offsetLine :
    (calculateTransformationMatrixDouble (binary64 false) offsetLineWindow).1.matrix =
      ![0, 0, 500, 0, 0, 300] := by
  have hq : qFuzzyIsNullDouble (binary64 false) (det3Double (binary64 false)
      (M_designDouble (binary64 false) offsetLineWindow.actualTouchPoints)) = false := by
    rw [det3Double_offsetLine]
    exact qFuzzyIsNullDouble_of_one_le false _ (by norm_num)
  rw [calculateTransformationMatrixDouble_of_solvable (binary64 false) offsetLineWindow
    (by decide) hq (by decide)]
  simp only []
  rw [M_designDouble_exact false _ 31001 (by decide) (by decide), M_design_offsetLine,
    invertMatrix3x3Double_offsetLine, R_vecDouble_offsetLine.1, R_vecDouble_offsetLine.2]
  exact solveParametersDouble_offsetLine

/-! ### The determinant on the points of `farTriangleWindow` and on `unitDetMatrix` -/

theorem x_raw_farTriangle :
    x_raw farTriangleWindow.actualTouchPoints 0 = 1000000000 ∧
    x_raw farTriangleWindow.actualTouchPoints 1 = 1000000001 ∧
    x_raw farTriangleWindow.actualTouchPoints 2 = 1000000000 ∧
    y_raw farTriangleWindow.actualTouchPoints 0 = 1000000000 ∧
    y_raw farTriangleWindow.actualTouchPoints 1 = 1000000000 ∧
    y_raw farTriangleWindow.actualTouchPoints 2 = 1000000001 := by
  simp [x_raw, y_raw, nth, farTriangleWindow]

theorem M_designDouble_farTriangle :
    M_designDouble (binary64 false) farTriangleWindow.actualTouchPoints =
      !![3000000002000000000, 3000000002000000000, 3000000001;
         3000000002000000000, 3000000002000000000, 3000000001;
         3000000001, 3000000001, 3] := by
  obtain ⟨x0, x1, x2, y0, y1, y2⟩ := x_raw_farTriangle
  have hl : farTriangleWindow.actualTouchPoints.length = 3 := rfl
  unfold M_designDouble
  simp only [hl, accumulate_three, x0, x1, x2, y0, y1, y2, binary64, Arith.mulAdd, Arith.add,
    Bool.false_eq_true, if_false]
  have r0 : roundDouble 1000000000000000000 = 1000000000000000000 := by
    exact_mod_cast roundDouble_eq 1000000000000000000 1000000000000000000
      (by norm_num [roundInt, Nat.log2])
  have r1 : roundDouble 1000000000 = 1000000000 := by
    exact_mod_cast roundDouble_eq 1000000000 1000000000
      (by norm_num [roundInt, Nat.log2])
  have r2 : roundDouble 1000000002000000001 = 1000000002000000000 := by
    exact_mod_cast roundDouble_eq 1000000002000000001 1000000002000000000
      (by norm_num [roundInt, Nat.log2])
  have r3 : roundDouble 2000000002000000000 = 2000000002000000000 := by
    exact_mod_cast roundDouble_eq 2000000002000000000 2000000002000000000
      (by norm_num [roundInt, Nat.log2])
  have r4 : roundDouble 1000000001000000000 = 1000000001000000000 := by
    exact_mod_cast roundDouble_eq 1000000001000000000 1000000001000000000
      (by norm_num [roundInt, Nat.log2])
  have r5 : roundDouble 2000000001000000000 = 2000000001000000000 := by
    exact_mod_cast roundDouble_eq 2000000001000000000 2000000001000000000
      (by norm_num [roundInt, Nat.log2])
  have r6 : roundDouble 2000000001 = 2000000001 := by
    exact_mod_cast roundDouble_eq 2000000001 2000000001
      (by norm_num [roundInt, Nat.log2])
  have r7 : roundDouble 2000000000000000000 = 2000000000000000000 := by
    exact_mod_cast roundDouble_eq 2000000000000000000 2000000000000000000
      (by norm_num [roundInt, Nat.log2])
  have r8 : roundDouble 2000000000 = 2000000000 := by
    exact_mod_cast roundDouble_eq 2000000000 2000000000
      (by norm_num [roundInt, Nat.log2])
  have r9 : roundDouble 3000000002000000000 = 3000000002000000000 := by
    exact_mod_cast roundDouble_eq 3000000002000000000 3000000002000000000
      (by norm_num [roundInt, Nat.log2])
  have r10 : roundDouble 3000000001 = 3000000001 := by
    exact_mod_cast roundDouble_eq 3000000001 3000000001
      (by norm_num [roundInt, Nat.log2])
  norm_num [r0, r1, r2, r3, r4, r5, r6, r7, r8, r9, r10]

theorem det3Double_farTriangle :
    det3Double (binary64 false) (M_designDouble (binary64 false)
      farTriangleWindow.actualTouchPoints) = 0 := by
  rw [M_designDouble_farTriangle]
  apply det3Double_of_diagonal roundDouble roundDouble_zero <;> rfl

theorem M_design_farTriangle :
    M_design farTriangleWindow.actualTouchPoints =
      !![3000000002000000001, 3000000002000000000, 3000000001;
         3000000002000000000, 3000000002000000001, 3000000001;
         3000000001, 3000000001, 3] := by
  simp [M_design, S_xx, S_xy, S_x, S_yy, S_y, S_1, sumLoop, x_raw, y_raw, nth,
    farTriangleWindow, List.range_succ]
  norm_num

theorem det3_farTriangle : det3 (M_design farTriangleWindow.actualTouchPoints) = 1 := by
  rw [M_design_farTriangle]
  simp only [det3, Matrix.of_apply, Matrix.cons_val_zero, Matrix.cons_val_one,
    Matrix.head_cons, Matrix.cons_val_two, Matrix.tail_cons, Matrix.cons_val',
    Matrix.empty_val', Matrix.cons_val_fin_one]
  norm_num

theorem det3Double_unitDetMatrix : det3Double (binary64 false) unitDetMatrix = 0 := by
  simp only [unitDetMatrix, det3Double, binary64, Arith.mulAdd, Arith.mulSub, Arith.mul,
    Bool.false_eq_true, if_false, Matrix.of_apply, Matrix.cons_val_zero, Matrix.cons_val_one,
    Matrix.head_cons, Matrix.cons_val_two, Matrix.tail_cons, Matrix.cons_val',
    Matrix.empty_val', Matrix.cons_val_fin_one]
  have r0 : roundDouble 134217729 = 134217729 := by
    exact_mod_cast roundDouble_eq 134217729 134217729
      (by norm_num [roundInt, Nat.log2])
  have r1 : roundDouble 0 = 0 := by
    exact_mod_cast roundDouble_eq 0 0
      (by norm_num [roundInt, Nat.log2])
  have r2 : roundDouble 67108865 = 67108865 := by
    exact_mod_cast roundDouble_eq 67108865 67108865
      (by norm_num [roundInt, Nat.log2])
  have r3 : roundDouble 18014398777917441 = 18014398777917440 := by
    exact_mod_cast roundDouble_eq 18014398777917441 18014398777917440
      (by norm_num [roundInt, Nat.log2])
  have r4 : roundDouble 18014398777917440 = 18014398777917440 := by
    exact_mod_cast roundDouble_eq 18014398777917440 18014398777917440
      (by norm_num [roundInt, Nat.log2])
  norm_num [r0, r1, r2, r3, r4]

theorem det_unitDetMatrix : unitDetMatrix.det = 1 := by
  rw [← det3_eq_det]
  simp only [unitDetMatrix, det3, Matrix.of_apply, Matrix.cons_val_zero, Matrix.cons_val_one,
    Matrix.head_cons, Matrix.cons_val_two, Matrix.tail_cons, Matrix.cons_val',
    Matrix.empty_val', Matrix.cons_val_fin_one]
  norm_num

/-! ### The five contacts -/

set_option maxRecDepth 100000 in
theorem capturedBuffers_fiveContacts :
    capturedBuffers (constructMainWindow 800 480 true, ⟨[], false⟩) fiveContacts =
      [List.replicate 10 ⟨1000, 1000⟩, List.replicate 10 ⟨29500, 29500⟩,
       List.replicate 10 ⟨29500, 29500⟩, List.replicate 10 ⟨1000, 1000⟩,
       List.replicate 10 ⟨15500, 15500⟩] := by
  decide

theorem recordedPoint_replicate_ten (x : Int) (h : -2 ^ 31 ≤ x ∧ x < 2 ^ 31) :
    recordedPoint (List.replicate 10 ⟨x, x⟩) = ⟨x, x⟩ := by
  have hmem : ∀ p ∈ List.replicate 10 (⟨x, x⟩ : QPoint), p = ⟨x, x⟩ :=
    fun p hp => List.eq_of_mem_replicate hp
  rw [recordedPoint_eq_tdiv _ (by simp [MAX_POINTS])
    (fun p hp => by rw [hmem p hp]; exact h) (fun p hp => by rw [hmem p hp]; exact h),
    sum_map_replicate, sum_map_replicate]
  have : Int.tdiv (((10 : Nat) : Int) * x) 10 = x := by
    push_cast
    rw [Int.mul_comm]
    exact Int.mul_tdiv_cancel x (by norm_num)
  simp only [this]

theorem readLoop_actualTouchPoints (s : MainWindow) (records : List input_event) :
    (readLoop s records).1.actualTouchPoints =
      s.actualTouchPoints ++ (capturedBuffers (s, ⟨[], false⟩) records).map recordedPoint :=
  (foldl_processRecord_trace records (s, ⟨[], false⟩)).2.1

theorem readInputDevice_fiveContacts :
    (readInputDevice (constructMainWindow 800 480 true) fiveContacts false).actualTouchPoints =
      fiveContactPoints := by
  rw [(readInputDevice_fields _ _ _).2.1, readLoop_actualTouchPoints,
    capturedBuffers_fiveContacts]
  simp only [List.map_cons, List.map_nil]
  rw [recordedPoint_replicate_ten 1000 (by decide), recordedPoint_replicate_ten 29500 (by decide),
    recordedPoint_replicate_ten 15500 (by decide)]
  rfl

theorem readInputDeviceDouble_fiveContacts (fused : Bool) :
    (readInputDeviceDouble (binary64 fused) (constructMainWindow 800 480 true)
      fiveContacts false).actualTouchPoints =
      fiveContactPoints := by
  obtain ⟨m', hm⟩ := readInputDeviceDouble_sim (binary64 fused)
    (constructMainWindow 800 480 true) (constructMainWindow 800 480 true).matrix
    fiveContacts false
  have hs : setMatrix (constructMainWindow 800 480 true)
      (constructMainWindow 800 480 true).matrix = constructMainWindow 800 480 true := rfl
  rw [hs] at hm
  rw [hm, (setMatrix_fields _ _).2.1]
  exact readInputDevice_fiveContacts

theorem M_design_fiveContacts :
    M_design fiveContactPoints =
      !![1982750000, 1982750000, 76500;
         1982750000, 1982750000, 76500;
         76500, 76500, 5] := by
  simp [M_design, S_xx, S_xy, S_x, S_yy, S_y, S_1, sumLoop, x_raw, y_raw, nth,
    fiveContactPoints, freshWindow, List.range_succ]
  norm_num

theorem det3Double_fiveContacts_matrix :
    det3Double (binary64 true)
      !![1982750000, 1982750000, 76500;
         1982750000, 1982750000, 76500;
         76500, 76500, 5] = 512 := by
  simp only [det3Double, binary64, Arith.div, Arith.mulAdd, Arith.mulSub, Arith.mul, Bool.false_eq_true,
    if_false, if_true, Matrix.of_apply, Matrix.cons_val_zero, Matrix.cons_val_one,
    Matrix.head_cons, Matrix.cons_val_two, Matrix.tail_cons, Matrix.cons_val',
    Matrix.empty_val', Matrix.cons_val_fin_one]
  have r0 : roundDouble 5852250000 = 5852250000 := by
    exact_mod_cast roundDouble_eq 5852250000 5852250000
      (by norm_num [roundInt, Nat.log2])
  have r1 : roundDouble 4061500000 = 4061500000 := by
    exact_mod_cast roundDouble_eq 4061500000 4061500000
      (by norm_num [roundInt, Nat.log2])
  have r2 : roundDouble 151680375000000 = 151680375000000 := by
    exact_mod_cast roundDouble_eq 151680375000000 151680375000000
      (by norm_num [roundInt, Nat.log2])
  have r3 : roundDouble 0 = 0 := by
    exact_mod_cast roundDouble_eq 0 0
      (by norm_num [roundInt, Nat.log2])
  have r4 : roundDouble 8052939125000000000 = 8052939124999999488 := by
    exact_mod_cast roundDouble_eq 8052939125000000000 8052939124999999488
      (by norm_num [roundInt, Nat.log2])
  have r5 : roundDouble 512 = 512 := by
    exact_mod_cast roundDouble_eq 512 512
      (by norm_num [roundInt, Nat.log2])
  norm_num [r0, r1, r2, r3, r4, r5]

theorem invertMatrix3x3Double_fiveContacts :
    invertMatrix3x3Double (binary64 true)
      !![1982750000, 1982750000, 76500;
         1982750000, 1982750000, 76500;
         76500, 76500, 5] 0 =
      (true,
       !![126921875 / 16, -(126921875 / 16), 0;
          -(126921875 / 16), 126921875 / 16, 0;
          0, 0, 1 / 2]) := by
  unfold invertMatrix3x3Double
  simp only []
  rw [det3Double_fiveContacts_matrix, qFuzzyIsNullDouble_of_one_le true 512 (by norm_num)]
  simp only [binary64, Arith.div, Arith.mulAdd, Arith.mulSub, Arith.mul, Bool.false_eq_true,
    if_false, if_true, Matrix.of_apply, Matrix.cons_val_zero, Matrix.cons_val_one,
    Matrix.head_cons, Matrix.cons_val_two, Matrix.tail_cons, Matrix.cons_val',
    Matrix.empty_val', Matrix.cons_val_fin_one]
  have r0 : roundDouble 5852250000 = 5852250000 := by
    exact_mod_cast roundDouble_eq 5852250000 5852250000
      (by norm_num [roundInt, Nat.log2])
  have r1 : roundDouble 4061500000 = 4061500000 := by
    exact_mod_cast roundDouble_eq 4061500000 4061500000
      (by norm_num [roundInt, Nat.log2])
  have r2 : roundDouble 151680375000000 = 151680375000000 := by
    exact_mod_cast roundDouble_eq 151680375000000 151680375000000
      (by norm_num [roundInt, Nat.log2])
  have r3 : roundDouble 0 = 0 := by
    exact_mod_cast roundDouble_eq 0 0
      (by norm_num [roundInt, Nat.log2])
  have r4 : roundDouble 8052939125000000000 = 8052939124999999488 := by
    exact_mod_cast roundDouble_eq 8052939125000000000 8052939124999999488
      (by norm_num [roundInt, Nat.log2])
  have r5 : roundDouble 512 = 512 := by
    exact_mod_cast roundDouble_eq 512 512
      (by norm_num [roundInt, Nat.log2])
  have r6 : roundDouble (1 / 512) = (1 / 512) := by
    have h := roundDouble_div_pow 1 9 (by norm_num)
    norm_num [roundInt, Nat.log2] at h
    exact h
  have r7 : roundDouble (126921875 / 16) = (126921875 / 16) := by
    have h := roundDouble_div_pow 126921875 4 (by norm_num)
    norm_num [roundInt, Nat.log2] at h
    exact h
  have r8 : roundDouble 9913750000 = 9913750000 := by
    exact_mod_cast roundDouble_eq 9913750000 9913750000
      (by norm_num [roundInt, Nat.log2])
  have r9 : roundDouble (-4061500000) = (-4061500000) := by
    exact_mod_cast roundDouble_eq (-4061500000) (-4061500000)
      (by norm_num [roundInt, Nat.log2])
  have r10 : roundDouble (-(126921875 / 16)) = (-(126921875 / 16)) := by
    have h := roundDouble_div_pow (-126921875) 4 (by norm_num)
    norm_num [roundInt, Nat.log2] at h
    exact h
  have r11 : roundDouble 3931297562500000000 = 3931297562499999744 := by
    exact_mod_cast roundDouble_eq 3931297562500000000 3931297562499999744
      (by norm_num [roundInt, Nat.log2])
  have r12 : roundDouble 256 = 256 := by
    exact_mod_cast roundDouble_eq 256 256
      (by norm_num [roundInt, Nat.log2])
  have r13 : roundDouble (1 / 2) = (1 / 2) := by
    have h := roundDouble_div_pow 1 1 (by norm_num)
    norm_num [roundInt, Nat.log2] at h
    exact h
  norm_num [r0, r1, r2, r3, r4, r5, r6, r7, r8, r9, r10, r11, r12, r13]

theorem R_vecDouble_fiveContacts :
    R_x_vecDouble (binary64 true) fiveContactPoints
      freshWindow.targetPoints = ![50550000, 50550000, 2000] ∧
    R_y_vecDouble (binary64 true) fiveContactPoints
      freshWindow.targetPoints = ![18360000, 18360000, 1200] := by
  have hx := x_raw_isIntLe fiveContactPoints 29500 (by decide)
  have hy := y_raw_isIntLe fiveContactPoints 29500 (by decide)
  have htx : ∀ i, IsIntLe 29500 (x_screen freshWindow.targetPoints i) :=
    x_raw_isIntLe freshWindow.targetPoints 29500 (by decide)
  have hty : ∀ i, IsIntLe 29500 (y_screen freshWindow.targetPoints i) :=
    y_raw_isIntLe freshWindow.targetPoints 29500 (by decide)
  have hl : (fiveContactPoints).length = 5 := rfl
  simp only [R_x_vecDouble, R_y_vecDouble, hl]
  rw [(accumulate_mulAdd_exact true 5 29500 _ _ hx htx (by norm_num)).1,
    (accumulate_mulAdd_exact true 5 29500 _ _ hy htx (by norm_num)).1,
    (accumulate_add_exact true 5 29500 _ htx (by norm_num)).1,
    (accumulate_mulAdd_exact true 5 29500 _ _ hx hty (by norm_num)).1,
    (accumulate_mulAdd_exact true 5 29500 _ _ hy hty (by norm_num)).1,
    (accumulate_add_exact true 5 29500 _ hty (by norm_num)).1]
  simp [sumLoop, x_raw, y_raw, x_screen, y_screen, nth, fiveContactPoints, freshWindow, 
    List.range_succ]
  norm_num

theorem solveParametersDouble_fiveContacts :
    solveParametersDouble (binary64 true)
      !![126921875 / 16, -(126921875 / 16), 0;
         -(126921875 / 16), 126921875 / 16, 0;
         0, 0, 1 / 2]
      ![50550000, 50550000, 2000] ![18360000, 18360000, 1200] = ![0, 0, 1000, 0, 0, 600] := by
  simp only [solveParametersDouble, rowTimesVector, binary64, Arith.div, Arith.mulAdd, Arith.mulSub, Arith.mul, Bool.false_eq_true,
    if_false, if_true, Matrix.of_apply, Matrix.cons_val_zero, Matrix.cons_val_one,
    Matrix.head_cons, Matrix.cons_val_two, Matrix.tail_cons, Matrix.cons_val',
    Matrix.empty_val', Matrix.cons_val_fin_one]
  have r0 : roundDouble (-400993798828125) = (-400993798828125) := by
    exact_mod_cast roundDouble_eq (-400993798828125) (-400993798828125)
      (by norm_num [roundInt, Nat.log2])
  have r1 : roundDouble 0 = 0 := by
    exact_mod_cast roundDouble_eq 0 0
      (by norm_num [roundInt, Nat.log2])
  have r2 : roundDouble 400993798828125 = 400993798828125 := by
    exact_mod_cast roundDouble_eq 400993798828125 400993798828125
      (by norm_num [roundInt, Nat.log2])
  have r3 : roundDouble 1000 = 1000 := by
    exact_mod_cast roundDouble_eq 1000 1000
      (by norm_num [roundInt, Nat.log2])
  have r4 : roundDouble (-145642851562500) = (-145642851562500) := by
    exact_mod_cast roundDouble_eq (-145642851562500) (-145642851562500)
      (by norm_num [roundInt, Nat.log2])
  have r5 : roundDouble 145642851562500 = 145642851562500 := by
    exact_mod_cast roundDouble_eq 145642851562500 145642851562500
      (by norm_num [roundInt, Nat.log2])
  have r6 : roundDouble 600 = 600 := by
    exact_mod_cast roundDouble_eq 600 600
      (by norm_num [roundInt, Nat.log2])
  norm_num [r0, r1, r2, r3, r4, r5, r6]

theorem det3Double_fiveContacts :
    det3Double (binary64 true) (M_designDouble (binary64 true) fiveContactPoints) = 512 := by
  rw [M_designDouble_exact true _ 29500 (by decide) (by decide), M_design_fiveContacts]
  exact det3Double_fiveContacts_matrix

/-! ### The parameters that the fifth contact of `fiveContacts` makes the solver write -/

theorem processRecordDouble_capture (ar : Arith) (s : MainWindow) (l : Locals)
    (ev : input_event) (h1 : ev.type ≠ EV_ABS) (h2 : l.pen_down = true)
    (h3 : s.hasX = true ∧ s.hasY = true)
    (h4 : MAX_POINTS ≤ (l.Points ++ [(⟨s.currentRawX, s.currentRawX⟩ : QPoint)]).length ∧
      s.currentPointIndex < s.targetPoints.length) :
    processRecordDouble ar (s, l) ev =
      ({ capturePointDouble ar s (l.Points ++ [(⟨s.currentRawX, s.currentRawX⟩ : QPoint)]) with
          hasX := false, hasY := false }, ⟨[], true⟩) := by
  simp only [processRecordDouble]
  rw [if_neg h1, if_pos (Or.inr h2), if_pos h3, if_pos h4]

theorem capturePointDouble_matrix_last (ar : Arith) (s : MainWindow) (Points : List QPoint)
    (h : ¬ (s.currentPointIndex + 1 < s.targetPoints.length)) :
    (capturePointDouble ar s Points).matrix =
      (calculateTransformationMatrixDouble ar
        { s with actualTouchPoints := s.actualTouchPoints ++ [recordedPoint Points],
                 currentPointIndex := s.currentPointIndex + 1,
                 message := "Calculating calibration...",
                 notifierEnabled := false }).1.matrix := by
  unfold capturePointDouble recordedPoint
  simp only []
  rw [if_neg h]

theorem fiveContacts_split : fiveContacts = fiveContacts.dropLast ++ [synReport] := by
  decide

set_option maxRecDepth 100000 in
theorem readLoop_fiveContacts_dropLast :
    (readLoop (constructMainWindow 800 480 true) fiveContacts.dropLast).1.hasX = true ∧
    (readLoop (constructMainWindow 800 480 true) fiveContacts.dropLast).1.hasY = true ∧
    (readLoop (constructMainWindow 800 480 true) fiveContacts.dropLast).1.currentRawX = 15500 ∧
    (readLoop (constructMainWindow 800 480 true) fiveContacts.dropLast).1.currentPointIndex = 4 ∧
    (readLoop (constructMainWindow 800 480 true) fiveContacts.dropLast).2 =
      ⟨List.replicate 9 ⟨15500, 15500⟩, true⟩ := by
  decide

set_option maxRecDepth 100000 in
theorem capturedBuffers_fiveContacts_dropLast :
    capturedBuffers (constructMainWindow 800 480 true, ⟨[], false⟩) fiveContacts.dropLast =
      [List.replicate 10 ⟨1000, 1000⟩, List.replicate 10 ⟨29500, 29500⟩,
       List.replicate 10 ⟨29500, 29500⟩, List.replicate 10 ⟨1000, 1000⟩] := by
  decide

theorem calculateTransformationMatrixDouble_fiveContacts (s : MainWindow)
    (ha : s.actualTouchPoints = fiveContactPoints)
    (ht : s.targetPoints = freshWindow.targetPoints) :
    (calculateTransformationMatrixDouble (binary64 true) s).1.matrix =
      ![0, 0, 1000, 0, 0, 600] := by
  have hq : qFuzzyIsNullDouble (binary64 true) (det3Double (binary64 true)
      (M_designDouble (binary64 true) s.actualTouchPoints)) = false := by
    rw [ha, det3Double_fiveContacts]
    exact qFuzzyIsNullDouble_of_one_le true _ (by norm_num)
  rw [calculateTransformationMatrixDouble_of_solvable (binary64 true) s
    (by rw [ha]; decide) hq (by rw [ha, ht]; decide)]
  simp only []
  rw [ha, ht, M_designDouble_exact true _ 29500 (by decide) (by decide), M_design_fiveContacts,
    invertMatrix3x3Double_fiveContacts, R_vecDouble_fiveContacts.1, R_vecDouble_fiveContacts.2]
  exact solveParametersDouble_fiveContacts

theorem readLoop_targetPoints (s : MainWindow) (records : List input_event) :
    (readLoop s records).1.targetPoints = s.targetPoints :=
  (foldl_processRecord_trace records (s, ⟨[], false⟩)).1

theorem readLoop_fiveContacts_dropLast_points :
    (readLoop (constructMainWindow 800 480 true) fiveContacts.dropLast).1.actualTouchPoints =
      [⟨1000, 1000⟩, ⟨29500, 29500⟩, ⟨29500, 29500⟩, ⟨1000, 1000⟩] := by
  rw [readLoop_actualTouchPoints, capturedBuffers_fiveContacts_dropLast]
  simp only [List.map_cons, List.map_nil]
  rw [recordedPoint_replicate_ten 1000 (by decide), recordedPoint_replicate_ten 29500 (by decide)]
  rfl

theorem processRecordDouble_last_capture (ar : Arith) (s : MainWindow) (l : Locals)
    (m1 : Fin 6 → ℚ) (ev : input_event) (h1 : ev.type ≠ EV_ABS) (h2 : l.pen_down = true)
    (hX : s.hasX = true) (hY : s.hasY = true)
    (h4 : MAX_POINTS ≤ (l.Points ++ [(⟨s.currentRawX, s.currentRawX⟩ : QPoint)]).length)
    (h5 : s.currentPointIndex + 1 = s.targetPoints.length) :
    (processRecordDouble ar (setMatrix s m1, l) ev).1.matrix =
      (calculateTransformationMatrixDouble ar
        { setMatrix s m1 with
          actualTouchPoints := s.actualTouchPoints ++
            [recordedPoint (l.Points ++ [(⟨s.currentRawX, s.currentRawX⟩ : QPoint)])],
          currentPointIndex := s.currentPointIndex + 1,
          message := "Calculating calibration...",
          notifierEnabled := false }).1.matrix := by
  have hcap := processRecordDouble_capture ar (setMatrix s m1) l ev h1 h2 ⟨hX, hY⟩
    ⟨h4, by show s.currentPointIndex < s.targetPoints.length; omega⟩
  have hlast := capturePointDouble_matrix_last ar (setMatrix s m1)
    (l.Points ++ [(⟨s.currentRawX, s.currentRawX⟩ : QPoint)])
    (by show ¬ (s.currentPointIndex + 1 < s.targetPoints.length); omega)
  rw [hcap]
  exact hlast

theorem processRecordDouble_fifth_contact (s : MainWindow) (l : Locals) (m1 : Fin 6 → ℚ)
    (hX : s.hasX = true) (hY : s.hasY = true) (hx : s.currentRawX = 15500)
    (hi : s.currentPointIndex = 4) (ht : s.targetPoints = freshWindow.targetPoints)
    (ha : s.actualTouchPoints = [⟨1000, 1000⟩, ⟨29500, 29500⟩, ⟨29500, 29500⟩, ⟨1000, 1000⟩])
    (hl : l = ⟨List.replicate 9 ⟨15500, 15500⟩, true⟩) :
    (processRecordDouble (binary64 true) (setMatrix s m1, l) synReport).1.matrix =
      ![0, 0, 1000, 0, 0, 600] := by
  have hrec : recordedPoint (l.Points ++ [(⟨s.currentRawX, s.currentRawX⟩ : QPoint)]) =
      ⟨15500, 15500⟩ := by
    rw [hl, hx]
    exact recordedPoint_replicate_ten 15500 (by decide)
  rw [processRecordDouble_last_capture (binary64 true) s l m1 synReport (by decide)
    (by rw [hl]) hX hY (by rw [hl, hx]; decide) (by rw [hi, ht]; rfl)]
  apply calculateTransformationMatrixDouble_fiveContacts
  · show s.actualTouchPoints ++ [recordedPoint _] = _
    rw [hrec, ha]
    rfl
  · exact ht

theorem readInputDeviceDouble_fiveContacts_matrix :
    (readInputDeviceDouble (binary64 true) (constructMainWindow 800 480 true)
      fiveContacts false).matrix = ![0, 0, 1000, 0, 0, 600] := by
  obtain ⟨hX, hY, hx, hi, hl⟩ := readLoop_fiveContacts_dropLast
  have hp := readLoop_fiveContacts_dropLast_points
  have htg := readLoop_targetPoints (constructMainWindow 800 480 true) fiveContacts.dropLast
  obtain ⟨m1, hm⟩ := foldl_processRecordDouble_sim (binary64 true) fiveContacts.dropLast
    (constructMainWindow 800 480 true) (constructMainWindow 800 480 true).matrix ⟨[], false⟩
  have hs : setMatrix (constructMainWindow 800 480 true)
      (constructMainWindow 800 480 true).matrix = constructMainWindow 800 480 true := rfl
  rw [hs] at hm
  have hsplit : readLoopDouble (binary64 true) (constructMainWindow 800 480 true) fiveContacts =
      processRecordDouble (binary64 true)
        (List.foldl (processRecordDouble (binary64 true))
          (constructMainWindow 800 480 true, ⟨[], false⟩) fiveContacts.dropLast) synReport := by
    conv_lhs => rw [fiveContacts_split]
    simp only [readLoopDouble, List.foldl_append, List.foldl_cons, List.foldl_nil]
  unfold readInputDeviceDouble
  simp only [Bool.false_eq_true, if_false]
  rw [hsplit, hm]
  exact processRecordDouble_fifth_contact _ _ m1 hX hY hx hi (htg.trans rfl) hp hl

/-! ### Without rounding the machine's solver is the exact one -/

theorem accumulate_exactArith_mulAdd (N : Nat) (u v : Nat → ℚ) :
    accumulate N (fun acc i => exactArith.mulAdd (u i) (v i) acc) =
      sumLoop N (fun i => u i * v i) := by
  have : (fun (acc : ℚ) (i : Nat) => exactArith.mulAdd (u i) (v i) acc) =
      (fun acc i => acc + u i * v i) := by
    funext acc i
    simp [exactArith, Arith.mulAdd, add_comm]
  rw [this]
  rfl

theorem accumulate_exactArith_add (N : Nat) (u : Nat → ℚ) :
    accumulate N (fun acc i => exactArith.add acc (u i)) = sumLoop N u := rfl

theorem det3Double_exactArith (M : Mat3) : det3Double exactArith M = det3 M := by
  simp only [det3Double, det3, exactArith, Arith.mulAdd, Arith.mulSub, Arith.mul,
    Bool.false_eq_true, if_false]
  ring

theorem M_designDouble_exactArith (raw : List QPoint) :
    M_designDouble exactArith raw = M_design raw := by
  unfold M_designDouble M_design S_xx S_xy S_x S_yy S_y S_1
  simp only [accumulate_exactArith_mulAdd, accumulate_exactArith_add]

theorem invertMatrix3x3Double_exactArith (M M_out : Mat3) :
    invertMatrix3x3Double exactArith M M_out = invertMatrix3x3 M M_out := by
  unfold invertMatrix3x3Double invertMatrix3x3
  simp only [det3Double_exactArith]
  rfl

theorem rowTimesVector_exactArith (I : Mat3) (r : Fin 3) (R : Fin 3 → ℚ) :
    rowTimesVector exactArith I r R = I r 0 * R 0 + I r 1 * R 1 + I r 2 * R 2 := by
  simp only [rowTimesVector, exactArith, Arith.mulAdd, Arith.mul, Bool.false_eq_true, if_false]
  ring

theorem solveParametersDouble_exactArith (I : Mat3) (v w : Fin 3 → ℚ) :
    solveParametersDouble exactArith I v w = solveParameters I v w := by
  simp only [solveParametersDouble, solveParameters, rowTimesVector_exactArith]

theorem R_x_vecDouble_exactArith (raw tgt : List QPoint) :
    R_x_vecDouble exactArith raw tgt = R_x_vec raw tgt := by
  simp only [R_x_vecDouble, R_x_vec, accumulate_exactArith_mulAdd, accumulate_exactArith_add]

theorem R_y_vecDouble_exactArith (raw tgt : List QPoint) :
    R_y_vecDouble exactArith raw tgt = R_y_vec raw tgt := by
  simp only [R_y_vecDouble, R_y_vec, accumulate_exactArith_mulAdd, accumulate_exactArith_add]

theorem totalErrorXDouble_exactArith (m : Fin 6 → ℚ) (raw tgt : List QPoint) :
    totalErrorXDouble exactArith m raw tgt = totalErrorX m raw tgt := rfl

theorem totalErrorYDouble_exactArith (m : Fin 6 → ℚ) (raw tgt : List QPoint) :
    totalErrorYDouble exactArith m raw tgt = totalErrorY m raw tgt := rfl

theorem calculateTransformationMatrixDouble_exactArith (s : MainWindow) :
    calculateTransformationMatrixDouble exactArith s = calculateTransformationMatrix s := by
  unfold calculateTransformationMatrixDouble calculateTransformationMatrix
  simp only [M_designDouble_exactArith, invertMatrix3x3Double_exactArith,
    solveParametersDouble_exactArith, R_x_vecDouble_exactArith, R_y_vecDouble_exactArith,
    totalErrorXDouble_exactArith, totalErrorYDouble_exactArith]
  rfl

theorem capturePointDouble_exactArith (s : MainWindow) (Points : List QPoint) :
    capturePointDouble exactArith s Points = capturePoint s Points := by
  unfold capturePointDouble capturePoint
  simp only [calculateTransformationMatrixDouble_exactArith]

theorem processRecordDouble_exactArith (st : MainWindow × Locals) (ev : input_event) :
    processRecordDouble exactArith st ev = processRecord st ev := by
  simp only [processRecordDouble, processRecord, capturePointDouble_exactArith]

theorem readInputDeviceDouble_exactArith (s : MainWindow) (records : List input_event)
    (readError : Bool) :
    readInputDeviceDouble exactArith s records readError =
      readInputDevice s records readError := by
  have h : processRecordDouble exactArith = processRecord := by
    funext st ev
    exact processRecordDouble_exactArith st ev
  unfold readInputDeviceDouble readInputDevice readLoopDouble readLoop
  rw [h]

/-! ### Consequences used by the claims about rounding -/

theorem det_M_design_natCast (raw : List QPoint) : ∃ z : Nat, det3 (M_design raw) = (z : ℚ) := by
  refine ⟨(∑ k in range raw.length, ∑ j in range k, ∑ i in range j,
    (rowsDet (nth raw i) (nth raw j) (nth raw k)) ^ 2 : Int).toNat, ?_⟩
  rw [det_M_design_eq_sum]
  have hnn : (0 : Int) ≤ ∑ k in range raw.length, ∑ j in range k,
      ∑ i in range j, (rowsDet (nth raw i) (nth raw j) (nth raw k)) ^ 2 :=
    Finset.sum_nonneg (fun _ _ => Finset.sum_nonneg (fun _ _ =>
      Finset.sum_nonneg (fun _ _ => sq_nonneg _)))
  have hcast : ((((∑ k in range raw.length, ∑ j in range k,
      ∑ i in range j, (rowsDet (nth raw i) (nth raw j) (nth raw k)) ^ 2 : Int).toNat : Nat) :
        Int) : ℚ) =
      ((∑ k in range raw.length, ∑ j in range k,
      ∑ i in range j, (rowsDet (nth raw i) (nth raw j) (nth raw k)) ^ 2 : Int) : ℚ) := by
    rw [Int.toNat_of_nonneg hnn]
  rw [Int.cast_natCast] at hcast
  rw [hcast]
  push_cast
  rfl

theorem invertMatrix3x3Double_of_bounded (fused : Bool) (M : Mat3) (B : Nat)
    (hM : ∀ i j, IsIntLe B (M i j)) (hB : 6 * B ^ 3 < 2 ^ 53) :
    det3Double (binary64 fused) M = M.det ∧
    (M.det = 0 → ∀ M_out, (invertMatrix3x3Double (binary64 fused) M M_out).1 = false) ∧
    (M.det ≠ 0 → ∀ M_out, (invertMatrix3x3Double (binary64 fused) M M_out).1 = true) := by
  have h1 : B * B + B * B < 2 ^ 53 := by
    rcases Nat.eq_zero_or_pos B with h0 | h0
    · subst h0; simp
    · have : B ^ 2 ≤ B ^ 3 := Nat.pow_le_pow_right h0 (by norm_num)
      have e : B * B + B * B = 2 * B ^ 2 := by ring
      omega
  have h3 : B * (B * B + B * B) + (B * (B * B + B * B) + B * (B * B + B * B)) < 2 ^ 53 := by
    have e : B * (B * B + B * B) + (B * (B * B + B * B) + B * (B * B + B * B)) = 6 * B ^ 3 := by
      ring
    omega
  obtain ⟨hdet, hint⟩ := det3Double_exact fused M B B B (hM 0 0) (hM 0 1) (hM 0 2) (hM 1 0)
    (hM 1 1) (hM 1 2) (hM 2 0) (hM 2 1) (hM 2 2) h1 h1 h3
  rw [det3_eq_det] at hdet hint
  refine ⟨hdet, ?_, ?_⟩
  · intro h0 M_out
    rw [invertMatrix3x3Double_fst, hdet, h0, qFuzzyIsNullDouble_zero]
    rfl
  · intro hne M_out
    obtain ⟨z, hz, _⟩ := hint
    have hz0 : z ≠ 0 := by
      intro h
      apply hne
      rw [hz, h]
      simp
    have habs : (1 : ℚ) ≤ |M.det| := by
      rw [hz, ← Int.cast_abs]
      have : (1 : Int) ≤ |z| := Int.one_le_abs hz0
      exact_mod_cast this
    rw [invertMatrix3x3Double_fst, hdet, qFuzzyIsNullDouble_of_one_le fused _ habs]
    rfl

/-! ## The claims -/

/-- C1: exact recovery.  When the recorded raw points (three or more, integer coordinates) are
not all on one line and every target is the image of its raw point under the affine map
`(A, B, C, D, E, F)`, `calculateTransformationMatrix` runs to its end, stores exactly
`(A, B, C, D, E, F)` in `matrix[0..5]`, changes nothing else, and both mean absolute
residuals are 0. -/
theorem exact_recovery (s : MainWindow) (A B C D E F : ℚ)
    (h3 : 3 ≤ s.actualTouchPoints.length)
    (hlen : s.actualTouchPoints.length ≤ s.targetPoints.length)
    (hnc : ¬ collinear s.actualTouchPoints)
    (hx : ∀ i < s.actualTouchPoints.length, ((nth s.targetPoints i).x : ℚ) =
      A * ((nth s.actualTouchPoints i).x : ℚ) + B * ((nth s.actualTouchPoints i).y : ℚ) + C)
    (hy : ∀ i < s.actualTouchPoints.length, ((nth s.targetPoints i).y : ℚ) =
      D * ((nth s.actualTouchPoints i).x : ℚ) + E * ((nth s.actualTouchPoints i).y : ℚ) + F) :
    calculateTransformationMatrix s =
      ({ s with matrix := ![A, B, C, D, E, F] }, SolveOutcome.solved 0 0) :=
  calculateTransformationMatrix_affine s A B C D E F h3 hlen hnc hx hy

/-- The instance of C1 named by the specification: the five targets of an 800 x 480 screen,
each recorded 5 units up and to the left, give back `A = 1, B = 0, C = 5, D = 0, E = 1, F = 5`
with both residuals 0. -/
theorem exact_recovery_witness :
    (3 ≤ shiftedWindow.actualTouchPoints.length ∧ ¬ collinear shiftedWindow.actualTouchPoints) ∧
    calculateTransformationMatrix shiftedWindow =
      ({ shiftedWindow with matrix := ![1, 0, 5, 0, 1, 5] }, SolveOutcome.solved 0 0) :=
  ⟨⟨by decide, by decide⟩,
   exact_recovery shiftedWindow 1 0 5 0 1 5 (by decide) (by decide) (by decide)
    shiftedWindow_x shiftedWindow_y⟩

/-- C2: least-squares optimality.  Whenever `calculateTransformationMatrix` runs to its end,
the stored `(matrix[0], matrix[1], matrix[2])` minimises the sum of the squared residuals
`a * x_i + b * y_i + c - targetX_i` over all real `(a, b, c)`, and the stored
`(matrix[3], matrix[4], matrix[5])` does so for the residuals against `targetY_i`. -/
theorem least_squares_optimal (s : MainWindow) (eX eY : ℚ)
    (h : (calculateTransformationMatrix s).2 = SolveOutcome.solved eX eY) :
    minimisesSquares s.actualTouchPoints (fun i => (nth s.targetPoints i).x)
      ((calculateTransformationMatrix s).1.matrix 0) ((calculateTransformationMatrix s).1.matrix 1)
      ((calculateTransformationMatrix s).1.matrix 2) ∧
    minimisesSquares s.actualTouchPoints (fun i => (nth s.targetPoints i).y)
      ((calculateTransformationMatrix s).1.matrix 3) ((calculateTransformationMatrix s).1.matrix 4)
      ((calculateTransformationMatrix s).1.matrix 5) := by
  obtain ⟨h3, hq, hlen⟩ := solved_imp s eX eY h
  rw [calculateTransformationMatrix_of_solvable s h3 hq hlen]
  have hI := self_mul_invertMatrix3x3 (M_design s.actualTouchPoints) 0 hq
  have nx := normal_equations _ _ hI (R_x_vec s.actualTouchPoints s.targetPoints)
  have ny := normal_equations _ _ hI (R_y_vec s.actualTouchPoints s.targetPoints)
  clear hI
  generalize (invertMatrix3x3 (M_design s.actualTouchPoints) 0).2 = I at nx ny ⊢
  have nx0 := congrFun nx 0
  have nx1 := congrFun nx 1
  have nx2 := congrFun nx 2
  have ny0 := congrFun ny 0
  have ny1 := congrFun ny 1
  have ny2 := congrFun ny 2
  simp only [Matrix.mulVec, Matrix.dotProduct, Fin.sum_univ_three, M_design, R_x_vec, R_y_vec,
    S_xx, S_xy, S_x, S_yy, S_y, S_1, sumLoop_eq_sum, x_raw, y_raw, x_screen, y_screen,
    Matrix.cons_val_zero, Matrix.cons_val_one, Matrix.head_cons, Matrix.cons_val_two,
    Matrix.tail_cons, Matrix.of_apply, Matrix.cons_val', Matrix.empty_val',
    Matrix.cons_val_fin_one, Matrix.vecHead] at nx0 nx1 nx2 ny0 ny1 ny2
  have cx0 := congrArg (fun q : ℚ => (q : ℝ)) nx0
  have cx1 := congrArg (fun q : ℚ => (q : ℝ)) nx1
  have cx2 := congrArg (fun q : ℚ => (q : ℝ)) nx2
  have cy0 := congrArg (fun q : ℚ => (q : ℝ)) ny0
  have cy1 := congrArg (fun q : ℚ => (q : ℝ)) ny1
  have cy2 := congrArg (fun q : ℚ => (q : ℝ)) ny2
  simp only [] at cx0 cx1 cx2 cy0 cy1 cy2
  push_cast at cx0 cx1 cx2 cy0 cy1 cy2
  clear nx ny nx0 nx1 nx2 ny0 ny1 ny2
  constructor
  · intro a b c
    refine sum_sq_residual_le (fun i => ((nth s.actualTouchPoints i).x : ℝ))
      (fun i => ((nth s.actualTouchPoints i).y : ℝ)) (fun i => ((nth s.targetPoints i).x : ℝ))
      _ _ _ _ ?_ ?_ ?_ a b c <;>
    · simp only [solveParameters, Matrix.cons_val_zero, Matrix.cons_val_one, Matrix.head_cons,
        Matrix.cons_val_two, Matrix.tail_cons, R_x_vec, sumLoop_eq_sum, x_raw, y_raw, x_screen]
      push_cast
      linarith
  · intro a b c
    refine sum_sq_residual_le (fun i => ((nth s.actualTouchPoints i).x : ℝ))
      (fun i => ((nth s.actualTouchPoints i).y : ℝ)) (fun i => ((nth s.targetPoints i).y : ℝ))
      _ _ _ _ ?_ ?_ ?_ a b c <;>
    · simp only [solveParameters, Matrix.cons_val_zero, Matrix.cons_val_one, Matrix.head_cons,
        Matrix.cons_val_two, Matrix.tail_cons, R_y_vec, sumLoop_eq_sum, x_raw, y_raw, y_screen]
      have h3 : (3 : Fin 6) = Fin.succ (Fin.succ (Fin.succ 0)) := rfl
      have h4 : (4 : Fin 6) = Fin.succ (Fin.succ (Fin.succ (Fin.succ 0))) := rfl
      have h5 : (5 : Fin 6) = Fin.succ (Fin.succ (Fin.succ (Fin.succ (Fin.succ 0)))) := rfl
      simp only [h3, h4, h5, Matrix.cons_val_succ, Matrix.cons_val_zero]
      push_cast
      linarith

/-- An instance of C2: on the five shifted targets the solver runs to its end and the stored
parameters minimise both sums of squares. -/
theorem least_squares_optimal_witness :
    (calculateTransformationMatrix shiftedWindow).2 = SolveOutcome.solved 0 0 ∧
    (minimisesSquares shiftedWindow.actualTouchPoints (fun i => (nth shiftedWindow.targetPoints i).x)
      ((calculateTransformationMatrix shiftedWindow).1.matrix 0)
      ((calculateTransformationMatrix shiftedWindow).1.matrix 1)
      ((calculateTransformationMatrix shiftedWindow).1.matrix 2) ∧
    minimisesSquares shiftedWindow.actualTouchPoints (fun i => (nth shiftedWindow.targetPoints i).y)
      ((calculateTransformationMatrix shiftedWindow).1.matrix 3)
      ((calculateTransformationMatrix shiftedWindow).1.matrix 4)
      ((calculateTransformationMatrix shiftedWindow).1.matrix 5)) :=
  ⟨by rw [shiftedWindow_solved],
   least_squares_optimal shiftedWindow 0 0 (by rw [shiftedWindow_solved])⟩

/-- C3 fails as stated: the five raw points `(3000,3001)`, `(30000,30001)`, `(31000,31001)`,
`(3500,3501)`, `(16000,16001)` lie on the line `y = x + 1` and the determinant of their
design matrix is 0, and yet the determinant that `invertMatrix3x3` computes in `double`
arithmetic is 256, with or without contraction: the product `2138333500 * 3719000000` is no
`double` and rounds down by 256.  The inversion returns `true`, and
`calculateTransformationMatrix` runs to its end and stores the parameters
`[0, 0, 500, 0, 0, 300]`, which map every raw point to `(500, 300)`. -/
theorem collinear_points_accepted_after_rounding :
    collinear offsetLineWindow.actualTouchPoints ∧
    3 ≤ offsetLineWindow.actualTouchPoints.length ∧
    (M_design offsetLineWindow.actualTouchPoints).det = 0 ∧
    det3Double (binary64 false)
      (M_designDouble (binary64 false) offsetLineWindow.actualTouchPoints) = 256 ∧
    det3Double (binary64 true)
      (M_designDouble (binary64 true) offsetLineWindow.actualTouchPoints) = 256 ∧
    (invertMatrix3x3Double (binary64 false)
      (M_designDouble (binary64 false) offsetLineWindow.actualTouchPoints) 0).1 = true ∧
    (calculateTransformationMatrixDouble (binary64 false) offsetLineWindow).2 ≠
      SolveOutcome.singularDesignMatrix ∧
    (∃ eX eY, (calculateTransformationMatrixDouble (binary64 false) offsetLineWindow).2 =
      SolveOutcome.solved eX eY) ∧
    (calculateTransformationMatrixDouble (binary64 false) offsetLineWindow).1.matrix =
      solveParametersDouble (binary64 false)
        (invertMatrix3x3Double (binary64 false)
          (M_designDouble (binary64 false) offsetLineWindow.actualTouchPoints) 0).2
        (R_x_vecDouble (binary64 false) offsetLineWindow.actualTouchPoints
          offsetLineWindow.targetPoints)
        (R_y_vecDouble (binary64 false) offsetLineWindow.actualTouchPoints
          offsetLineWindow.targetPoints) ∧
    (calculateTransformationMatrixDouble (binary64 false) offsetLineWindow).1.matrix =
      ![0, 0, 500, 0, 0, 300] := by
  have hc : collinear offsetLineWindow.actualTouchPoints := by decide
  have hq : qFuzzyIsNullDouble (binary64 false) (det3Double (binary64 false)
      (M_designDouble (binary64 false) offsetLineWindow.actualTouchPoints)) = false := by
    rw [det3Double_offsetLine]
    exact qFuzzyIsNullDouble_of_one_le false _ (by norm_num)
  have hs := calculateTransformationMatrixDouble_of_solvable (binary64 false) offsetLineWindow
    (by decide) hq (by decide)
  refine ⟨hc, by decide, ?_, det3Double_offsetLine false, det3Double_offsetLine true, ?_, ?_,
    ?_, ?_, calculateTransformationMatrixDouble_offsetLine⟩
  · rw [← det3_eq_det]; exact det_M_design_eq_zero _ hc
  · rw [invertMatrix3x3Double_fst, hq]; rfl
  · rw [hs]; exact fun h => by cases h
  · rw [hs]; exact ⟨_, _, rfl⟩
  · rw [hs]

/-- C3, amended: when the recorded raw points (three or more) all lie on one line and their
coordinates are at most `B` in absolute value, with `6 * N^3 * B^4 < 2^53` (for `N = 5`:
`B <= 1861`), no operation of the determinant rounds, with or without contraction: whatever
the targets, the determinant that `invertMatrix3x3` computes is 0, the function returns
`false` and leaves its output untouched, and `calculateTransformationMatrix` ends on the
singular-matrix return with the object, its six parameters included, unchanged. -/
theorem collinear_input_rejected_in_exact_range (fused : Bool) (s : MainWindow) (M_out : Mat3)
    (B : Nat) (h3 : 3 ≤ s.actualTouchPoints.length) (hc : collinear s.actualTouchPoints)
    (hB : ∀ p ∈ s.actualTouchPoints, p.x.natAbs ≤ B ∧ p.y.natAbs ≤ B)
    (hr : 6 * s.actualTouchPoints.length ^ 3 * B ^ 4 < 2 ^ 53) :
    det3Double (binary64 fused) (M_designDouble (binary64 fused) s.actualTouchPoints) = 0 ∧
    invertMatrix3x3Double (binary64 fused)
      (M_designDouble (binary64 fused) s.actualTouchPoints) M_out = (false, M_out) ∧
    calculateTransformationMatrixDouble (binary64 fused) s =
      (s, SolveOutcome.singularDesignMatrix) := by
  have hd : det3Double (binary64 fused)
      (M_designDouble (binary64 fused) s.actualTouchPoints) = 0 := by
    rw [(det3Double_M_design_exact fused _ B hB hr).2]
    exact det_M_design_eq_zero _ hc
  have hq : qFuzzyIsNullDouble (binary64 fused) (det3Double (binary64 fused)
      (M_designDouble (binary64 fused) s.actualTouchPoints)) = true := by
    rw [hd]; exact qFuzzyIsNullDouble_zero fused
  exact ⟨hd, invertMatrix3x3Double_of_null _ _ _ hq,
    calculateTransformationMatrixDouble_of_null _ s h3 hq⟩

/-- The instance of C3 named by the specification: the raw points `(0,0), (1,1), (2,2)`,
whose coordinates are at most 2. -/
theorem collinear_input_rejected_in_exact_range_witness :
    (3 ≤ diagonalWindow.actualTouchPoints.length ∧ collinear diagonalWindow.actualTouchPoints ∧
      (∀ p ∈ diagonalWindow.actualTouchPoints, p.x.natAbs ≤ 2 ∧ p.y.natAbs ≤ 2) ∧
      6 * diagonalWindow.actualTouchPoints.length ^ 3 * 2 ^ 4 < 2 ^ 53) ∧
    det3Double (binary64 false)
      (M_designDouble (binary64 false) diagonalWindow.actualTouchPoints) = 0 ∧
    invertMatrix3x3Double (binary64 false)
      (M_designDouble (binary64 false) diagonalWindow.actualTouchPoints) 0 = (false, 0) ∧
    calculateTransformationMatrixDouble (binary64 false) diagonalWindow =
      (diagonalWindow, SolveOutcome.singularDesignMatrix) :=
  ⟨⟨by decide, by decide, by decide, by decide⟩,
   collinear_input_rejected_in_exact_range false diagonalWindow 0 2 (by decide) (by decide)
     (by decide) (by decide)⟩

/-- C4: with fewer than 3 recorded raw points `calculateTransformationMatrix` ends on the
insufficient-points return and leaves the object, its six parameters included, unchanged.
The outcome is decided before the design matrix is looked at: that matrix is singular for
every such input, and the outcome is nevertheless not the singular-matrix one. -/
theorem too_few_points_rejected (s : MainWindow) (h : s.actualTouchPoints.length < 3) :
    calculateTransformationMatrix s = (s, SolveOutcome.insufficientPoints) ∧
    (calculateTransformationMatrix s).1.matrix = s.matrix ∧
    (invertMatrix3x3 (M_design s.actualTouchPoints) 0).1 = false := by
  refine ⟨calculateTransformationMatrix_of_lt s h, ?_, ?_⟩
  · rw [calculateTransformationMatrix_of_lt s h]
  · rw [invertMatrix3x3_fst, det_M_design_eq_zero _ (collinear_of_length_lt _ h),
      qFuzzyIsNull_zero]
    rfl

/-- An instance of C4: two recorded points. -/
theorem too_few_points_rejected_witness :
    twoPointWindow.actualTouchPoints.length < 3 ∧
    calculateTransformationMatrix twoPointWindow =
      (twoPointWindow, SolveOutcome.insufficientPoints) ∧
    (calculateTransformationMatrix twoPointWindow).1.matrix = twoPointWindow.matrix ∧
    (invertMatrix3x3 (M_design twoPointWindow.actualTouchPoints) 0).1 = false :=
  ⟨by decide, too_few_points_rejected twoPointWindow (by decide)⟩

/-- C5: whenever the determinant of `M` is not treated as zero, `invertMatrix3x3` returns
`true`, its determinant is the cofactor expansion along the first row (the determinant of
`M`), and the matrix it writes is a two-sided inverse of `M`. -/
theorem invertMatrix3x3_is_inverse (M M_out : Mat3) (h : qFuzzyIsNull (det3 M) = false) :
    (invertMatrix3x3 M M_out).1 = true ∧ det3 M = M.det ∧
    (invertMatrix3x3 M M_out).2 * M = 1 ∧ M * (invertMatrix3x3 M M_out).2 = 1 := by
  refine ⟨?_, det3_eq_det M, invertMatrix3x3_mul_self M M_out h,
    self_mul_invertMatrix3x3 M M_out h⟩
  rw [invertMatrix3x3_fst, h]
  rfl

/-- An instance of C5: a matrix of determinant 16. -/
theorem invertMatrix3x3_is_inverse_witness :
    qFuzzyIsNull (det3 exampleMatrix) = false ∧
    (invertMatrix3x3 exampleMatrix 0).1 = true ∧ det3 exampleMatrix = exampleMatrix.det ∧
    (invertMatrix3x3 exampleMatrix 0).2 * exampleMatrix = 1 ∧
    exampleMatrix * (invertMatrix3x3 exampleMatrix 0).2 = 1 :=
  ⟨exampleMatrix_not_null, invertMatrix3x3_is_inverse exampleMatrix 0 exampleMatrix_not_null⟩

/-- C6: the code at the records `axis(X,x), axis(Y,y), button(TOUCH,1)`: from any state of
the object and the fresh locals, the loop produces exactly one raw sample and leaves the
contact active, but the sample is `(x, x)`: line 192 pushes `QPoint(currentRawX, currentRawX)`. -/
theorem readLoop_sample_repeats_x (s : MainWindow) (x y : Int) :
    (readLoop s [axisX x, axisY y, buttonTouch 1]).2 = ⟨[⟨x, x⟩], true⟩ ∧
    (readLoop freshWindow [axisX 100, axisY 200, buttonTouch 1]).2.Points ≠ [⟨100, 200⟩] := by
  constructor
  · simp [readLoop, processRecord, axisX, axisY, buttonTouch, EV_ABS, EV_KEY, ABS_X, ABS_Y,
      BTN_TOUCH, MAX_POINTS]
  · decide

/-- C8: the code at `twoShortContacts`, a first contact of 9 samples that is released and a
second contact of 1 sample: a point is recorded at the second contact-down, the 9 samples of
the released contact having stayed in the buffer. -/
theorem short_contacts_record_a_point :
    sampleCount (freshWindow, ⟨[], false⟩) (twoShortContacts.take 28) = 9 ∧
    sampleCount (freshWindow, ⟨[], false⟩) twoShortContacts = 10 ∧
    (readInputDevice freshWindow twoShortContacts false).currentPointIndex = 1 ∧
    (readInputDevice freshWindow twoShortContacts false).actualTouchPoints.length = 1 ∧
    (readLoop freshWindow (twoShortContacts.take 30)).2 =
      ⟨List.replicate 9 ⟨100, 100⟩, true⟩ := by
  decide

/-- C9 fails as stated: `heldContact` holds a single contact-down and 20 samples, and the
call records two points. -/
theorem held_contact_records_two_points :
    heldContact.count (buttonTouch 1) = 1 ∧
    sampleCount (freshWindow, ⟨[], false⟩) heldContact = 20 ∧
    (readInputDevice freshWindow heldContact false).currentPointIndex = 2 := by
  decide

/-- C9, as amended: a call records one point per `MAX_POINTS = 10` samples it gathers.  The
index of the current target never decreases, ten times its growth plus the length of the
buffer left at the end is the number of samples the call produced, and a record that
captures a point leaves the buffer empty and the contact active, so that collection goes on
without a new contact-down. -/
theorem one_point_per_ten_samples (s : MainWindow) (records : List input_event)
    (readError : Bool) :
    s.currentPointIndex ≤ (readInputDevice s records readError).currentPointIndex ∧
    MAX_POINTS * ((readInputDevice s records readError).currentPointIndex - s.currentPointIndex) +
        (readLoop s records).2.Points.length = sampleCount (s, ⟨[], false⟩) records ∧
    ∀ (st : MainWindow × Locals) (ev : input_event),
      (processRecord st ev).1.currentPointIndex ≠ st.1.currentPointIndex →
        (processRecord st ev).2 = ⟨[], true⟩ := by
  have h := foldl_processRecord_count records (s, ⟨[], false⟩)
    (fun _ => by simp [MAX_POINTS]) (fun _ => rfl)
  rw [readInputDevice_currentPointIndex]
  simp only [List.length_nil, add_zero] at h
  have h' : MAX_POINTS * (readLoop s records).1.currentPointIndex +
      (readLoop s records).2.Points.length =
      MAX_POINTS * s.currentPointIndex + sampleCount (s, ⟨[], false⟩) records := h
  have hm : s.currentPointIndex ≤ (readLoop s records).1.currentPointIndex :=
    foldl_processRecord_index_mono records (s, ⟨[], false⟩)
  simp only [MAX_POINTS] at h' ⊢
  exact ⟨hm, by omega, processRecord_capture⟩

/-- C10: the code at a contact-up met while a contact is active.  Such a record never ends
the contact; after `axis(X,100), axis(Y,200), button(TOUCH,1), axis(X,110), axis(Y,210)` the
record `button(TOUCH,0)` itself produces the sample `(110, 110)` and leaves the buffer with
two samples and the contact active. -/
theorem contact_up_ignored_while_active (s : MainWindow) (Points : List QPoint) :
    (processRecord (s, ⟨Points, true⟩) (buttonTouch 0)).2.pen_down = true ∧
    (readLoop freshWindow
      [axisX 100, axisY 200, buttonTouch 1, axisX 110, axisY 210, buttonTouch 0]).2 =
        ⟨[⟨100, 100⟩, ⟨110, 110⟩], true⟩ := by
  constructor
  · simp only [processRecord, buttonTouch, EV_KEY, EV_ABS]
    split_ifs <;> simp_all
  · decide

/-- C11: fresh axes required.  Immediately after a record has produced a sample both pending
flags are false, and over every following record sequence that holds no axis X record, or
holds no axis Y record, no further sample is produced. -/
theorem fresh_axes_required (st : MainWindow × Locals) (ev : input_event)
    (records : List input_event) (h : emitsSample st ev = true)
    (hlack : (∀ r ∈ records, ¬ (r.type = EV_ABS ∧ r.code = ABS_X)) ∨
      (∀ r ∈ records, ¬ (r.type = EV_ABS ∧ r.code = ABS_Y))) :
    (processRecord st ev).1.hasX = false ∧ (processRecord st ev).1.hasY = false ∧
    sampleCount (processRecord st ev) records = 0 ∧
    samplesOf (processRecord st ev) records = [] := by
  obtain ⟨hx, hy⟩ := processRecord_flags_of_sample st ev h
  refine ⟨hx, hy, ?_⟩
  rcases hlack with hno | hno
  · exact no_sample_without_axisX records _ hx hno
  · exact no_sample_without_axisY records _ hy hno

/-- The instance of C11 named by the specification: after `axis(X,100), axis(Y,200),
button(TOUCH,1)` has produced its sample, a repeated `axis(X,100)` with no axis Y record
produces nothing, whatever triggers follow. -/
theorem fresh_axes_required_witness :
    emitsSample (readLoop freshWindow [axisX 100, axisY 200]) (buttonTouch 1) = true ∧
    sampleCount (processRecord (readLoop freshWindow [axisX 100, axisY 200]) (buttonTouch 1))
      [axisX 100, synReport, axisX 100, buttonTouch 1, synReport] = 0 :=
  ⟨by decide,
   (fresh_axes_required (readLoop freshWindow [axisX 100, axisY 200]) (buttonTouch 1)
      [axisX 100, synReport, axisX 100, buttonTouch 1, synReport] (by decide)
      (Or.inr (by decide))).2.2.1⟩

/-- C12: the terminal state is absorbing.  Once `currentPointIndex` has reached the number of
targets, a call of `readInputDevice` on any record stream leaves `currentPointIndex`,
`actualTouchPoints` and the six parameters unchanged, captures nothing and never calls
`calculateTransformationMatrix`. -/
theorem terminal_state_absorbing (s : MainWindow) (records : List input_event)
    (readError : Bool) (h : s.targetPoints.length ≤ s.currentPointIndex) :
    (readInputDevice s records readError).currentPointIndex = s.currentPointIndex ∧
    (readInputDevice s records readError).actualTouchPoints = s.actualTouchPoints ∧
    (readInputDevice s records readError).matrix = s.matrix ∧
    capturedBuffers (s, ⟨[], false⟩) records = [] ∧
    solverCalls (s, ⟨[], false⟩) records = 0 := by
  obtain ⟨h1, h2, _, h4, h5, h6⟩ := foldl_processRecord_terminal records (s, ⟨[], false⟩) h
  obtain ⟨_, f2, f3⟩ := readInputDevice_fields s records readError
  rw [readInputDevice_currentPointIndex, f2, f3]
  exact ⟨h4, h5, h6, h2, h1⟩

/-- An instance of C12: with all five points recorded, a held contact of 20 samples changes
nothing. -/
theorem terminal_state_absorbing_witness :
    shiftedWindow.targetPoints.length ≤ shiftedWindow.currentPointIndex ∧
    (readInputDevice shiftedWindow heldContact false).currentPointIndex = 5 ∧
    (readInputDevice shiftedWindow heldContact false).actualTouchPoints =
      shiftedWindow.actualTouchPoints ∧
    solverCalls (shiftedWindow, ⟨[], false⟩) heldContact = 0 :=
  ⟨by decide,
   (terminal_state_absorbing shiftedWindow heldContact false (by decide)).1,
   (terminal_state_absorbing shiftedWindow heldContact false (by decide)).2.1,
   (terminal_state_absorbing shiftedWindow heldContact false (by decide)).2.2.2.2⟩

/-- C14 fails as stated: after `axis(X,100), axis(Y,200), button(TOUCH,1), axis(X,110),
axis(Y,210)` a contact is active and both flags are pending; the record `SYN_REPORT`, which
is neither an axis record nor a `BTN_TOUCH` record, then pushes the sample `(110, 110)` to
the buffer and clears both flags. -/
theorem syn_report_produces_sample :
    synReport.type ≠ EV_ABS ∧ ¬ (synReport.type = EV_KEY ∧ synReport.code = BTN_TOUCH) ∧
    (readLoop freshWindow
      [axisX 100, axisY 200, buttonTouch 1, axisX 110, axisY 210]).2.Points = [⟨100, 100⟩] ∧
    (readLoop freshWindow
      [axisX 100, axisY 200, buttonTouch 1, axisX 110, axisY 210]).1.hasX = true ∧
    (readLoop freshWindow
      [axisX 100, axisY 200, buttonTouch 1, axisX 110, axisY 210, synReport]).2.Points =
        [⟨100, 100⟩, ⟨110, 110⟩] ∧
    (readLoop freshWindow
      [axisX 100, axisY 200, buttonTouch 1, axisX 110, axisY 210, synReport]).1.hasX = false := by
  decide

/-- C14, as amended: a record that is neither an axis X/Y record nor a `BTN_TOUCH` record
leaves the object and the locals unchanged when it is an axis record of another code, when
no contact is active, or when a pending flag is clear; with a contact active and both flags
pending, such a non-axis record is a sample trigger: it produces a sample and clears both
flags. -/
theorem other_records_ignored_unless_trigger (st : MainWindow × Locals) (ev : input_event)
    (hax : ¬ (ev.type = EV_ABS ∧ (ev.code = ABS_X ∨ ev.code = ABS_Y)))
    (hbt : ¬ (ev.type = EV_KEY ∧ ev.code = BTN_TOUCH)) :
    ((ev.type = EV_ABS ∨ st.2.pen_down = false ∨ ¬ (st.1.hasX = true ∧ st.1.hasY = true)) →
      processRecord st ev = st) ∧
    ((ev.type ≠ EV_ABS ∧ st.2.pen_down = true ∧ st.1.hasX = true ∧ st.1.hasY = true) →
      emitsSample st ev = true ∧ (processRecord st ev).1.hasX = false ∧
        (processRecord st ev).1.hasY = false) := by
  refine ⟨processRecord_other_idle st ev hax hbt, ?_⟩
  rintro ⟨h1, hp, hf⟩
  have he := emitsSample_of_active st ev h1 hp hf
  exact ⟨he, processRecord_flags_of_sample st ev he⟩

/-- An instance of C14 as amended: `SYN_REPORT` met with a flag pending and no contact. -/
theorem other_records_ignored_unless_trigger_witness :
    processRecord (readLoop freshWindow [axisX 100]) synReport =
      readLoop freshWindow [axisX 100] :=
  (other_records_ignored_unless_trigger (readLoop freshWindow [axisX 100]) synReport
    (by decide) (by decide)).1 (Or.inr (Or.inl (by decide)))

/-- C19 fails as stated: the design matrix of the five collinear points of
`offsetLineWindow` is singular and `invertMatrix3x3` returns `true` on it, the determinant
it computes being 256; `unitDetMatrix` has determinant 1 and `invertMatrix3x3` returns
`false` on it, the determinant it computes being 0, because `(2^27 + 1)^2` is no `double`
and rounds to `2^54 + 2^28`. -/
theorem invertMatrix3x3_misjudges_after_rounding :
    (M_design offsetLineWindow.actualTouchPoints).det = 0 ∧
    det3Double (binary64 false) (M_design offsetLineWindow.actualTouchPoints) = 256 ∧
    (invertMatrix3x3Double (binary64 false)
      (M_design offsetLineWindow.actualTouchPoints) 0).1 = true ∧
    unitDetMatrix.det = 1 ∧
    det3Double (binary64 false) unitDetMatrix = 0 ∧
    (invertMatrix3x3Double (binary64 false) unitDetMatrix 0).1 = false := by
  have h1 : det3Double (binary64 false) (M_design offsetLineWindow.actualTouchPoints) = 256 := by
    rw [M_design_offsetLine]; exact det3Double_offsetLine_matrix
  refine ⟨?_, h1, ?_, det_unitDetMatrix, det3Double_unitDetMatrix, ?_⟩
  · rw [← det3_eq_det]; exact det_M_design_eq_zero _ (by decide)
  · rw [invertMatrix3x3Double_fst, h1, qFuzzyIsNullDouble_of_one_le false _ (by norm_num)]
    rfl
  · rw [invertMatrix3x3Double_fst, det3Double_unitDetMatrix, qFuzzyIsNullDouble_zero]
    rfl

/-- C19, amended: with or without contraction, `invertMatrix3x3` returns `false` exactly
when the determinant it has computed in `double` arithmetic is at most the `double`
`0.000000000001` in absolute value, and then leaves `M_out` as it was.  On a matrix of
integers of absolute value at most `B`, with `6 * B^3 < 2^53`, no operation of the
determinant rounds: the value computed is the determinant, and the function returns `false`
when the matrix is singular and `true` when it is not. -/
theorem invertMatrix3x3Double_false_iff (fused : Bool) (M M_out : Mat3) :
    ((invertMatrix3x3Double (binary64 fused) M M_out).1 = false ↔
      |det3Double (binary64 fused) M| ≤ roundDouble (1 / 1000000000000)) ∧
    ((invertMatrix3x3Double (binary64 fused) M M_out).1 = false →
      (invertMatrix3x3Double (binary64 fused) M M_out).2 = M_out) ∧
    (∀ B : Nat, (∀ i j, IsIntLe B (M i j)) → 6 * B ^ 3 < 2 ^ 53 →
      det3Double (binary64 fused) M = M.det ∧
      (M.det = 0 → (invertMatrix3x3Double (binary64 fused) M M_out).1 = false) ∧
      (M.det ≠ 0 → (invertMatrix3x3Double (binary64 fused) M M_out).1 = true)) := by
  have hiff : (invertMatrix3x3Double (binary64 fused) M M_out).1 = false ↔
      |det3Double (binary64 fused) M| ≤ roundDouble (1 / 1000000000000) := by
    rw [invertMatrix3x3Double_fst]
    simp [qFuzzyIsNullDouble, binary64]
  refine ⟨hiff, ?_, ?_⟩
  · intro h
    rw [invertMatrix3x3Double_fst] at h
    rw [invertMatrix3x3Double_of_null _ _ _ (by simpa using h)]
  · intro B hM hB
    obtain ⟨h1, h2, h3⟩ := invertMatrix3x3Double_of_bounded fused M B hM hB
    exact ⟨h1, fun h => h2 h M_out, fun h => h3 h M_out⟩

/-- An instance of C19: `exampleMatrix` has integer entries of absolute value at most 4 and
determinant 16; the determinant computed is 16 and `invertMatrix3x3` returns `true`. -/
theorem invertMatrix3x3Double_false_iff_witness :
    ((∀ i j, IsIntLe 4 (exampleMatrix i j)) ∧ 6 * 4 ^ 3 < 2 ^ 53 ∧ exampleMatrix.det ≠ 0) ∧
    det3Double (binary64 true) exampleMatrix = exampleMatrix.det ∧
    (invertMatrix3x3Double (binary64 true) exampleMatrix 0).1 = true :=
  have hM : ∀ i j, IsIntLe 4 (exampleMatrix i j) := by
    intro i j
    fin_cases i <;> fin_cases j
    · exact ⟨4, by simp [exampleMatrix, Matrix.vecHead, Matrix.vecTail], by decide⟩
    · exact ⟨2, by simp [exampleMatrix, Matrix.vecHead, Matrix.vecTail], by decide⟩
    · exact ⟨2, by simp [exampleMatrix, Matrix.vecHead, Matrix.vecTail], by decide⟩
    · exact ⟨2, by simp [exampleMatrix, Matrix.vecHead, Matrix.vecTail], by decide⟩
    · exact ⟨3, by simp [exampleMatrix, Matrix.vecHead, Matrix.vecTail], by decide⟩
    · exact ⟨1, by simp [exampleMatrix, Matrix.vecHead, Matrix.vecTail], by decide⟩
    · exact ⟨2, by simp [exampleMatrix, Matrix.vecHead, Matrix.vecTail], by decide⟩
    · exact ⟨1, by simp [exampleMatrix, Matrix.vecHead, Matrix.vecTail], by decide⟩
    · exact ⟨3, by simp [exampleMatrix, Matrix.vecHead, Matrix.vecTail], by decide⟩
  have hd : exampleMatrix.det ≠ 0 := by
    rw [← det3_eq_det]
    exact ne_zero_of_qFuzzyIsNull_false _ exampleMatrix_not_null
  ⟨⟨hM, by decide, hd⟩,
   ((invertMatrix3x3Double_false_iff true exampleMatrix 0).2.2 4 hM (by decide)).1,
   ((invertMatrix3x3Double_false_iff true exampleMatrix 0).2.2 4 hM (by decide)).2.2 hd⟩

/-- C17 fails as stated: the three raw points `(10^9, 10^9)`, `(10^9 + 1, 10^9)`,
`(10^9, 10^9 + 1)` are not collinear and the determinant of their design matrix is 1, the
squared determinant of the one triple; but the sums `S_xx` and `S_yy` round to
`3000000002000000000`, the value of `S_xy`, the determinant that `invertMatrix3x3` computes
is 0, the function returns `false`, and `calculateTransformationMatrix` ends on the
singular-matrix return. -/
theorem non_collinear_points_rejected_after_rounding :
    ¬ collinear farTriangleWindow.actualTouchPoints ∧
    3 ≤ farTriangleWindow.actualTouchPoints.length ∧
    farTriangleWindow.actualTouchPoints.length ≤ farTriangleWindow.targetPoints.length ∧
    det3 (M_design farTriangleWindow.actualTouchPoints) = 1 ∧
    det3Double (binary64 false)
      (M_designDouble (binary64 false) farTriangleWindow.actualTouchPoints) = 0 ∧
    (invertMatrix3x3Double (binary64 false)
      (M_designDouble (binary64 false) farTriangleWindow.actualTouchPoints) 0).1 = false ∧
    calculateTransformationMatrixDouble (binary64 false) farTriangleWindow =
      (farTriangleWindow, SolveOutcome.singularDesignMatrix) := by
  have hq : qFuzzyIsNullDouble (binary64 false) (det3Double (binary64 false)
      (M_designDouble (binary64 false) farTriangleWindow.actualTouchPoints)) = true := by
    rw [det3Double_farTriangle]; exact qFuzzyIsNullDouble_zero false
  refine ⟨by decide, by decide, by decide, det3_farTriangle, det3Double_farTriangle, ?_,
    calculateTransformationMatrixDouble_of_null _ _ (by decide) hq⟩
  rw [invertMatrix3x3Double_fst, hq]; rfl

/-- C17, amended: for raw points whose coordinates are at most `B` in absolute value, with
`6 * N^3 * B^4 < 2^53` (for `N = 5`: `B <= 1861`), no operation of the determinant rounds,
with or without contraction: the determinant that `invertMatrix3x3` computes for the design
matrix is the sum over the index triples `i < j < k` of the squared 3x3 determinant of the
rows `(x, y, 1)`; it is a non-negative integer, and it is 0 exactly when the raw points are
collinear.  For raw points not all collinear it is at least 1, the test `|det| <= 1e-12`
does not fire, the inversion returns `true` and, the targets being there,
`calculateTransformationMatrix` runs to its end: it stores the six parameters computed from
the inverse and ends with the two average errors. -/
theorem singular_only_for_degenerate_in_exact_range (fused : Bool) (s : MainWindow) (B : Nat)
    (hB : ∀ p ∈ s.actualTouchPoints, p.x.natAbs ≤ B ∧ p.y.natAbs ≤ B)
    (hr : 6 * s.actualTouchPoints.length ^ 3 * B ^ 4 < 2 ^ 53) :
    det3Double (binary64 fused) (M_designDouble (binary64 fused) s.actualTouchPoints) =
      ∑ k in range s.actualTouchPoints.length, ∑ j in range k, ∑ i in range j,
        ((rowsDet (nth s.actualTouchPoints i) (nth s.actualTouchPoints j)
          (nth s.actualTouchPoints k) : Int) : ℚ) ^ 2 ∧
    (∃ z : Nat, det3Double (binary64 fused)
      (M_designDouble (binary64 fused) s.actualTouchPoints) = (z : ℚ)) ∧
    (det3Double (binary64 fused) (M_designDouble (binary64 fused) s.actualTouchPoints) = 0 ↔
      collinear s.actualTouchPoints) ∧
    (¬ collinear s.actualTouchPoints →
      1 ≤ det3Double (binary64 fused) (M_designDouble (binary64 fused) s.actualTouchPoints) ∧
      qFuzzyIsNullDouble (binary64 fused) (det3Double (binary64 fused)
        (M_designDouble (binary64 fused) s.actualTouchPoints)) = false ∧
      (invertMatrix3x3Double (binary64 fused)
        (M_designDouble (binary64 fused) s.actualTouchPoints) 0).1 = true ∧
      (s.actualTouchPoints.length ≤ s.targetPoints.length →
        calculateTransformationMatrixDouble (binary64 fused) s =
          ({ s with matrix := (solveParametersDouble (binary64 fused)
              (invertMatrix3x3Double (binary64 fused)
                (M_designDouble (binary64 fused) s.actualTouchPoints) 0).2
              (R_x_vecDouble (binary64 fused) s.actualTouchPoints s.targetPoints)
              (R_y_vecDouble (binary64 fused) s.actualTouchPoints s.targetPoints)) },
           SolveOutcome.solved
            ((binary64 fused).div (totalErrorXDouble (binary64 fused)
              (solveParametersDouble (binary64 fused)
                (invertMatrix3x3Double (binary64 fused)
                  (M_designDouble (binary64 fused) s.actualTouchPoints) 0).2
                (R_x_vecDouble (binary64 fused) s.actualTouchPoints s.targetPoints)
                (R_y_vecDouble (binary64 fused) s.actualTouchPoints s.targetPoints))
              s.actualTouchPoints s.targetPoints) (s.actualTouchPoints.length : ℚ))
            ((binary64 fused).div (totalErrorYDouble (binary64 fused)
              (solveParametersDouble (binary64 fused)
                (invertMatrix3x3Double (binary64 fused)
                  (M_designDouble (binary64 fused) s.actualTouchPoints) 0).2
                (R_x_vecDouble (binary64 fused) s.actualTouchPoints s.targetPoints)
                (R_y_vecDouble (binary64 fused) s.actualTouchPoints s.targetPoints))
              s.actualTouchPoints s.targetPoints) (s.actualTouchPoints.length : ℚ))))) := by
  have he := (det3Double_M_design_exact fused _ B hB hr).2
  rw [he]
  refine ⟨det_M_design_eq_sum _, det_M_design_natCast _, det_M_design_eq_zero_iff _, ?_⟩
  intro hnc
  have h1 := one_le_det_M_design _ hnc
  have hq : qFuzzyIsNullDouble (binary64 fused) (det3 (M_design s.actualTouchPoints)) =
      false :=
    qFuzzyIsNullDouble_of_one_le fused _ (h1.trans (le_abs_self _))
  have h3 : 3 ≤ s.actualTouchPoints.length := by
    by_contra hlt
    exact hnc (collinear_of_length_lt _ (by omega))
  refine ⟨h1, hq, ?_, ?_⟩
  · rw [invertMatrix3x3Double_fst, he, hq]; rfl
  · intro hlen
    exact calculateTransformationMatrixDouble_of_solvable _ s h3 (by rw [he]; exact hq) hlen

/-- An instance of C17: the five raw points of `shiftedWindow`, whose coordinates are at
most 745, are not collinear; the determinant computed is at least 1 and the solver runs to
its end. -/
theorem singular_only_for_degenerate_in_exact_range_witness :
    ((∀ p ∈ shiftedWindow.actualTouchPoints, p.x.natAbs ≤ 745 ∧ p.y.natAbs ≤ 745) ∧
      6 * shiftedWindow.actualTouchPoints.length ^ 3 * 745 ^ 4 < 2 ^ 53) ∧
    ¬ collinear shiftedWindow.actualTouchPoints ∧
    1 ≤ det3Double (binary64 true)
      (M_designDouble (binary64 true) shiftedWindow.actualTouchPoints) ∧
    (invertMatrix3x3Double (binary64 true)
      (M_designDouble (binary64 true) shiftedWindow.actualTouchPoints) 0).1 = true ∧
    (∃ eX eY, (calculateTransformationMatrixDouble (binary64 true) shiftedWindow).2 =
      SolveOutcome.solved eX eY) :=
  ⟨⟨by decide, by decide⟩, by decide,
   ((singular_only_for_degenerate_in_exact_range true shiftedWindow 745 (by decide)
     (by decide)).2.2.2 (by decide)).1,
   ((singular_only_for_degenerate_in_exact_range true shiftedWindow 745 (by decide)
     (by decide)).2.2.2 (by decide)).2.2.1,
   ⟨_, _, congrArg Prod.snd
     (((singular_only_for_degenerate_in_exact_range true shiftedWindow 745 (by decide)
       (by decide)).2.2.2 (by decide)).2.2.2 (by decide))⟩⟩

/-- C13 fails as stated: recording the fifth point from the same buffer, the solver succeeds
on `fourCornersWindow` and fails on `fourDiagonalWindow`, and the message displayed after
`calculateTransformationMatrix` has returned, like the state of the notifier, is the same
in both. -/
theorem completion_message_hides_failure :
    (∃ eX eY, solveAtCapture fourCornersWindow samplesAt395 = SolveOutcome.solved eX eY) ∧
    solveAtCapture fourDiagonalWindow samplesAt395 = SolveOutcome.singularDesignMatrix ∧
    (capturePoint fourCornersWindow samplesAt395).message =
      (capturePoint fourDiagonalWindow samplesAt395).message ∧
    (capturePoint fourCornersWindow samplesAt395).notifierEnabled =
      (capturePoint fourDiagonalWindow samplesAt395).notifierEnabled := by
  have h1 := capturePoint_last fourCornersWindow samplesAt395 (by decide)
  have h2 := capturePoint_last fourDiagonalWindow samplesAt395 (by decide)
  refine ⟨solveAtCapture_fourCorners, solveAtCapture_fourDiagonal, ?_, ?_⟩
  · rw [h1.1, h2.1]
  · rw [h1.2.1, h2.2.1]

/-- C13, as amended: when the point recorded is the last one, the capture block displays
"Calibration Complete! Check console for matrix." and leaves the notifier disabled whatever
the outcome of `calculateTransformationMatrix`; a failed solve (too few points or a singular
design matrix) leaves the six parameters as they were. -/
theorem completion_reported_whatever_the_outcome (s : MainWindow) (Points : List QPoint)
    (h : ¬ (s.currentPointIndex + 1 < s.targetPoints.length)) :
    (capturePoint s Points).message = "Calibration Complete! Check console for matrix." ∧
    (capturePoint s Points).notifierEnabled = false ∧
    ((solveAtCapture s Points = SolveOutcome.insufficientPoints ∨
        solveAtCapture s Points = SolveOutcome.singularDesignMatrix) →
      (capturePoint s Points).matrix = s.matrix) :=
  capturePoint_last s Points h

/-- An instance of C13 as amended: the failed solve on `fourDiagonalWindow`. -/
theorem completion_reported_whatever_the_outcome_witness :
    ¬ (fourDiagonalWindow.currentPointIndex + 1 < fourDiagonalWindow.targetPoints.length) ∧
    (capturePoint fourDiagonalWindow samplesAt395).message =
      "Calibration Complete! Check console for matrix." ∧
    (capturePoint fourDiagonalWindow samplesAt395).matrix = fourDiagonalWindow.matrix :=
  ⟨by decide,
   (completion_reported_whatever_the_outcome fourDiagonalWindow samplesAt395 (by decide)).1,
   (completion_reported_whatever_the_outcome fourDiagonalWindow samplesAt395 (by decide)).2.2
      (Or.inr solveAtCapture_fourDiagonal)⟩

/-- C15: the session invariant.  In every state reachable from construction by calls of
`readInputDevice`, `actualTouchPoints.size() == currentPointIndex <= targetPoints.size() == 5`;
a further call keeps the targets, appends one recorded point per capture to
`actualTouchPoints` without altering the earlier ones, and raises `currentPointIndex` by the
same number; the reads of `targetPoints[i]` made by `calculateTransformationMatrix`, called
on the state or from the capture block, are in range. -/
theorem session_invariant (s : MainWindow) (h : Reachable s) :
    s.actualTouchPoints.length = s.currentPointIndex ∧
    s.currentPointIndex ≤ s.targetPoints.length ∧
    s.targetPoints.length = 5 ∧
    (∀ (records : List input_event) (readError : Bool),
      (readInputDevice s records readError).targetPoints = s.targetPoints ∧
      (readInputDevice s records readError).actualTouchPoints =
        s.actualTouchPoints ++ (capturedBuffers (s, ⟨[], false⟩) records).map recordedPoint ∧
      (readInputDevice s records readError).currentPointIndex =
        s.currentPointIndex + (capturedBuffers (s, ⟨[], false⟩) records).length) ∧
    (calculateTransformationMatrix s).2 ≠ SolveOutcome.targetOutOfRange ∧
    (∀ Points : List QPoint, s.currentPointIndex < s.targetPoints.length →
      solveAtCapture s Points ≠ SolveOutcome.targetOutOfRange) := by
  obtain ⟨h1, h2, h3, _, _⟩ := reachable_invariants s h
  refine ⟨h1, h2, h3, ?_, ?_, ?_⟩
  · intro records readError
    obtain ⟨f1, f2, _⟩ := readInputDevice_fields s records readError
    obtain ⟨t1, t2, t3⟩ := foldl_processRecord_trace records (s, ⟨[], false⟩)
    rw [readInputDevice_currentPointIndex, f1, f2]
    exact ⟨t1, t2, t3⟩
  · exact calculateTransformationMatrix_ne_outOfRange s (by omega)
  · intro Points hlt
    unfold solveAtCapture
    apply calculateTransformationMatrix_ne_outOfRange
    simp only [List.length_append, List.length_singleton]
    omega

/-- An instance of C15: the state after a held contact of 20 samples on a fresh window. -/
theorem session_invariant_witness :
    Reachable (readInputDevice (constructMainWindow 800 480 true) heldContact false) ∧
    (readInputDevice (constructMainWindow 800 480 true) heldContact false).actualTouchPoints.length =
      (readInputDevice (constructMainWindow 800 480 true) heldContact false).currentPointIndex ∧
    (readInputDevice (constructMainWindow 800 480 true) heldContact false).targetPoints.length = 5 :=
  ⟨reachable_heldContact,
   (session_invariant _ reachable_heldContact).1,
   (session_invariant _ reachable_heldContact).2.2.1⟩

/-- C16 fails as stated when the compiler contracts `a * b - c` into a fused multiply-add:
five contacts at the raw positions 1000, 29500, 29500, 1000, 15500 lead to a reachable state
whose five recorded points have equal coordinates, and the determinant computed for their
design matrix is 512, the rounding error of `1982750000 * 4061500000`.  The inversion
returns `true`, and the solver, called when the fifth point is recorded, has stored the
parameters `[0, 0, 1000, 0, 0, 600]`. -/
theorem fused_determinant_of_diagonal_points :
    ReachableDouble (binary64 true)
      (readInputDeviceDouble (binary64 true) (constructMainWindow 800 480 true)
        fiveContacts false) ∧
    (readInputDeviceDouble (binary64 true) (constructMainWindow 800 480 true)
        fiveContacts false).actualTouchPoints =
      fiveContactPoints ∧
    det3Double (binary64 true) (M_designDouble (binary64 true)
      (readInputDeviceDouble (binary64 true) (constructMainWindow 800 480 true)
        fiveContacts false).actualTouchPoints) = 512 ∧
    (invertMatrix3x3Double (binary64 true) (M_designDouble (binary64 true)
      (readInputDeviceDouble (binary64 true) (constructMainWindow 800 480 true)
        fiveContacts false).actualTouchPoints) 0).1 = true ∧
    (readInputDeviceDouble (binary64 true) (constructMainWindow 800 480 true)
        fiveContacts false).matrix = ![0, 0, 1000, 0, 0, 600] := by
  have hp := readInputDeviceDouble_fiveContacts true
  have hr : ReachableDouble (binary64 true)
      (readInputDeviceDouble (binary64 true) (constructMainWindow 800 480 true)
        fiveContacts false) :=
    ReachableDouble.read _ _ _ (ReachableDouble.construct 800 480 true)
  have hd : det3Double (binary64 true) (M_designDouble (binary64 true)
      (readInputDeviceDouble (binary64 true) (constructMainWindow 800 480 true)
        fiveContacts false).actualTouchPoints) = 512 := by
    rw [hp]; exact det3Double_fiveContacts
  have hq : qFuzzyIsNullDouble (binary64 true) (det3Double (binary64 true)
      (M_designDouble (binary64 true)
        (readInputDeviceDouble (binary64 true) (constructMainWindow 800 480 true)
          fiveContacts false).actualTouchPoints)) = false := by
    rw [hd]
    exact qFuzzyIsNullDouble_of_one_le true _ (by norm_num)
  refine ⟨hr, hp, hd, ?_, readInputDeviceDouble_fiveContacts_matrix⟩
  rw [invertMatrix3x3Double_fst, hq]; rfl

/-- C16, amended: when every `double` operation rounds on its own (no fused multiply-add),
in every state reachable from construction by calls of `readInputDevice` every recorded raw
point has equal coordinates; the determinant that `invertMatrix3x3` computes for the design
matrix of the recorded points is exactly 0, whatever their size, the function returns
`false`, the solver does not run to its end, and the six parameters are still 0. -/
theorem device_calibration_never_solves_unfused (s : MainWindow)
    (h : ReachableDouble (binary64 false) s) (M_out : Mat3) :
    (∀ p ∈ s.actualTouchPoints, p.x = p.y) ∧
    det3Double (binary64 false) (M_designDouble (binary64 false) s.actualTouchPoints) = 0 ∧
    invertMatrix3x3Double (binary64 false)
      (M_designDouble (binary64 false) s.actualTouchPoints) M_out = (false, M_out) ∧
    (∀ eX eY, (calculateTransformationMatrixDouble (binary64 false) s).2 ≠
      SolveOutcome.solved eX eY) ∧
    (calculateTransformationMatrixDouble (binary64 false) s).1.matrix = (fun _ => 0) ∧
    s.matrix = (fun _ => 0) := by
  obtain ⟨_, _, _, hd, hm⟩ := reachable_invariants s (reachable_of_reachableDouble s h)
  have hdet := det3Double_M_design_of_diagonal _ hd
  have hq : qFuzzyIsNullDouble (binary64 false) (det3Double (binary64 false)
      (M_designDouble (binary64 false) s.actualTouchPoints)) = true := by
    rw [hdet]; exact qFuzzyIsNullDouble_zero false
  obtain ⟨hs, hns⟩ := calculateTransformationMatrix_of_collinear s (collinear_of_diagonal _ hd)
  rw [calculateTransformationMatrixDouble_of_diagonal s hd]
  refine ⟨hd, hdet, invertMatrix3x3Double_of_null _ _ _ hq, hns, ?_, hm⟩
  rw [hs, hm]

/-- An instance of C16: the state after the five contacts of `fiveContacts` on a fresh
window holds five recorded points, so the solver has gone as far as the determinant test. -/
theorem device_calibration_never_solves_unfused_witness :
    ReachableDouble (binary64 false)
      (readInputDeviceDouble (binary64 false) (constructMainWindow 800 480 true)
        fiveContacts false) ∧
    (readInputDeviceDouble (binary64 false) (constructMainWindow 800 480 true)
        fiveContacts false).actualTouchPoints =
      fiveContactPoints ∧
    det3Double (binary64 false) (M_designDouble (binary64 false)
      (readInputDeviceDouble (binary64 false) (constructMainWindow 800 480 true)
        fiveContacts false).actualTouchPoints) = 0 ∧
    invertMatrix3x3Double (binary64 false) (M_designDouble (binary64 false)
      (readInputDeviceDouble (binary64 false) (constructMainWindow 800 480 true)
        fiveContacts false).actualTouchPoints) 0 = (false, 0) ∧
    (readInputDeviceDouble (binary64 false) (constructMainWindow 800 480 true)
        fiveContacts false).matrix = (fun _ => 0) :=
  ⟨ReachableDouble.read _ _ _ (ReachableDouble.construct 800 480 true),
   readInputDeviceDouble_fiveContacts false,
   (device_calibration_never_solves_unfused _
     (ReachableDouble.read _ _ _ (ReachableDouble.construct 800 480 true)) 0).2.1,
   (device_calibration_never_solves_unfused _
     (ReachableDouble.read _ _ _ (ReachableDouble.construct 800 480 true)) 0).2.2.1,
   (device_calibration_never_solves_unfused _
     (ReachableDouble.read _ _ _ (ReachableDouble.construct 800 480 true)) 0).2.2.2.2.2⟩

/-- C18: within a call of `readInputDevice`, every buffer handed to `calculateMeanOfPoints`
holds exactly `MAX_POINTS = 10` samples, so it is not empty and the division is by 10; the
captured buffers are the consecutive runs of 10 of the samples the call has produced, the
rest being the buffer left at the end; each capture appends the point reduced from its
buffer; and the buffer holds fewer than 10 samples after every record while a target is
awaited. -/
theorem recorded_point_from_ten_samples (s : MainWindow) (records : List input_event) :
    (∀ b ∈ capturedBuffers (s, ⟨[], false⟩) records,
      b.length = MAX_POINTS ∧ b ≠ [] ∧
      calculateMeanOfPoints b =
        ⟨(wrapLongLong ((b.map fun p => p.x).sum) : ℚ) / 10,
         (wrapLongLong ((b.map fun p => p.y).sum) : ℚ) / 10⟩) ∧
    samplesOf (s, ⟨[], false⟩) records =
      (capturedBuffers (s, ⟨[], false⟩) records).flatten ++ (readLoop s records).2.Points ∧
    (readLoop s records).1.actualTouchPoints =
      s.actualTouchPoints ++ (capturedBuffers (s, ⟨[], false⟩) records).map recordedPoint ∧
    ((readLoop s records).1.currentPointIndex < (readLoop s records).1.targetPoints.length →
      (readLoop s records).2.Points.length < MAX_POINTS) := by
  obtain ⟨b1, b2, b3⟩ := foldl_processRecord_buffers records (s, ⟨[], false⟩)
    (fun _ => by simp [MAX_POINTS]) (fun _ => rfl)
  obtain ⟨_, t2, _⟩ := foldl_processRecord_trace records (s, ⟨[], false⟩)
  refine ⟨?_, ?_, t2, b3⟩
  · intro b hb
    have hl := b1 b hb
    have hne : b ≠ [] := by
      intro h0
      rw [h0] at hl
      cases hl
    refine ⟨hl, hne, ?_⟩
    rw [calculateMeanOfPoints_of_ne_nil b hne, hl]
    simp [MAX_POINTS]
  · simpa using b2

/-- C20: the point recorded from a buffer of 10 samples is the mean with each coordinate
truncated toward zero: its x is the quotient, rounded toward zero, of the sum of the sample
x by 10, and likewise for y; the capture block appends that point. -/
theorem recorded_point_truncates (s : MainWindow) (Points : List QPoint)
    (hlen : Points.length = MAX_POINTS)
    (hx : ∀ p ∈ Points, -2 ^ 31 ≤ p.x ∧ p.x < 2 ^ 31)
    (hy : ∀ p ∈ Points, -2 ^ 31 ≤ p.y ∧ p.y < 2 ^ 31) :
    recordedPoint Points =
      ⟨Int.tdiv (Points.map fun p => p.x).sum 10, Int.tdiv (Points.map fun p => p.y).sum 10⟩ ∧
    (capturePoint s Points).actualTouchPoints =
      s.actualTouchPoints ++
        [⟨Int.tdiv (Points.map fun p => p.x).sum 10,
          Int.tdiv (Points.map fun p => p.y).sum 10⟩] := by
  have h := recordedPoint_eq_tdiv Points hlen hx hy
  exact ⟨h, by rw [capturePoint_actualTouchPoints, h]⟩

/-- The instances of C20 named by the claim: ten samples whose x sum to 1005 record 100, and
ten samples whose x sum to -1005 record -100. -/
theorem recorded_point_truncates_witness :
    ((samplesSum1005.map fun p => p.x).sum = 1005 ∧ (recordedPoint samplesSum1005).x = 100) ∧
    ((samplesSumNeg1005.map fun p => p.x).sum = -1005 ∧
      (recordedPoint samplesSumNeg1005).x = -100) := by
  have h1 := (recorded_point_truncates freshWindow samplesSum1005 (by decide) (by decide)
    (by decide)).1
  have h2 := (recorded_point_truncates freshWindow samplesSumNeg1005 (by decide) (by decide)
    (by decide)).1
  rw [h1, h2]
  decide

/-- C21: `Points` and `pen_down` are locals of each call, the axis flags and last-seen values
are members of the object.  Two calls in a row run the second loop from the empty buffer and
no contact, where one call on the whole stream would go on from the locals of the first part;
flags set in one call are still set in the next; the stream `tenSampleContact` records a
point in one call and none when it is split after 5 samples; and a call that records a point
holds a record `button(TOUCH,1)` that produces the first sample of the call, with at least
10 samples produced from that record on. -/
theorem locals_are_per_call (s : MainWindow) (r1 r2 : List input_event) :
    readInputDevice (readInputDevice s r1 false) r2 false =
      (r2.foldl processRecord ((readLoop s r1).1, ⟨[], false⟩)).1 ∧
    readInputDevice s (r1 ++ r2) false =
      (r2.foldl processRecord ((readLoop s r1).1, (readLoop s r1).2)).1 ∧
    (readLoop (readInputDevice freshWindow [axisX 100, axisY 200] false)
      [buttonTouch 1]).2.Points = [⟨100, 100⟩] ∧
    (readInputDevice freshWindow tenSampleContact false).currentPointIndex = 1 ∧
    (readInputDevice (readInputDevice freshWindow (tenSampleContact.take 16) false)
      (tenSampleContact.drop 16) false).currentPointIndex = 0 ∧
    (∀ readError : Bool,
      s.currentPointIndex < (readInputDevice s r1 readError).currentPointIndex →
      ∃ pre ev post, r1 = pre ++ ev :: post ∧ ev = buttonTouch 1 ∧
        sampleCount (s, ⟨[], false⟩) pre = 0 ∧ emitsSample (readLoop s pre) ev = true ∧
        MAX_POINTS ≤ sampleCount (readLoop s pre) (ev :: post)) := by
  refine ⟨rfl, ?_, by decide, by decide, by decide, ?_⟩
  · show (readLoop s (r1 ++ r2)).1 = _
    rw [readLoop_append]
  · intro readError h
    rw [readInputDevice_currentPointIndex] at h
    exact contact_down_of_recorded_point s r1 h

end Calibration
